import Mathlib

/-!
Storage planner, code buffer and cache of the native JIT core.

A shallow embedding of `src/jit/jit-core.c`.  The VCODE collaborator is
represented by plain data (`vcode_unit_t`); the process-wide machine
register file `mach_regs` and the cache are explicit fields/arguments.
Fatal exits (`jit_abort`, `fatal_trace`, failed `assert`) are values of
`jit_error` returned through `Except`.
-/

set_option autoImplicit false

namespace Nvc

/-! ## The VCODE query surface -/

/-- Opcodes of the VCODE collaborator that `jit-core.c` names; every other
member of the enumeration is `VCODE_OP_OTHER`. -/
inductive vcode_op_t
  | VCODE_OP_CMP | VCODE_OP_CONST | VCODE_OP_ALLOCA | VCODE_OP_LOAD
  | VCODE_OP_LOAD_INDIRECT | VCODE_OP_STORE | VCODE_OP_STORE_INDIRECT
  | VCODE_OP_ADD | VCODE_OP_ADDI | VCODE_OP_SUB | VCODE_OP_MUL
  | VCODE_OP_UNWRAP | VCODE_OP_UARRAY_DIR | VCODE_OP_UARRAY_LEFT
  | VCODE_OP_UARRAY_RIGHT | VCODE_OP_UARRAY_LEN | VCODE_OP_SELECT
  | VCODE_OP_CAST | VCODE_OP_RANGE_NULL | VCODE_OP_COND | VCODE_OP_JUMP
  | VCODE_OP_RETURN | VCODE_OP_COMMENT | VCODE_OP_BOUNDS
  | VCODE_OP_DYNAMIC_BOUNDS | VCODE_OP_INDEX_CHECK | VCODE_OP_OTHER
  deriving DecidableEq, Repr

/-- Type kinds of the VCODE collaborator; kinds that `jit_size_of` does not
list are `VCODE_TYPE_OTHER`. -/
inductive vtype_kind_t
  | VCODE_TYPE_INT | VCODE_TYPE_OFFSET | VCODE_TYPE_POINTER
  | VCODE_TYPE_UARRAY | VCODE_TYPE_OTHER
  deriving DecidableEq, Repr

/-- A VCODE type as seen through `vtype_kind`, `vtype_low`, `vtype_high`. -/
structure vcode_type_t where
  kind : vtype_kind_t
  low : Int
  high : Int
  deriving DecidableEq, Repr

/-- One VCODE op as seen through `vcode_get_op`, `vcode_count_args`,
`vcode_get_arg`, `vcode_get_result`, `vcode_get_type`, `vcode_get_value`.
`result`, `type` and `value` are read only for the ops that have them. -/
structure vcode_op where
  kind : vcode_op_t
  args : List Nat
  result : Nat
  type : vcode_type_t
  value : Int
  deriving DecidableEq, Repr

/-- A VCODE unit: its blocks of ops, and the types of its variables and
registers (`vcode_count_vars`, `vcode_var_type`, `vcode_count_regs`,
`vcode_reg_type`). -/
structure vcode_unit_t where
  blocks : List (List vcode_op)
  nvars : Nat
  var_type : Nat → vcode_type_t
  nregs : Nat
  reg_type : Nat → vcode_type_t

/-- Layout constants of the target that come from headers outside this
file: `sizeof(uarray_t)` and the `offsetof` of the three fields of
`dims[0]`. -/
structure target_t where
  sizeof_uarray_t : Nat
  off_left : Nat
  off_right : Nat
  off_dir : Nat
  deriving DecidableEq, Repr

/-! ## Planner data -/

/-- Ways in which the core stops: `jit_abort`, `fatal_trace` and failed
assertions. -/
inductive jit_error
  | buffer_too_small
  | cannot_analyse (op : Nat)
  | no_definition (op : Nat) (reg : Nat)
  | cannot_allocate (op : Nat)
  | not_uarray_op (op : Nat)
  | missing_size_of
  | assert_defn_block (op : Nat)
  | assert_stack_wptr (op : Nat)
  | assert_src_stack (op : Nat)
  | assert_alloca_args (op : Nat)
  | assert_previous_op
  | vcode_op_out_of_range
  | vcode_index (op : Nat)
  | not_in_cache
  deriving DecidableEq, Repr

/-- The bit set `JIT_F_*` of a VCODE register descriptor, one field per
bit. -/
structure jit_flags_t where
  parameter : Bool
  returned : Bool
  block_local : Bool
  cond_input : Bool
  deriving DecidableEq, Repr

/-- Storage tags of a VCODE register; `JIT_UNDEFINED` is the zero value
left by `xcalloc`. -/
inductive jit_storage_t
  | JIT_UNDEFINED | JIT_CONST | JIT_STACK | JIT_REGISTER | JIT_FLAGS
  deriving DecidableEq, Repr

/-- Descriptor of one VCODE register (`jit_vcode_reg_t`);
`defn_block = none` is `VCODE_INVALID_BLOCK`. -/
structure jit_vcode_reg_t where
  flags : jit_flags_t
  size : Nat
  vcode_reg : Nat
  defn_block : Option Nat
  lifetime : Nat
  use_count : Nat
  state : jit_storage_t
  reg_name : Nat
  stack_offset : Int
  value : Int
  deriving DecidableEq, Repr

/-- Descriptor of one VCODE variable (`jit_vcode_var_t`). -/
structure jit_vcode_var_t where
  vcode_var : Nat
  size : Nat
  state : jit_storage_t
  stack_offset : Int
  deriving DecidableEq, Repr

/-- The role flags `REG_F_*` of a machine register, one field per bit. -/
structure mach_flags_t where
  scratch : Bool
  result : Bool
  callee_save : Bool
  deriving DecidableEq, Repr

/-- One entry of `mach_regs[]`; `usage = none` is `VCODE_INVALID_REG`. -/
structure jit_mach_reg_t where
  name : Nat
  flags : mach_flags_t
  usage : Option Nat
  deriving DecidableEq, Repr

/-- The planner and code-buffer part of `jit_state_t`, together with the
module-scope register file `mach_regs`.  `unit` is the identity of the
compiled unit, addresses are natural numbers and `code_mem` is the memory
the code pointers point into. -/
structure jit_state_t where
  unit : Nat
  code_base : Nat
  code_wptr : Nat
  code_len : Nat
  code_mem : Nat → Nat
  stack_size : Nat
  stack_wptr : Nat
  vcode_regs : Nat → jit_vcode_reg_t
  vcode_vars : Nat → jit_vcode_var_t
  mach_regs : List jit_mach_reg_t

/-- Array store `a[i] = v`. -/
def upd {α : Type} (a : Nat → α) (i : Nat) (v : α) : Nat → α :=
  fun j => if j = i then v else a j

/-- Loop `for (i = lo; i < lo + n; i++) body(i)`, stopping at the first
fatal exit. -/
def for_range {σ ε : Type} (body : Nat → σ → Except ε σ) :
    Nat → Nat → σ → Except ε σ
  | _, 0, s => .ok s
  | i, n + 1, s =>
    match body i s with
    | .error e => .error e
    | .ok s1 => for_range body (i + 1) n s1

/-- Loop over the elements of an array from index `i` on, stopping at the
first fatal exit. -/
def for_each {α σ ε : Type} (body : Nat → α → σ → Except ε σ) :
    Nat → List α → σ → Except ε σ
  | _, [], s => .ok s
  | i, a :: as, s =>
    match body i a s with
    | .error e => .error e
    | .ok s1 => for_each body (i + 1) as s1

/-- The two nested loops shared by `jit_stack_frame`, `jit_analyse` and
`jit_map_storage`: every block in index order (`vcode_select_block(i)`),
every op of it in index order. -/
def for_each_op {σ ε : Type}
    (body : Nat → List vcode_op → Nat → vcode_op → σ → Except ε σ)
    (blocks : List (List vcode_op)) (s : σ) : Except ε σ :=
  for_each (fun i b s1 => for_each (fun j o s2 => body i b j o s2) 0 b s1) 0 blocks s

/-! ## Sizes and alignment -/

/-- The value of `sizeof(void *)`. -/
def sizeof_ptr : Nat := 8

/-- Signed 64-bit wrap-around of a mathematical integer. -/
def wrap_i64 (x : Int) : Int := (x + 2 ^ 63) % 2 ^ 64 - 2 ^ 63

/-- jit_size_of. -/
def jit_size_of (T : target_t) (type : vcode_type_t) : Except jit_error Nat :=
  match type.kind with
  | .VCODE_TYPE_INT =>
    let range := wrap_i64 (type.high - type.low)
    if range ≤ 255 then .ok 1
    else if range ≤ 65535 then .ok 2
    else if range ≤ 4294967295 then .ok 4
    else .ok 8
  | .VCODE_TYPE_UARRAY => .ok T.sizeof_uarray_t
  | .VCODE_TYPE_POINTER => .ok sizeof_ptr
  | .VCODE_TYPE_OFFSET => .ok 4
  | .VCODE_TYPE_OTHER => .error .missing_size_of

/-- jit_align_object. -/
def jit_align_object (size : Nat) (ptr : Nat) : Nat :=
  let size := min size sizeof_ptr
  let align := size - ptr % size
  if align = size then 0 else align

/-! ## Code buffer and cache -/

/-- The copy loop of `jit_emit`: `*(state->code_wptr++) = bytes[i]`. -/
def emit_bytes : List Nat → jit_state_t → jit_state_t
  | [], st => st
  | b :: bs, st =>
    emit_bytes bs { st with code_mem := upd st.code_mem st.code_wptr b,
                            code_wptr := st.code_wptr + 1 }

/-- jit_emit. -/
def jit_emit (st : jit_state_t) (bytes : List Nat) : Except jit_error jit_state_t :=
  if st.code_wptr + bytes.length ≥ st.code_base + st.code_len then
    .error .buffer_too_small
  else
    .ok (emit_bytes bytes st)

/-- Modelled from the spec: the hash table of `hash.h` behind `jit_cache`,
a mapping from unit identity to JIT state; `hash_iter` visits its entries
in table order.  `none` is the `NULL` table before the first compile. -/
abbrev jit_cache_t := Option (List (Nat × jit_state_t))

/-- The `while (hash_iter(...))` scan of `jit_find_in_cache`. -/
def find_scan (mem : Nat) : List (Nat × jit_state_t) → Option jit_state_t
  | [] => none
  | (_, value) :: rest =>
    if mem ≥ value.code_base ∧ mem < value.code_base + value.code_len then some value
    else find_scan mem rest

/-- jit_find_in_cache. -/
def jit_find_in_cache (jit_cache : jit_cache_t) (mem : Nat) : Option jit_state_t :=
  match jit_cache with
  | none => none
  | some entries => find_scan mem entries

/-- Modelled from the spec: `hash_put(h, key, NULL)` of `hash.h`, by which
`jit_free` deletes: the entry of `key` is removed from the table. -/
def hash_put_null (entries : List (Nat × jit_state_t)) (key : Nat) :
    List (Nat × jit_state_t) :=
  entries.filter (fun e => e.1 ≠ key)

/-- jit_free: the cache afterwards (the state itself is released, and the
code buffer is left mapped). -/
def jit_free (jit_cache : jit_cache_t) (mem : Nat) : Except jit_error jit_cache_t :=
  match jit_find_in_cache jit_cache mem with
  | none => .error .not_in_cache
  | some value =>
    match jit_cache with
    | none => .ok none
    | some entries => .ok (some (hash_put_null entries value.unit))

/-! ## Machine-register selection -/

/-- The test `owner->flags & JIT_F_BLOCK_LOCAL && (owner->defn_block !=
vcode_active_block() || owner->lifetime < op)` of `jit_alloc_reg`. -/
def no_longer_in_use (owner : jit_vcode_reg_t) (blk op : Nat) : Bool :=
  owner.flags.block_local && (owner.defn_block != some blk || decide (owner.lifetime < op))

/-- First loop of `jit_alloc_reg` over `mach_regs[i..]`: returns the
register file after eviction and `possible[]`, each candidate with its
index in the file. -/
def alloc_scan (vcode_regs : Nat → jit_vcode_reg_t) (blk op : Nat) :
    Nat → List jit_mach_reg_t → List jit_mach_reg_t × List (Nat × jit_mach_reg_t)
  | _, [] => ([], [])
  | i, m :: ms =>
    let rest := alloc_scan vcode_regs blk op (i + 1) ms
    if m.flags.scratch then (m :: rest.1, rest.2)
    else
      match m.usage with
      | some u =>
        if no_longer_in_use (vcode_regs u) blk op then
          ({ m with usage := none } :: rest.1, (i, { m with usage := none }) :: rest.2)
        else (m :: rest.1, rest.2)
      | none => (m :: rest.1, (i, m) :: rest.2)

/-- Second loop of `jit_alloc_reg`: the choice of `best` among
`possible[]`. -/
def alloc_best (returned : Bool) :
    Option (Nat × jit_mach_reg_t) → List (Nat × jit_mach_reg_t) → Option (Nat × jit_mach_reg_t)
  | best, [] => best
  | none, p :: ps => alloc_best returned (some p) ps
  | some best, p :: ps =>
    if returned && p.2.flags.result then alloc_best returned (some p) ps
    else if best.2.flags.callee_save && !p.2.flags.callee_save then
      alloc_best returned (some p) ps
    else alloc_best returned (some best) ps

/-- The store `best->usage = usage` into entry `i` of the register file. -/
def set_usage : List jit_mach_reg_t → Nat → Nat → List jit_mach_reg_t
  | [], _, _ => []
  | m :: ms, 0, usage => { m with usage := some usage } :: ms
  | m :: ms, i + 1, usage => m :: set_usage ms i usage

/-- jit_alloc_reg: returns the register file afterwards and the index of
the machine register handed out (`none` for `NULL`). -/
def jit_alloc_reg (st : jit_state_t) (blk op : Nat) (usage : Nat) :
    List jit_mach_reg_t × Option Nat :=
  if !(st.vcode_regs usage).flags.block_local then (st.mach_regs, none)
  else
    let scan := alloc_scan st.vcode_regs blk op 0 st.mach_regs
    match alloc_best (st.vcode_regs usage).flags.returned none scan.2 with
    | none => (scan.1, none)
    | some best => (set_usage scan.1 best.1 usage, some best.1)

/-! ## Neighbouring ops -/

/-- jit_is_no_op. -/
def jit_is_no_op (o : vcode_op) : Bool :=
  o.kind = .VCODE_OP_COMMENT

/-- The loop of `jit_next_op` entered with `op` already incremented;
`fuel` bounds the iterations by the number of ops. -/
def next_op_loop (b : List vcode_op) : Nat → Nat → Nat
  | 0, op => op
  | fuel + 1, op =>
    match b[op]? with
    | some o => if jit_is_no_op o then next_op_loop b fuel (op + 1) else op
    | none => op

/-- jit_next_op. -/
def jit_next_op (b : List vcode_op) (op : Nat) : Nat :=
  next_op_loop b b.length (op + 1)

/-- The loop of `jit_previous_op` entered with the value of `op` before
the decrement.  Decrementing 0 gives -1, which passes `op < nops` and is
then handed to `vcode_get_op`, outside the block: `vcode_op_out_of_range`. -/
def previous_op_loop (b : List vcode_op) : Nat → Except jit_error Nat
  | 0 => .error .vcode_op_out_of_range
  | op + 1 =>
    match b[op]? with
    | some o => if jit_is_no_op o then previous_op_loop b op else .ok op
    | none => .ok op

/-- jit_previous_op. -/
def jit_previous_op (b : List vcode_op) (op : Nat) : Except jit_error Nat :=
  if op > 0 then previous_op_loop b op else .error .assert_previous_op

/-! ## Pass A: frame layout -/

/-- Body of the variable loop of `jit_stack_frame`. -/
def stack_frame_var (T : target_t) (u : vcode_unit_t) (i : Nat) (st : jit_state_t) :
    Except jit_error jit_state_t :=
  match jit_size_of T (u.var_type i) with
  | .error e => .error e
  | .ok size =>
    let stack_size := st.stack_size + jit_align_object size st.stack_size
    .ok { st with
      vcode_vars := upd st.vcode_vars i
        { vcode_var := i, size := size, state := .JIT_STACK,
          stack_offset := -(stack_size : Int) - size },
      stack_size := stack_size + size }

/-- Body of the op loop of `jit_stack_frame`. -/
def stack_frame_op (T : target_t) (_i : Nat) (_b : List vcode_op) (j : Nat) (o : vcode_op)
    (st : jit_state_t) : Except jit_error jit_state_t :=
  match o.kind with
  | .VCODE_OP_ALLOCA =>
    if o.args.length ≠ 0 then .error (.assert_alloca_args j)
    else
      match jit_size_of T o.type with
      | .error e => .error e
      | .ok size =>
        .ok { st with
          stack_size := st.stack_size + (jit_align_object size st.stack_size + size) }
  | _ => .ok st

/-- jit_stack_frame. -/
def jit_stack_frame (T : target_t) (u : vcode_unit_t) (st : jit_state_t) :
    Except jit_error jit_state_t :=
  match for_range (stack_frame_var T u) 0 u.nvars { st with stack_size := 0 } with
  | .error e => .error e
  | .ok st1 =>
    for_each_op (stack_frame_op T) u.blocks { st1 with stack_wptr := st1.stack_size }

/-! ## Pass B: per-register analysis -/

/-- jit_must_store_result. -/
def jit_must_store_result (o : vcode_op) : Bool :=
  match o.kind with
  | .VCODE_OP_CONST | .VCODE_OP_LOAD | .VCODE_OP_UARRAY_DIR
  | .VCODE_OP_UARRAY_LEFT | .VCODE_OP_UARRAY_RIGHT => false
  | _ => true

/-- Body of the first loop of `jit_analyse`. -/
def analyse_init (T : target_t) (u : vcode_unit_t) (i : Nat) (st : jit_state_t) :
    Except jit_error jit_state_t :=
  match jit_size_of T (u.reg_type i) with
  | .error e => .error e
  | .ok size =>
    let r := st.vcode_regs i
    .ok { st with
      vcode_regs := upd st.vcode_regs i
        { r with
          flags := { r.flags with block_local := true },
          size := size,
          vcode_reg := i,
          defn_block := if r.flags.parameter then some 0 else none } }

/-- The `switch` of `jit_analyse` for the op `j` of block `i`. -/
def analyse_switch (i : Nat) (b : List vcode_op) (j : Nat) (o : vcode_op)
    (st : jit_state_t) : Except jit_error jit_state_t :=
  match o.kind with
  | .VCODE_OP_RETURN =>
    match o.args with
    | [] => .ok st
    | a :: _ =>
      let r := st.vcode_regs a
      .ok { st with
        vcode_regs := upd st.vcode_regs a { r with flags := { r.flags with returned := true } } }
  | .VCODE_OP_ADDI | .VCODE_OP_CONST | .VCODE_OP_ALLOCA | .VCODE_OP_LOAD_INDIRECT
  | .VCODE_OP_LOAD | .VCODE_OP_CMP | .VCODE_OP_ADD | .VCODE_OP_SUB | .VCODE_OP_MUL
  | .VCODE_OP_UNWRAP | .VCODE_OP_UARRAY_DIR | .VCODE_OP_UARRAY_LEFT
  | .VCODE_OP_UARRAY_RIGHT | .VCODE_OP_UARRAY_LEN | .VCODE_OP_SELECT | .VCODE_OP_CAST
  | .VCODE_OP_RANGE_NULL =>
    let result := o.result
    let r := st.vcode_regs result
    if r.defn_block ≠ none then .error (.assert_defn_block j)
    else
      let regs := upd st.vcode_regs result { r with defn_block := some i }
      if jit_must_store_result o then
        let stack_size := st.stack_size + r.size
        .ok { st with
          vcode_regs := regs,
          stack_size := stack_size + jit_align_object r.size stack_size }
      else .ok { st with vcode_regs := regs }
  | .VCODE_OP_COND =>
    match o.args with
    | [] => .error (.vcode_index j)
    | input :: _ =>
      let r := st.vcode_regs input
      if r.defn_block = some i ∧ j > 0 then
        match jit_previous_op b j with
        | .error e => .error e
        | .ok p =>
          match b[p]? with
          | none => .error (.vcode_index j)
          | some prev =>
            if prev.kind = .VCODE_OP_CMP ∧ prev.result = input then
              .ok { st with
                vcode_regs := upd st.vcode_regs input
                  { r with flags := { r.flags with cond_input := true } } }
            else .ok st
      else .ok st
  | .VCODE_OP_STORE_INDIRECT | .VCODE_OP_STORE | .VCODE_OP_JUMP | .VCODE_OP_COMMENT
  | .VCODE_OP_BOUNDS | .VCODE_OP_DYNAMIC_BOUNDS => .ok st
  | _ => .error (.cannot_analyse j)

/-- Body of the argument loop of `jit_analyse` for one argument `reg` of
the op `j` of block `i`. -/
def analyse_arg (i j : Nat) (_k : Nat) (reg : Nat) (st : jit_state_t) :
    Except jit_error jit_state_t :=
  let r := st.vcode_regs reg
  match r.defn_block with
  | none => .error (.no_definition j reg)
  | some d =>
    if d ≠ i then
      .ok { st with
        vcode_regs := upd st.vcode_regs reg
          { r with flags := { r.flags with block_local := false } } }
    else
      .ok { st with
        vcode_regs := upd st.vcode_regs reg
          { r with lifetime := j, use_count := r.use_count + 1 } }

/-- Body of the op loop of `jit_analyse`. -/
def analyse_op (i : Nat) (b : List vcode_op) (j : Nat) (o : vcode_op) (st : jit_state_t) :
    Except jit_error jit_state_t :=
  match analyse_switch i b j o st with
  | .error e => .error e
  | .ok st1 => for_each (analyse_arg i j) 0 o.args st1

/-- jit_analyse. -/
def jit_analyse (T : target_t) (u : vcode_unit_t) (st : jit_state_t) :
    Except jit_error jit_state_t :=
  match for_range (analyse_init T u) 0 u.nregs st with
  | .error e => .error e
  | .ok st1 => for_each_op analyse_op u.blocks st1

/-! ## Pass C: storage assignment -/

/-- jit_is_ephemeral. -/
def jit_is_ephemeral (b : List vcode_op) (r : jit_vcode_reg_t) (op : Nat) : Bool :=
  r.flags.block_local && decide (r.lifetime = jit_next_op b op)

/-- The name of entry `i` of the register file (`mreg->name`). -/
def mach_name (file : List jit_mach_reg_t) (i : Nat) : Nat :=
  match file[i]? with
  | some m => m.name
  | none => 0

/-- jit_map_result. -/
def jit_map_result (blk : Nat) (op : Nat) (o : vcode_op) (st : jit_state_t) :
    Except jit_error jit_state_t :=
  let result_reg := o.result
  let r := st.vcode_regs result_reg
  match jit_alloc_reg st blk op result_reg with
  | (file, some mreg) =>
    .ok { st with
      mach_regs := file,
      vcode_regs := upd st.vcode_regs result_reg
        { r with state := .JIT_REGISTER, reg_name := mach_name file mreg } }
  | (file, none) =>
    let align := jit_align_object r.size st.stack_wptr
    let stack_offset : Int := st.stack_wptr + align
    let stack_wptr := st.stack_wptr + (align + r.size)
    if ¬ stack_wptr ≤ st.stack_size then .error (.assert_stack_wptr op)
    else
      .ok { st with
        mach_regs := file,
        stack_wptr := stack_wptr,
        vcode_regs := upd st.vcode_regs result_reg
          { r with state := .JIT_STACK, stack_offset := -stack_offset - r.size } }

/-- jit_map_uarray_op. -/
def jit_map_uarray_op (T : target_t) (blk : Nat) (op : Nat) (o : vcode_op)
    (st : jit_state_t) : Except jit_error jit_state_t :=
  match o.args with
  | [] => .error (.vcode_index op)
  | a :: _ =>
    let src := st.vcode_regs a
    if src.state ≠ .JIT_STACK then .error (.assert_src_stack op)
    else
      let result_reg := o.result
      let dest := st.vcode_regs result_reg
      let off : Except jit_error Nat :=
        match o.kind with
        | .VCODE_OP_UARRAY_LEFT => .ok T.off_left
        | .VCODE_OP_UARRAY_RIGHT => .ok T.off_right
        | .VCODE_OP_UARRAY_DIR => .ok T.off_dir
        | _ => .error (.not_uarray_op op)
      match off with
      | .error e => .error e
      | .ok off =>
        let aliased : jit_state_t :=
          { st with
            vcode_regs := upd st.vcode_regs result_reg
              { dest with state := .JIT_STACK, stack_offset := src.stack_offset + off } }
        if dest.use_count ≥ 2 then
          match jit_alloc_reg st blk op result_reg with
          | (file, some mreg) =>
            .ok { st with
              mach_regs := file,
              vcode_regs := upd st.vcode_regs result_reg
                { dest with state := .JIT_REGISTER, reg_name := mach_name file mreg } }
          | (file, none) => .ok { aliased with mach_regs := file }
        else .ok aliased

/-- jit_map_cast. -/
def jit_map_cast (u : vcode_unit_t) (blk : Nat) (op : Nat) (o : vcode_op)
    (st : jit_state_t) : Except jit_error jit_state_t :=
  match o.args with
  | [] => .error (.vcode_index op)
  | src_reg :: _ =>
    let src := st.vcode_regs src_reg
    let dest_reg := o.result
    let dest := st.vcode_regs dest_reg
    let to_kind := o.type.kind
    let from_kind := (u.reg_type src_reg).kind
    let integer_conversion : Bool :=
      (to_kind = .VCODE_TYPE_OFFSET || to_kind = .VCODE_TYPE_INT)
      && (from_kind = .VCODE_TYPE_OFFSET || from_kind = .VCODE_TYPE_INT)
    if integer_conversion && (src.state = .JIT_STACK && decide (dest.use_count ≤ 2)) then
      .ok { st with
        vcode_regs := upd st.vcode_regs dest_reg
          { dest with state := .JIT_STACK, stack_offset := src.stack_offset } }
    else jit_map_result blk op o st

/-- jit_map_storage_for_op, for the op `op` of the active block `blk`. -/
def jit_map_storage_for_op (T : target_t) (u : vcode_unit_t) (blk : Nat) (b : List vcode_op)
    (op : Nat) (o : vcode_op) (st : jit_state_t) : Except jit_error jit_state_t :=
  match o.kind with
  | .VCODE_OP_COMMENT | .VCODE_OP_STORE | .VCODE_OP_COND | .VCODE_OP_JUMP
  | .VCODE_OP_RETURN | .VCODE_OP_BOUNDS | .VCODE_OP_INDEX_CHECK
  | .VCODE_OP_DYNAMIC_BOUNDS => .ok st
  | .VCODE_OP_UARRAY_LEFT | .VCODE_OP_UARRAY_RIGHT | .VCODE_OP_UARRAY_DIR =>
    jit_map_uarray_op T blk op o st
  | .VCODE_OP_CONST =>
    let r := st.vcode_regs o.result
    .ok { st with
      vcode_regs := upd st.vcode_regs o.result
        { r with state := .JIT_CONST, value := o.value } }
  | .VCODE_OP_CMP =>
    let r := st.vcode_regs o.result
    if r.flags.cond_input && jit_is_ephemeral b r op then
      .ok { st with vcode_regs := upd st.vcode_regs o.result { r with state := .JIT_FLAGS } }
    else jit_map_result blk op o st
  | .VCODE_OP_LOAD | .VCODE_OP_MUL | .VCODE_OP_ADD | .VCODE_OP_ADDI
  | .VCODE_OP_RANGE_NULL | .VCODE_OP_SELECT | .VCODE_OP_SUB | .VCODE_OP_UNWRAP
  | .VCODE_OP_LOAD_INDIRECT => jit_map_result blk op o st
  | .VCODE_OP_CAST => jit_map_cast u blk op o st
  | _ => .error (.cannot_allocate op)

/-- jit_map_storage (its trailing loop over the variables has an empty
body). -/
def jit_map_storage (T : target_t) (u : vcode_unit_t) (st : jit_state_t) :
    Except jit_error jit_state_t :=
  for_each_op (jit_map_storage_for_op T u) u.blocks st

/-- The reset `mach_regs[i].usage = VCODE_INVALID_REG` of `jit_vcode_unit`. -/
def reset_usage (file : List jit_mach_reg_t) : List jit_mach_reg_t :=
  file.map (fun m => { m with usage := none })

/-- The planning part of `jit_vcode_unit`, from the frame layout to the
storage assignment, on the state left by `xcalloc` and `jit_bind_params`. -/
def jit_plan (T : target_t) (u : vcode_unit_t) (st : jit_state_t) :
    Except jit_error jit_state_t :=
  match jit_stack_frame T u st with
  | .error e => .error e
  | .ok st1 =>
    match jit_analyse T u st1 with
    | .error e => .error e
    | .ok st2 => jit_map_storage T u st2

/-! ## Notions used to state the properties -/

/-- The fatal exit of a run, if any. -/
def exit_of {σ : Type} : Except jit_error σ → Option jit_error
  | .error e => some e
  | .ok _ => none

/-- A tenant that is no longer live at op `op` of block `blk`: it is
block-local and either defined in another block or last used before
`op`. -/
def dead_tenant (owner : jit_vcode_reg_t) (blk op : Nat) : Prop :=
  owner.flags.block_local = true ∧ (owner.defn_block ≠ some blk ∨ owner.lifetime < op)

instance (owner : jit_vcode_reg_t) (blk op : Nat) : Decidable (dead_tenant owner blk op) :=
  inferInstanceAs (Decidable (_ ∧ _))

/-- An eligible candidate: not SCRATCH, and unassigned or holding a dead
tenant. -/
def eligible (vcode_regs : Nat → jit_vcode_reg_t) (blk op : Nat) (m : jit_mach_reg_t) : Prop :=
  m.flags.scratch = false ∧
    (m.usage = none ∨ ∃ u, m.usage = some u ∧ dead_tenant (vcode_regs u) blk op)

instance (vcode_regs : Nat → jit_vcode_reg_t) (blk op : Nat) (m : jit_mach_reg_t) :
    Decidable (eligible vcode_regs blk op m) :=
  decidable_of_iff
    (m.flags.scratch = false ∧
      m.usage.all (fun u => decide (dead_tenant (vcode_regs u) blk op)) = true)
    (by unfold eligible; cases m.usage <;> simp [Option.all])

/-! ## Concrete states used as examples -/

/-- A VCODE register descriptor as left by `xcalloc`. -/
def zero_reg : jit_vcode_reg_t :=
  { flags := { parameter := false, returned := false, block_local := false, cond_input := false },
    size := 0, vcode_reg := 0, defn_block := none, lifetime := 0, use_count := 0,
    state := .JIT_UNDEFINED, reg_name := 0, stack_offset := 0, value := 0 }

/-- A VCODE variable descriptor as left by `xcalloc`. -/
def zero_var : jit_vcode_var_t :=
  { vcode_var := 0, size := 0, state := .JIT_UNDEFINED, stack_offset := 0 }

/-- The state left by `xcalloc`, with the given machine register file. -/
def zero_state (file : List jit_mach_reg_t) : jit_state_t :=
  { unit := 0, code_base := 0, code_wptr := 0, code_len := 0, code_mem := fun _ => 0,
    stack_size := 0, stack_wptr := 0, vcode_regs := fun _ => zero_reg,
    vcode_vars := fun _ => zero_var, mach_regs := file }

/-- A machine register with the given name and role flags, unassigned. -/
def mk_mach (name : Nat) (scratch result callee_save : Bool) : jit_mach_reg_t :=
  { name := name, flags := { scratch := scratch, result := result, callee_save := callee_save },
    usage := none }

/-- A register file in the usual shape: a RESULT register, a SCRATCH
register, a plain register and a CALLEE_SAVE register. -/
def file_plain : List jit_mach_reg_t :=
  [mk_mach 0 false true false, mk_mach 1 true false false, mk_mach 2 false false false,
   mk_mach 3 false false true]

/-- A state over `file_plain` in which VCODE register 0 is BLOCK_LOCAL and
RETURNED, register 1 is BLOCK_LOCAL, and the others are not. -/
def state_plain : jit_state_t :=
  { zero_state file_plain with
    vcode_regs := fun r =>
      { zero_reg with
        flags := { parameter := false, returned := decide (r = 0),
                   block_local := decide (r ≤ 1), cond_input := false } } }

/-- A register file whose first register is CALLEE_SAVE, followed by a
SCRATCH register and a plain register. -/
def file_callee_first : List jit_mach_reg_t :=
  [mk_mach 0 false false true, mk_mach 1 true false false, mk_mach 2 false false false]

/-- The state `state_plain` over `file_callee_first`. -/
def state_callee_first : jit_state_t :=
  { state_plain with mach_regs := file_callee_first }

/-- An empty code buffer of 4 bytes at address 4096. -/
def state_buffer_4 : jit_state_t :=
  { zero_state [] with code_base := 4096, code_wptr := 4096, code_len := 4 }

/-- The code buffers of the entries of a cache are pairwise disjoint. -/
def buffers_disjoint (entries : List (Nat × jit_state_t)) : Prop :=
  entries.Pairwise (fun e1 e2 =>
    e1.2.code_base + e1.2.code_len ≤ e2.2.code_base ∨
    e2.2.code_base + e2.2.code_len ≤ e1.2.code_base)

/-- A compiled unit whose code buffer is `[base, base + len)`. -/
def state_at (base len : Nat) : jit_state_t :=
  { zero_state [] with code_base := base, code_wptr := base, code_len := len }

/-- A cache with two units, at `[4096, 8192)` and `[12288, 16384)`. -/
def cache_two : List (Nat × jit_state_t) :=
  [(1, state_at 4096 4096), (2, state_at 12288 4096)]

/-- The op `j` of block `i` of a unit, if there is one. -/
def op_at (u : vcode_unit_t) (i j : Nat) : Option vcode_op :=
  match u.blocks[i]? with
  | some b => b[j]?
  | none => none

/-- The op `j1` of block `i1` comes before position `(i, j)` in the order in
which the passes walk the unit. -/
def visited (i j i1 j1 : Nat) : Prop :=
  i1 < i ∨ (i1 = i ∧ j1 < j)

/-- The ops for which `jit_analyse` records a definition of their result. -/
def defines_result (o : vcode_op) : Bool :=
  match o.kind with
  | .VCODE_OP_ADDI | .VCODE_OP_CONST | .VCODE_OP_ALLOCA | .VCODE_OP_LOAD_INDIRECT
  | .VCODE_OP_LOAD | .VCODE_OP_CMP | .VCODE_OP_ADD | .VCODE_OP_SUB | .VCODE_OP_MUL
  | .VCODE_OP_UNWRAP | .VCODE_OP_UARRAY_DIR | .VCODE_OP_UARRAY_LEFT
  | .VCODE_OP_UARRAY_RIGHT | .VCODE_OP_UARRAY_LEN | .VCODE_OP_SELECT | .VCODE_OP_CAST
  | .VCODE_OP_RANGE_NULL => true
  | _ => false

/-- The ops that the `switch` of `jit_analyse` passes over without action. -/
def analyse_skips (o : vcode_op) : Bool :=
  match o.kind with
  | .VCODE_OP_STORE_INDIRECT | .VCODE_OP_STORE | .VCODE_OP_JUMP | .VCODE_OP_COMMENT
  | .VCODE_OP_BOUNDS | .VCODE_OP_DYNAMIC_BOUNDS => true
  | _ => false

/-- The effect of the argument loop of `jit_analyse` on the descriptor of a
register that occurs `n` times among the arguments of the op `j` of block
`i`. -/
def args_effect (i j n : Nat) (r : jit_vcode_reg_t) : jit_vcode_reg_t :=
  if n = 0 then r
  else if r.defn_block = some i then { r with lifetime := j, use_count := r.use_count + n }
  else { r with flags := { r.flags with block_local := false } }

/-- What the `switch` of `jit_analyse` does to the planner state, register
by register. -/
structure switch_facts (i : Nat) (b : List vcode_op) (j : Nat) (o : vcode_op)
    (st st1 : jit_state_t) : Prop where
  frame : st1.mach_regs = st.mach_regs ∧ st1.stack_wptr = st.stack_wptr
  keep : ∀ r, (st1.vcode_regs r).state = (st.vcode_regs r).state ∧
    (st1.vcode_regs r).reg_name = (st.vcode_regs r).reg_name ∧
    (st1.vcode_regs r).size = (st.vcode_regs r).size ∧
    (st1.vcode_regs r).lifetime = (st.vcode_regs r).lifetime ∧
    (st1.vcode_regs r).use_count = (st.vcode_regs r).use_count ∧
    (st1.vcode_regs r).flags.parameter = (st.vcode_regs r).flags.parameter ∧
    (st1.vcode_regs r).flags.block_local = (st.vcode_regs r).flags.block_local
  defn : ∀ r, (st1.vcode_regs r).defn_block =
    if defines_result o = true ∧ r = o.result then some i else (st.vcode_regs r).defn_block
  fresh : defines_result o = true → (st.vcode_regs o.result).defn_block = none
  cond : ∀ r, (st1.vcode_regs r).flags.cond_input = true →
    (st.vcode_regs r).flags.cond_input = true ∨
    ∃ rest p prev, o.kind = .VCODE_OP_COND ∧ o.args = r :: rest ∧
      (st.vcode_regs r).defn_block = some i ∧ jit_previous_op b j = .ok p ∧
      b[p]? = some prev ∧ prev.kind = .VCODE_OP_CMP ∧ prev.result = r

/-- What the body of the op loop of `jit_analyse` does to the planner state,
register by register. -/
structure analyse_step (i : Nat) (b : List vcode_op) (j : Nat) (o : vcode_op)
    (st st1 : jit_state_t) : Prop where
  frame : st1.mach_regs = st.mach_regs ∧ st1.stack_wptr = st.stack_wptr
  keep : ∀ r, (st1.vcode_regs r).state = (st.vcode_regs r).state ∧
    (st1.vcode_regs r).reg_name = (st.vcode_regs r).reg_name ∧
    (st1.vcode_regs r).size = (st.vcode_regs r).size ∧
    (st1.vcode_regs r).flags.parameter = (st.vcode_regs r).flags.parameter
  defn : ∀ r, (st1.vcode_regs r).defn_block =
    if defines_result o = true ∧ r = o.result then some i else (st.vcode_regs r).defn_block
  fresh : defines_result o = true → (st.vcode_regs o.result).defn_block = none
  args_defined : ∀ r ∈ o.args, (st1.vcode_regs r).defn_block ≠ none
  blk_local : ∀ r, (st1.vcode_regs r).flags.block_local = true ↔
    ((st.vcode_regs r).flags.block_local = true ∧
      (r ∈ o.args → (st1.vcode_regs r).defn_block = some i))
  cond : ∀ r, (st1.vcode_regs r).flags.cond_input = true →
    (st.vcode_regs r).flags.cond_input = true ∨
    ∃ rest p prev, o.kind = .VCODE_OP_COND ∧ o.args = r :: rest ∧
      (st1.vcode_regs r).defn_block = some i ∧ jit_previous_op b j = .ok p ∧
      b[p]? = some prev ∧ prev.kind = .VCODE_OP_CMP ∧ prev.result = r
  lifetime : ∀ r, (st1.vcode_regs r).lifetime =
    if r ∈ o.args ∧ (st1.vcode_regs r).defn_block = some i then j
    else (st.vcode_regs r).lifetime

/-- The invariant of the op loop of `jit_analyse`: the planner state `st`
reached at position `(i, j)` from the state `s1` left by the first loop. -/
structure analyse_inv (u : vcode_unit_t) (s1 : jit_state_t) (i j : Nat)
    (st : jit_state_t) : Prop where
  frame : st.mach_regs = s1.mach_regs ∧ st.stack_wptr = s1.stack_wptr
  keep : ∀ r, (st.vcode_regs r).state = (s1.vcode_regs r).state ∧
    (st.vcode_regs r).reg_name = (s1.vcode_regs r).reg_name ∧
    (st.vcode_regs r).size = (s1.vcode_regs r).size ∧
    (st.vcode_regs r).flags.parameter = (s1.vcode_regs r).flags.parameter
  defn : ∀ r d, (st.vcode_regs r).defn_block = some d ↔
    ((s1.vcode_regs r).defn_block = some d ∨
      ∃ j1 o, visited i j d j1 ∧ op_at u d j1 = some o ∧ defines_result o = true ∧
        o.result = r)
  single : ∀ i1 j1 o1, visited i j i1 j1 → op_at u i1 j1 = some o1 →
    defines_result o1 = true →
    (s1.vcode_regs o1.result).defn_block = none ∧
    ∀ i2 j2 o2, visited i j i2 j2 → op_at u i2 j2 = some o2 → defines_result o2 = true →
      o2.result = o1.result → i2 = i1 ∧ j2 = j1
  uses : ∀ i1 j1 o r, visited i j i1 j1 → op_at u i1 j1 = some o → r ∈ o.args →
    (s1.vcode_regs r).defn_block ≠ none ∨
    ∃ d j2 o2, visited i1 (j1 + 1) d j2 ∧ op_at u d j2 = some o2 ∧
      defines_result o2 = true ∧ o2.result = r
  blk_local : ∀ r, (st.vcode_regs r).flags.block_local = true ↔
    ((s1.vcode_regs r).flags.block_local = true ∧
      ∀ i1 j1 o, visited i j i1 j1 → op_at u i1 j1 = some o → r ∈ o.args →
        (st.vcode_regs r).defn_block = some i1)
  cond : ∀ r, (st.vcode_regs r).flags.cond_input = true →
    (s1.vcode_regs r).flags.cond_input = true ∨
    ∃ i1 b j1 o rest p prev, u.blocks[i1]? = some b ∧ b[j1]? = some o ∧
      o.kind = .VCODE_OP_COND ∧ o.args = r :: rest ∧
      (st.vcode_regs r).defn_block = some i1 ∧ jit_previous_op b j1 = .ok p ∧
      b[p]? = some prev ∧ prev.kind = .VCODE_OP_CMP ∧ prev.result = r

/-- The state a run ends in, or `dflt` when it takes a fatal exit. -/
def state_of (r : Except jit_error jit_state_t) (dflt : jit_state_t) : jit_state_t :=
  match r with
  | .ok s => s
  | .error _ => dflt

/-- A 32-bit integer type. -/
def type_i32 : vcode_type_t :=
  { kind := .VCODE_TYPE_INT, low := -2147483648, high := 2147483647 }

/-- Layout constants of an LP64 target: a pointer followed by
`{int32 left; int32 right; int8 dir}`. -/
def target_lp64 : target_t :=
  { sizeof_uarray_t := 24, off_left := 8, off_right := 12, off_dir := 16 }

/-- An op of the given kind, arguments and result, of type `type_i32`. -/
def mk_op (kind : vcode_op_t) (args : List Nat) (result : Nat) : vcode_op :=
  { kind := kind, args := args, result := result, type := type_i32, value := 0 }

/-- A unit with the given blocks, no variables and `nregs` registers of
type `type_i32`. -/
def mk_unit (blocks : List (List vcode_op)) (nregs : Nat) : vcode_unit_t :=
  { blocks := blocks, nvars := 0, var_type := fun _ => type_i32, nregs := nregs,
    reg_type := fun _ => type_i32 }

/-- A unit with one variable and one register, both of type `type_i32`:
block 0 loads `r0` and jumps to block 1, which stores `r0` and returns. -/
def unit_cross_block : vcode_unit_t :=
  { blocks := [[mk_op .VCODE_OP_LOAD [] 0, mk_op .VCODE_OP_JUMP [] 0],
               [mk_op .VCODE_OP_STORE [0] 0, mk_op .VCODE_OP_RETURN [] 0]],
    nvars := 1, var_type := fun _ => type_i32, nregs := 1, reg_type := fun _ => type_i32 }

/-- A unit whose only op `r0 := r0 + r0` takes its own result as
arguments. -/
def unit_self_use : vcode_unit_t :=
  mk_unit [[mk_op .VCODE_OP_ADD [0, 0] 0]] 1

/-- What `jit_map_storage_for_op` does for the op `op` of block `blk`: the
analysis data of every register is kept, only the storage of the result
changes, and the register file changes only by a successful
`jit_alloc_reg` for the result. -/
structure map_step (blk op : Nat) (o : vcode_op) (st st1 : jit_state_t) : Prop where
  analysis : ∀ r, (st1.vcode_regs r).flags = (st.vcode_regs r).flags ∧
    (st1.vcode_regs r).defn_block = (st.vcode_regs r).defn_block ∧
    (st1.vcode_regs r).lifetime = (st.vcode_regs r).lifetime ∧
    (st1.vcode_regs r).use_count = (st.vcode_regs r).use_count ∧
    (st1.vcode_regs r).size = (st.vcode_regs r).size
  others : ∀ r, r ≠ o.result → st1.vcode_regs r = st.vcode_regs r
  alloc :
    (st1.mach_regs = st.mach_regs ∧
      ((st1.vcode_regs o.result).state = .JIT_REGISTER →
        st1.vcode_regs o.result = st.vcode_regs o.result)) ∨
    (∃ k, jit_alloc_reg st blk op o.result = (st1.mach_regs, some k) ∧
      (st1.vcode_regs o.result).state = .JIT_REGISTER ∧
      (st1.vcode_regs o.result).reg_name = mach_name st1.mach_regs k)

/-- What pass C relies on from pass B, for the state `s1` that
`jit_analyse` returns: a register has one defining op, and its `defn_block`
is the block of that op. -/
structure analysed (u : vcode_unit_t) (s1 : jit_state_t) : Prop where
  single : ∀ i1 j1 o1 i2 j2 o2, op_at u i1 j1 = some o1 → op_at u i2 j2 = some o2 →
    defines_result o1 = true → defines_result o2 = true → o1.result = o2.result →
    i1 = i2 ∧ j1 = j2
  defn : ∀ i j o, op_at u i j = some o → defines_result o = true →
    (s1.vcode_regs o.result).defn_block = some i

/-- No two entries of the register file have the same name. -/
def names_distinct (file : List jit_mach_reg_t) : Prop :=
  ∀ (k1 k2 : Nat) (m1 m2 : jit_mach_reg_t),
    file[k1]? = some m1 → file[k2]? = some m2 → m1.name = m2.name → k1 = k2

/-- The invariant of the op loop of `jit_map_storage` about Flags storage:
the planner state `st` reached at position `(i, j)` from the state `s1` left
by `jit_analyse`. -/
structure flags_inv (u : vcode_unit_t) (s1 : jit_state_t) (i j : Nat)
    (st : jit_state_t) : Prop where
  keep : ∀ r, (st.vcode_regs r).flags = (s1.vcode_regs r).flags ∧
    (st.vcode_regs r).defn_block = (s1.vcode_regs r).defn_block ∧
    (st.vcode_regs r).lifetime = (s1.vcode_regs r).lifetime
  flags_only_if : ∀ r, (st.vcode_regs r).state = .JIT_FLAGS →
    (s1.vcode_regs r).state = .JIT_FLAGS ∨
    ∃ i1 b j1 o, visited i j i1 j1 ∧ u.blocks[i1]? = some b ∧ b[j1]? = some o ∧
      o.kind = .VCODE_OP_CMP ∧ o.result = r ∧
      (s1.vcode_regs r).flags.cond_input = true ∧
      jit_is_ephemeral b (s1.vcode_regs r) j1 = true
  flags_if : ∀ i1 b j1 o, visited i j i1 j1 → u.blocks[i1]? = some b → b[j1]? = some o →
    o.kind = .VCODE_OP_CMP → (s1.vcode_regs o.result).flags.cond_input = true →
    jit_is_ephemeral b (s1.vcode_regs o.result) j1 = true →
    (st.vcode_regs o.result).state = .JIT_FLAGS

/-- The invariant of the op loop of `jit_map_storage` about machine
registers: the planner state `st` reached at position `(i, j)` from the state
`s1` left by `jit_analyse`. -/
structure map_inv (u : vcode_unit_t) (s1 : jit_state_t) (i j : Nat)
    (st : jit_state_t) : Prop where
  keep : ∀ r, (st.vcode_regs r).flags = (s1.vcode_regs r).flags ∧
    (st.vcode_regs r).defn_block = (s1.vcode_regs r).defn_block ∧
    (st.vcode_regs r).lifetime = (s1.vcode_regs r).lifetime
  names : ∀ k : Nat, (st.mach_regs[k]?).map (fun (m : jit_mach_reg_t) => m.name)
    = (s1.mach_regs[k]?).map (fun (m : jit_mach_reg_t) => m.name)
  origin : ∀ r, (st.vcode_regs r).state = .JIT_REGISTER →
    (s1.vcode_regs r).flags.block_local = true ∧
    ∃ i1 j1 o, visited i j i1 j1 ∧ op_at u i1 j1 = some o ∧ defines_result o = true ∧
      o.result = r
  tenant : ∀ (r k : Nat) (m : jit_mach_reg_t),
    (st.vcode_regs r).state = .JIT_REGISTER → st.mach_regs[k]? = some m →
    m.name = (st.vcode_regs r).reg_name →
    m.usage = some r ∨ dead_tenant (s1.vcode_regs r) i j
  apart : ∀ r1 r2 i1 j1 o1 i2 j2 o2,
    (st.vcode_regs r1).state = .JIT_REGISTER → (st.vcode_regs r2).state = .JIT_REGISTER →
    (st.vcode_regs r1).reg_name = (st.vcode_regs r2).reg_name →
    op_at u i1 j1 = some o1 → defines_result o1 = true → o1.result = r1 →
    op_at u i2 j2 = some o2 → defines_result o2 = true → o2.result = r2 →
    visited i j i2 j2 → visited i2 j2 i1 j1 →
    i1 ≠ i2 ∨ (s1.vcode_regs r1).lifetime < j2

/-- A unit whose block 0 compares and branches on the result, with a comment
between the `CMP` and the `COND`. -/
def unit_cmp_cond : vcode_unit_t :=
  mk_unit [[mk_op .VCODE_OP_CONST [] 0, mk_op .VCODE_OP_CMP [0, 0] 1,
            mk_op .VCODE_OP_COMMENT [] 0, mk_op .VCODE_OP_COND [1] 0],
           [mk_op .VCODE_OP_RETURN [] 0]] 2

/-- A unit in which `r1` is last used by op 2 and `r2` is defined by op 3 of
the same block. -/
def unit_reuse : vcode_unit_t :=
  mk_unit [[mk_op .VCODE_OP_CONST [] 0, mk_op .VCODE_OP_ADD [0, 0] 1,
            mk_op .VCODE_OP_STORE [1] 0, mk_op .VCODE_OP_ADD [0, 0] 2,
            mk_op .VCODE_OP_RETURN [2] 0]] 3

/-- The state after `jit_analyse`, or `st` when it takes a fatal exit. -/
def analysed_state (T : target_t) (u : vcode_unit_t) (st : jit_state_t) : jit_state_t :=
  state_of (jit_analyse T u st) st

/-- The state after `jit_analyse` and `jit_map_storage`, or `st` when a
fatal exit is taken. -/
def mapped_state (T : target_t) (u : vcode_unit_t) (st : jit_state_t) : jit_state_t :=
  state_of (jit_map_storage T u (analysed_state T u st)) st

/-- A unit whose only block defines `r0` and `r1` and stores `r1` through
`r0`. -/
def unit_store_indirect : vcode_unit_t :=
  mk_unit [[mk_op .VCODE_OP_CONST [] 0, mk_op .VCODE_OP_CONST [] 1,
            mk_op .VCODE_OP_STORE_INDIRECT [1, 0] 0, mk_op .VCODE_OP_RETURN [] 0]] 2

/-- A unit whose only block allocates `r0` and returns. -/
def unit_alloca : vcode_unit_t :=
  mk_unit [[mk_op .VCODE_OP_ALLOCA [] 0, mk_op .VCODE_OP_RETURN [] 0]] 1

/-- The result-less ops of the storage assignment, in the spec's list:
STORE, STORE_INDIRECT, JUMP, COND, RETURN, BOUNDS, DYNAMIC_BOUNDS, COMMENT,
INDEX_CHECK. -/
def result_less (k : vcode_op_t) : Bool :=
  match k with
  | .VCODE_OP_STORE | .VCODE_OP_STORE_INDIRECT | .VCODE_OP_JUMP | .VCODE_OP_COND
  | .VCODE_OP_RETURN | .VCODE_OP_BOUNDS | .VCODE_OP_DYNAMIC_BOUNDS | .VCODE_OP_COMMENT
  | .VCODE_OP_INDEX_CHECK => true
  | _ => false

/-- The ops that the spec hands to the general case `jit_map_result`: ADD,
ADDI, SUB, MUL, LOAD, LOAD_INDIRECT, SELECT, UNWRAP, RANGE_NULL. -/
def general_case (k : vcode_op_t) : Bool :=
  match k with
  | .VCODE_OP_ADD | .VCODE_OP_ADDI | .VCODE_OP_SUB | .VCODE_OP_MUL | .VCODE_OP_LOAD
  | .VCODE_OP_LOAD_INDIRECT | .VCODE_OP_SELECT | .VCODE_OP_UNWRAP
  | .VCODE_OP_RANGE_NULL => true
  | _ => false

/-- A state over `file_plain` in which no VCODE register is BLOCK_LOCAL, the
registers have size 4, and the frame of 8 bytes is used up to byte 2. -/
def state_spill : jit_state_t :=
  { zero_state file_plain with
    stack_size := 8, stack_wptr := 2,
    vcode_regs := fun _ => { zero_reg with size := 4 } }

/-- A type kind of the integer conversions of `jit_map_cast`: INT or
OFFSET. -/
def integer_kind (k : vtype_kind_t) : Prop :=
  k = .VCODE_TYPE_INT ∨ k = .VCODE_TYPE_OFFSET

instance (k : vtype_kind_t) : Decidable (integer_kind k) :=
  inferInstanceAs (Decidable (_ ∨ _))

/-- The condition under which a `CAST` with source register `src` aliases
its result to the source: an integer conversion, a stack-resident source and
a result used at most twice. -/
def cast_aliases (u : vcode_unit_t) (o : vcode_op) (st : jit_state_t) (src : Nat) : Prop :=
  integer_kind o.type.kind ∧ integer_kind (u.reg_type src).kind ∧
    (st.vcode_regs src).state = .JIT_STACK ∧ (st.vcode_regs o.result).use_count ≤ 2

instance (u : vcode_unit_t) (o : vcode_op) (st : jit_state_t) (src : Nat) :
    Decidable (cast_aliases u o st src) :=
  inferInstanceAs (Decidable (_ ∧ _))

/-- The ops that `jit_map_storage_for_op` hands to `jit_map_result`: the
general-case ops, a `CMP` that does not get Flags storage, and a `CAST` that
does not alias its source. -/
def handled_by_map_result (u : vcode_unit_t) (b : List vcode_op) (op : Nat) (o : vcode_op)
    (st : jit_state_t) : Prop :=
  general_case o.kind = true ∨
  (o.kind = .VCODE_OP_CMP ∧
    ¬ ((st.vcode_regs o.result).flags.cond_input = true ∧
        jit_is_ephemeral b (st.vcode_regs o.result) op = true)) ∨
  (o.kind = .VCODE_OP_CAST ∧ ∃ src rest, o.args = src :: rest ∧ ¬ cast_aliases u o st src)

/-- The offset of the field of `dims[0]` that a UARRAY op reads: `left`,
`right` or `dir`. -/
def uarray_field_offset (T : target_t) (k : vcode_op_t) : Nat :=
  match k with
  | .VCODE_OP_UARRAY_LEFT => T.off_left
  | .VCODE_OP_UARRAY_RIGHT => T.off_right
  | _ => T.off_dir

/-- A state over `file_plain` in which `r0` lives in the stack slot at -24,
and `r1`, used three times, and `r2`, used once, are BLOCK_LOCAL. -/
def state_uarray : jit_state_t :=
  { zero_state file_plain with
    stack_size := 24, stack_wptr := 24,
    vcode_regs := fun r =>
      if r = 0 then { zero_reg with size := 24, state := .JIT_STACK, stack_offset := -24 }
      else
        { zero_reg with
          size := 4, use_count := if r = 1 then 3 else 1,
          flags := { parameter := false, returned := false, block_local := true,
                     cond_input := false } } }

/-- Every entry of the cache is filed under the unit of its state, as
`jit_vcode_unit` does (`state->unit = unit; hash_put(jit_cache, unit, state)`),
and no two entries have the same key. -/
def cache_keyed (entries : List (Nat × jit_state_t)) : Prop :=
  (∀ e ∈ entries, e.2.unit = e.1) ∧ entries.Pairwise (fun e1 e2 => e1.1 ≠ e2.1)

/-- A compiled unit `unit` whose code buffer is `[base, base + len)`. -/
def state_of_unit (unit base len : Nat) : jit_state_t :=
  { zero_state [] with unit := unit, code_base := base, code_wptr := base, code_len := len }

/-- A cache with the units 1 and 2, at `[4096, 8192)` and `[12288, 16384)`. -/
def cache_units : List (Nat × jit_state_t) :=
  [(1, state_of_unit 1 4096 4096), (2, state_of_unit 2 12288 4096)]

/-- The size `jit_size_of` gives the variable `i` (0 when it has none). -/
def var_size (T : target_t) (u : vcode_unit_t) (i : Nat) : Nat :=
  match jit_size_of T (u.var_type i) with
  | .ok size => size
  | .error _ => 0

/-- The running frame size after the first `n` variables, in the spec's
words: walk the variables in order; for each, pad the current frame size to
the smaller of the variable's size and the word size, then add its size. -/
def frame_end (T : target_t) (u : vcode_unit_t) : Nat → Nat
  | 0 => 0
  | n + 1 =>
    frame_end T u n + jit_align_object (var_size T u n) (frame_end T u n) + var_size T u n

def type_i8 : vcode_type_t :=
  { kind := .VCODE_TYPE_INT, low := 0, high := 255 }

def type_ptr : vcode_type_t :=
  { kind := .VCODE_TYPE_POINTER, low := 0, high := 0 }

/-- A unit with three variables, of 1, 4 and 8 bytes, and one block that
returns. -/
def unit_three_vars : vcode_unit_t :=
  { blocks := [[mk_op .VCODE_OP_RETURN [] 0]], nvars := 3,
    var_type := fun i => if i = 0 then type_i8 else if i = 1 then type_i32 else type_ptr,
    nregs := 0, reg_type := fun _ => type_i32 }

/-- The state `jit_stack_frame` ends in (the input state when it takes a
fatal exit). -/
def framed_state (T : target_t) (u : vcode_unit_t) (st : jit_state_t) : jit_state_t :=
  state_of (jit_stack_frame T u st) st

/-- The marking event of the spec for the register `r`: the op `j` of block
`i` is a COND at index `j > 0` whose first argument is `r`, and the nearest
preceding non-comment op of `j`, at index `p`, is a CMP whose result is `r`
(which makes that block the one `r` is defined in). -/
def cond_event (u : vcode_unit_t) (r i j : Nat) : Prop :=
  ∃ b o rest p prev, u.blocks[i]? = some b ∧ b[j]? = some o ∧
    o.kind = .VCODE_OP_COND ∧ 0 < j ∧ o.args = r :: rest ∧
    p < j ∧ b[p]? = some prev ∧ prev.kind ≠ .VCODE_OP_COMMENT ∧
    (∀ q, p < q → q < j → ∃ c, b[q]? = some c ∧ c.kind = .VCODE_OP_COMMENT) ∧
    prev.kind = .VCODE_OP_CMP ∧ prev.result = r

/-- The state of `jit_analyse` when its op loop reaches the op `j` of block
`i`: the first loop, the blocks before `i`, and the ops before `j` of block
`i`. -/
def analyse_upto (T : target_t) (u : vcode_unit_t) (i j : Nat) (st : jit_state_t) :
    Except jit_error jit_state_t :=
  match for_range (analyse_init T u) 0 u.nregs st with
  | .error e => .error e
  | .ok st1 =>
    match for_each_op analyse_op (u.blocks.take i) st1 with
    | .error e => .error e
    | .ok st2 =>
      match u.blocks[i]? with
      | none => .ok st2
      | some b => for_each (fun j1 o s => analyse_op i b j1 o s) 0 (b.take j) st2

/-! ## The bytecode assembler -/

/-- The enumeration `Bytecode::OpCode`. -/
inductive Bytecode.OpCode where
  | NOP | MOVW | RET | ADD | MOV | ADDW | STR | LDR | MUL | CMP | CSET | JMP
  | MOVB | ADDB | JMPC | SUB | ANDB | ANDW | TESTB | TESTW | MULB | MULW
  deriving DecidableEq, Repr

/-- The numeric value (`uint8_t`) of each enumerator of `Bytecode::OpCode`. -/
def Bytecode.OpCode.value : Bytecode.OpCode → Nat
  | .NOP => 0x00
  | .MOVW => 0x01
  | .RET => 0x02
  | .ADD => 0x03
  | .MOV => 0x04
  | .ADDW => 0x05
  | .STR => 0x06
  | .LDR => 0x07
  | .MUL => 0x08
  | .CMP => 0x09
  | .CSET => 0x0a
  | .JMP => 0x0b
  | .MOVB => 0x0e
  | .ADDB => 0x0f
  | .JMPC => 0x10
  | .SUB => 0x11
  | .ANDB => 0x12
  | .ANDW => 0x13
  | .TESTB => 0x14
  | .TESTW => 0x15
  | .MULB => 0x16
  | .MULW => 0x17

/-- All enumerators of `Bytecode::OpCode`, in declaration order. -/
def Bytecode.OpCode.all : List Bytecode.OpCode :=
  [.NOP, .MOVW, .RET, .ADD, .MOV, .ADDW, .STR, .LDR, .MUL, .CMP, .CSET, .JMP,
   .MOVB, .ADDB, .JMPC, .SUB, .ANDB, .ANDW, .TESTB, .TESTW, .MULB, .MULW]

/-- The struct `Bytecode::Register`. -/
structure Bytecode.Register where
  num : Int
  deriving DecidableEq, Repr

/-- Bytecode::R. -/
def Bytecode.R (num : Int) : Bytecode.Register := { num := num }

/-- The data members of `Bytecode::Assembler` that the encoding uses. -/
structure Bytecode.Assembler where
  bytes_ : List Nat
  frame_size_ : Nat
  deriving DecidableEq, Repr

/-- A fresh assembler: no byte emitted, `frame_size_ = 0`. -/
def Bytecode.Assembler.empty : Bytecode.Assembler := { bytes_ := [], frame_size_ := 0 }

/-- Conversion of a C integer to `uint8_t`. -/
def to_u8 (x : Int) : Nat := (x % 256).toNat

/-- Modelled from the spec: `Assembler::emit_u8`, declared in `bytecode.hpp`
with its body outside src/: the assembler appends one byte to its byte
vector. -/
def Bytecode.Assembler.emit_u8 (a : Bytecode.Assembler) (byte : Nat) : Bytecode.Assembler :=
  { a with bytes_ := a.bytes_ ++ [byte % 256] }

/-- Modelled from the spec: `Assembler::emit_reg`, declared in `bytecode.hpp`
with its body outside src/: a register operand is one byte containing the
register index. -/
def Bytecode.Assembler.emit_reg (a : Bytecode.Assembler) (reg : Bytecode.Register) :
    Bytecode.Assembler :=
  a.emit_u8 (to_u8 reg.num)

/-- Modelled from the spec: `Assembler::emit_i32`, declared in `bytecode.hpp`
with its body outside src/: a `W` immediate is 4 bytes, little-endian two's
complement. -/
def Bytecode.Assembler.emit_i32 (a : Bytecode.Assembler) (value : Int) : Bytecode.Assembler :=
  let v := (value % 2 ^ 32).toNat
  (((a.emit_u8 (v % 256)).emit_u8 (v / 2 ^ 8 % 256)).emit_u8 (v / 2 ^ 16 % 256)).emit_u8
    (v / 2 ^ 24 % 256)

/-- Modelled from the spec: the width selection shared by the dual-form ops,
whose bodies are outside src/: the narrow form `B` (opcode, register, one
byte) iff the signed value fits a byte, else the form `W` (opcode, register,
4 bytes). -/
def Bytecode.Assembler.emit_dual (a : Bytecode.Assembler) (narrow wide : Bytecode.OpCode)
    (dst : Bytecode.Register) (value : Int) : Bytecode.Assembler :=
  if -128 ≤ value ∧ value ≤ 127 then
    ((a.emit_u8 narrow.value).emit_reg dst).emit_u8 (to_u8 value)
  else
    ((a.emit_u8 wide.value).emit_reg dst).emit_i32 value

/-- Modelled from the spec: `Assembler::mov(Register dst, int64_t value)`. -/
def Bytecode.Assembler.mov_imm (a : Bytecode.Assembler) (dst : Bytecode.Register)
    (value : Int) : Bytecode.Assembler :=
  a.emit_dual .MOVB .MOVW dst value

/-- Modelled from the spec: `Assembler::add(Register dst, int64_t value)`. -/
def Bytecode.Assembler.add_imm (a : Bytecode.Assembler) (dst : Bytecode.Register)
    (value : Int) : Bytecode.Assembler :=
  a.emit_dual .ADDB .ADDW dst value

/-- Modelled from the spec: `Assembler::andr(Register dst, int64_t value)`. -/
def Bytecode.Assembler.andr (a : Bytecode.Assembler) (dst : Bytecode.Register)
    (value : Int) : Bytecode.Assembler :=
  a.emit_dual .ANDB .ANDW dst value

/-- Modelled from the spec: `Assembler::test(Register dst, int64_t value)`. -/
def Bytecode.Assembler.test (a : Bytecode.Assembler) (dst : Bytecode.Register)
    (value : Int) : Bytecode.Assembler :=
  a.emit_dual .TESTB .TESTW dst value

/-- Modelled from the spec: `Assembler::mul(Register dst, int64_t value)`. -/
def Bytecode.Assembler.mul_imm (a : Bytecode.Assembler) (dst : Bytecode.Register)
    (value : Int) : Bytecode.Assembler :=
  a.emit_dual .MULB .MULW dst value

/-- Modelled from the spec: `Assembler::ret()`: the opcode alone. -/
def Bytecode.Assembler.ret (a : Bytecode.Assembler) : Bytecode.Assembler :=
  a.emit_u8 Bytecode.OpCode.RET.value

/-- The value of a `B` immediate: one byte, sign-extended. -/
def sign_extend_8 (byte : Nat) : Int :=
  if byte < 128 then (byte : Int) else (byte : Int) - 256

/-- Modelled from the spec: `Machine::read_i32`, declared in `bytecode.hpp`
with its body outside src/: the value of a `W` immediate, 4 bytes
little-endian two's complement. -/
def read_i32 (b0 b1 b2 b3 : Nat) : Int :=
  let v : Nat := b0 + 2 ^ 8 * b1 + 2 ^ 16 * b2 + 2 ^ 24 * b3
  if v < 2 ^ 31 then (v : Int) else (v : Int) - 2 ^ 32

/-- The value fits a signed byte. -/
def fits_byte (value : Int) : Prop := -128 ≤ value ∧ value ≤ 127

instance (value : Int) : Decidable (fits_byte value) :=
  inferInstanceAs (Decidable (-128 ≤ value ∧ value ≤ 127))

/-- The INT type with the bounds of `int64_t`. -/
def type_i64 : vcode_type_t :=
  { kind := .VCODE_TYPE_INT, low := -9223372036854775808, high := 9223372036854775807 }

/-- The widths `jit_size_of` chooses among for an INT type. -/
def int_widths : List Nat := [1, 2, 4, 8]

/-- A unit whose block 0 tests the parameter `r0` right after a comment. -/
def unit_comment_cond : vcode_unit_t :=
  mk_unit [[mk_op .VCODE_OP_COMMENT [] 0, mk_op .VCODE_OP_COND [0] 0],
           [mk_op .VCODE_OP_RETURN [] 0]] 1

/-- The planner state left by `xcalloc` in which `r0` carries
JIT_F_PARAMETER. -/
def state_param0 : jit_state_t :=
  { zero_state [] with
    vcode_regs := fun r =>
      if r = 0 then { zero_reg with flags := { zero_reg.flags with parameter := true } }
      else zero_reg }

/-- The ops of block `d` (none when the unit has no such block). -/
def block_of (u : vcode_unit_t) (d : Nat) : List vcode_op :=
  (u.blocks[d]?).getD []

/-- The number of argument positions holding `r` over the ops `b`. -/
def block_uses (b : List vcode_op) (r : Nat) : Nat :=
  (b.map (fun o => o.args.count r)).sum

/-- The number of argument positions holding `r` over the ops of block `d`
that come before position `(i, j)`. -/
def uses_upto (u : vcode_unit_t) (r d i j : Nat) : Nat :=
  if d < i then block_uses (block_of u d) r
  else if d = i then block_uses ((block_of u i).take j) r
  else 0

/-- The liveness part of the invariant of the op loop of `jit_analyse`, for
the state `st` reached at position `(i, j)` from the state `s1` left by the
first loop. -/
structure live_inv (u : vcode_unit_t) (s1 : jit_state_t) (i j : Nat)
    (st : jit_state_t) : Prop where
  undefined : ∀ r, (st.vcode_regs r).defn_block = none →
    (st.vcode_regs r).use_count = (s1.vcode_regs r).use_count ∧
    (st.vcode_regs r).lifetime = (s1.vcode_regs r).lifetime
  count : ∀ r d, (st.vcode_regs r).defn_block = some d →
    (st.vcode_regs r).use_count = (s1.vcode_regs r).use_count + uses_upto u r d i j
  last : ∀ r d, (st.vcode_regs r).defn_block = some d →
    ∀ j1 o1, visited i j d j1 → op_at u d j1 = some o1 → r ∈ o1.args →
      j1 ≤ (st.vcode_regs r).lifetime ∧ visited i j d (st.vcode_regs r).lifetime ∧
      ∃ o, op_at u d (st.vcode_regs r).lifetime = some o ∧ r ∈ o.args

/-- The nested loops over blocks and ops, stopped when they reach the op `j`
of block `i`: the blocks before `i`, then the ops before `j` of block `i`. -/
def for_each_op_upto {σ ε : Type}
    (body : Nat → List vcode_op → Nat → vcode_op → σ → Except ε σ)
    (blocks : List (List vcode_op)) (i j : Nat) (s : σ) : Except ε σ :=
  match for_each_op body (blocks.take i) s with
  | .error e => .error e
  | .ok s1 =>
    match blocks[i]? with
    | none => .ok s1
    | some b => for_each (fun j1 o s2 => body i b j1 o s2) 0 (b.take j) s1

/-- The state of the plan when the op loop of `jit_map_storage` reaches the
op `j` of block `i`. -/
def plan_upto (T : target_t) (u : vcode_unit_t) (i j : Nat) (st : jit_state_t) :
    Except jit_error jit_state_t :=
  match jit_stack_frame T u st with
  | .error e => .error e
  | .ok st1 =>
    match jit_analyse T u st1 with
    | .error e => .error e
    | .ok st2 => for_each_op_upto (jit_map_storage_for_op T u) u.blocks i j st2

/-- The state `plan_upto` gives (the input state when the plan takes a fatal
exit before). -/
def plan_state_upto (T : target_t) (u : vcode_unit_t) (i j : Nat) (st : jit_state_t) :
    jit_state_t :=
  state_of (plan_upto T u i j st) st

/-- The op `o` spills in the state `t`: `jit_map_storage_for_op` hands it to
`jit_map_result` and `jit_alloc_reg` gives its result no machine register. -/
def spills (u : vcode_unit_t) (blk : Nat) (b : List vcode_op) (op : Nat) (o : vcode_op)
    (t : jit_state_t) : Prop :=
  handled_by_map_result u b op o t ∧ (jit_alloc_reg t blk op o.result).2 = none

/-- The register `r` is a spilled result of the plan: it is the result of
the op `j` of block `i`, which spills in the state in which pass C reaches
it. -/
def spilled_reg (T : target_t) (u : vcode_unit_t) (st : jit_state_t) (i j r : Nat) : Prop :=
  ∃ b o t, u.blocks[i]? = some b ∧ b[j]? = some o ∧ o.result = r ∧
    plan_upto T u i j st = .ok t ∧ spills u i b j o t

/-- The invariant of the op loop of `jit_map_storage` about spill slots, for
the state `t` reached at position `(i, j)` from the state `s2` that pass B
returns. -/
structure spill_inv (T : target_t) (u : vcode_unit_t) (s2 : jit_state_t) (i j : Nat)
    (t : jit_state_t) : Prop where
  upto : for_each_op_upto (jit_map_storage_for_op T u) u.blocks i j s2 = .ok t
  frame : t.vcode_vars = s2.vcode_vars ∧ t.stack_size = s2.stack_size ∧
    s2.stack_wptr ≤ t.stack_wptr
  slot : ∀ (i1 j1 : Nat) (b1 : List vcode_op) (o1 : vcode_op) (t0 : jit_state_t),
    visited i j i1 j1 → u.blocks[i1]? = some b1 → b1[j1]? = some o1 →
    for_each_op_upto (jit_map_storage_for_op T u) u.blocks i1 j1 s2 = .ok t0 →
    spills u i1 b1 j1 o1 t0 →
    (t.vcode_regs o1.result).state = .JIT_STACK ∧
    -(t.stack_wptr : Int) ≤ (t.vcode_regs o1.result).stack_offset ∧
    -(t.stack_size : Int) ≤ (t.vcode_regs o1.result).stack_offset ∧
    (t.vcode_regs o1.result).stack_offset + ((t.vcode_regs o1.result).size : Int)
      ≤ -(s2.stack_wptr : Int)
  order : ∀ (i1 j1 : Nat) (b1 : List vcode_op) (o1 : vcode_op) (t1 : jit_state_t)
      (i2 j2 : Nat) (b2 : List vcode_op) (o2 : vcode_op) (t2 : jit_state_t),
    visited i j i2 j2 → visited i2 j2 i1 j1 →
    u.blocks[i1]? = some b1 → b1[j1]? = some o1 →
    for_each_op_upto (jit_map_storage_for_op T u) u.blocks i1 j1 s2 = .ok t1 →
    spills u i1 b1 j1 o1 t1 →
    u.blocks[i2]? = some b2 → b2[j2]? = some o2 →
    for_each_op_upto (jit_map_storage_for_op T u) u.blocks i2 j2 s2 = .ok t2 →
    spills u i2 b2 j2 o2 t2 →
    (t.vcode_regs o2.result).stack_offset + ((t.vcode_regs o2.result).size : Int)
      ≤ (t.vcode_regs o1.result).stack_offset

/-- A unit with one variable whose block 0 computes `r1` and `r2` from the
constant `r0`, and whose block 1 stores both. -/
def unit_two_spills : vcode_unit_t :=
  { blocks := [[mk_op .VCODE_OP_CONST [] 0, mk_op .VCODE_OP_ADD [0, 0] 1,
                mk_op .VCODE_OP_ADD [0, 0] 2, mk_op .VCODE_OP_JUMP [] 0],
               [mk_op .VCODE_OP_STORE [1] 0, mk_op .VCODE_OP_STORE [2] 0,
                mk_op .VCODE_OP_RETURN [] 0]],
    nvars := 1, var_type := fun _ => type_i32, nregs := 3, reg_type := fun _ => type_i32 }

/-- The state `jit_plan` ends in (the input state when it takes a fatal
exit). -/
def planned_state (T : target_t) (u : vcode_unit_t) (st : jit_state_t) : jit_state_t :=
  state_of (jit_plan T u st) st

/-! # Properties -/

theorem no_longer_in_use_iff (owner : jit_vcode_reg_t) (blk op : Nat) :
    no_longer_in_use owner blk op = true ↔ dead_tenant owner blk op := by
  simp [no_longer_in_use, dead_tenant]

theorem eligible_none {vregs : Nat → jit_vcode_reg_t} {blk op : Nat} {m : jit_mach_reg_t}
    (hs : m.flags.scratch = false) (hu : m.usage = none) : eligible vregs blk op m :=
  ⟨hs, Or.inl hu⟩

theorem alloc_scan_fst (vregs : Nat → jit_vcode_reg_t) (blk op : Nat) (file : List jit_mach_reg_t) :
    ∀ i, (alloc_scan vregs blk op i file).1
      = file.map (fun m => if eligible vregs blk op m then { m with usage := none } else m) := by
  induction file with
  | nil => intro i; rfl
  | cons m ms ih =>
    intro i
    simp only [alloc_scan, List.map_cons]
    by_cases hs : m.flags.scratch = true
    · simp [hs, ih, eligible]
    · simp only [hs]
      cases hu : m.usage with
      | none =>
        have he : eligible vregs blk op m := ⟨by simpa using hs, Or.inl hu⟩
        simp [he, ih]
        cases m; simp_all
      | some t =>
        by_cases hd : no_longer_in_use (vregs t) blk op = true
        · have he : eligible vregs blk op m :=
            ⟨by simpa using hs, Or.inr ⟨t, hu, (no_longer_in_use_iff _ _ _).1 hd⟩⟩
          simp [hd, he, ih]
        · have he : ¬ eligible vregs blk op m := by
            rintro ⟨_, h | ⟨t2, h2, h3⟩⟩
            · simp [hu] at h
            · rw [hu] at h2; cases h2
              exact hd ((no_longer_in_use_iff _ _ _).2 h3)
          simp [hd, he, ih]

theorem alloc_scan_snd_mem (vregs : Nat → jit_vcode_reg_t) (blk op : Nat)
    (file : List jit_mach_reg_t) :
    ∀ i p, p ∈ (alloc_scan vregs blk op i file).2 ↔
      ∃ k m, file[k]? = some m ∧ eligible vregs blk op m ∧ p = (i + k, { m with usage := none }) := by
  induction file with
  | nil => intro i p; simp [alloc_scan]
  | cons m ms ih =>
    intro i p
    have hshift : (∃ k m', (m :: ms)[k]? = some m' ∧ eligible vregs blk op m' ∧
          p = (i + k, { m' with usage := none })) ↔
        ((eligible vregs blk op m ∧ p = (i, { m with usage := none })) ∨
          ∃ k m', ms[k]? = some m' ∧ eligible vregs blk op m' ∧
            p = (i + 1 + k, { m' with usage := none })) := by
      constructor
      · rintro ⟨k, m', hk, he, hp⟩
        cases k with
        | zero =>
          simp at hk; subst hk
          exact Or.inl ⟨he, by simpa using hp⟩
        | succ k =>
          simp at hk
          exact Or.inr ⟨k, m', hk, he, by rw [hp]; congr 1; omega⟩
      · rintro (⟨he, hp⟩ | ⟨k, m', hk, he, hp⟩)
        · exact ⟨0, m, by simp, he, by simpa using hp⟩
        · exact ⟨k + 1, m', by simpa using hk, he, by rw [hp]; congr 1; omega⟩
    rw [hshift]
    simp only [alloc_scan]
    by_cases hs : m.flags.scratch = true
    · have he : ¬ eligible vregs blk op m := by
        rintro ⟨h, _⟩; simp [hs] at h
      simp [hs, he, ih]
    · simp only [hs]
      cases hu : m.usage with
      | none =>
        have he : eligible vregs blk op m := ⟨by simpa using hs, Or.inl hu⟩
        have hm : ({ m with usage := none } : jit_mach_reg_t) = m := by cases m; simp_all
        simp [he, ih, hm]
      | some t =>
        by_cases hd : no_longer_in_use (vregs t) blk op = true
        · have he : eligible vregs blk op m :=
            ⟨by simpa using hs, Or.inr ⟨t, hu, (no_longer_in_use_iff _ _ _).1 hd⟩⟩
          simp [hd, he, ih]
        · have he : ¬ eligible vregs blk op m := by
            rintro ⟨_, h | ⟨t2, h2, h3⟩⟩
            · simp [hu] at h
            · rw [hu] at h2; cases h2
              exact hd ((no_longer_in_use_iff _ _ _).2 h3)
          simp [hd, he, ih]

theorem alloc_scan_snd_sorted (vregs : Nat → jit_vcode_reg_t) (blk op : Nat)
    (file : List jit_mach_reg_t) :
    ∀ i, (alloc_scan vregs blk op i file).2.Pairwise (fun a b => a.1 < b.1) := by
  induction file with
  | nil => intro i; simp [alloc_scan]
  | cons m ms ih =>
    intro i
    have hge : ∀ p ∈ (alloc_scan vregs blk op (i + 1) ms).2, i < p.1 := by
      intro p hp
      obtain ⟨k, m', _, _, rfl⟩ := (alloc_scan_snd_mem vregs blk op ms (i + 1) p).1 hp
      simp; omega
    simp only [alloc_scan]
    split
    · exact ih (i + 1)
    · split
      · split
        · exact List.pairwise_cons.2 ⟨hge, ih (i + 1)⟩
        · exact ih (i + 1)
      · exact List.pairwise_cons.2 ⟨hge, ih (i + 1)⟩

theorem set_usage_length (usage : Nat) : ∀ (file : List jit_mach_reg_t) (i : Nat),
    (set_usage file i usage).length = file.length := by
  intro file
  induction file with
  | nil => intro i; rfl
  | cons m ms ih =>
    intro i
    cases i with
    | zero => rfl
    | succ i => simp [set_usage, ih]

theorem set_usage_get (usage : Nat) : ∀ (file : List jit_mach_reg_t) (i k : Nat),
    (set_usage file i usage)[k]?
      = (file[k]?).map (fun m => if k = i then { m with usage := some usage } else m) := by
  intro file
  induction file with
  | nil => intro i k; simp [set_usage]
  | cons m ms ih =>
    intro i k
    cases i with
    | zero =>
      cases k with
      | zero => simp [set_usage]
      | succ k => simp [set_usage]
    | succ i =>
      cases k with
      | zero => simp [set_usage]
      | succ k => simp [set_usage, ih]

theorem alloc_best_some_ne_none (ret : Bool) : ∀ (ps : List (Nat × jit_mach_reg_t))
    (b : Nat × jit_mach_reg_t), alloc_best ret (some b) ps ≠ none := by
  intro ps
  induction ps with
  | nil => intro b; simp [alloc_best]
  | cons p ps ih =>
    intro b
    simp only [alloc_best]
    split
    · exact ih p
    · split
      · exact ih p
      · exact ih b

theorem alloc_best_mem (ret : Bool) : ∀ (ps : List (Nat × jit_mach_reg_t))
    (b q : Nat × jit_mach_reg_t), alloc_best ret (some b) ps = some q → q = b ∨ q ∈ ps := by
  intro ps
  induction ps with
  | nil => intro b q h; simp [alloc_best] at h; exact Or.inl h.symm
  | cons p ps ih =>
    intro b q h
    simp only [alloc_best] at h
    split at h
    · rcases ih p q h with h1 | h1
      · exact Or.inr (by simp [h1])
      · exact Or.inr (by simp [h1])
    · split at h
      · rcases ih p q h with h1 | h1
        · exact Or.inr (by simp [h1])
        · exact Or.inr (by simp [h1])
      · rcases ih b q h with h1 | h1
        · exact Or.inl h1
        · exact Or.inr (by simp [h1])

theorem alloc_best_none_iff (ret : Bool) (ps : List (Nat × jit_mach_reg_t)) :
    alloc_best ret none ps = none ↔ ps = [] := by
  cases ps with
  | nil => simp [alloc_best]
  | cons p ps => simp [alloc_best, alloc_best_some_ne_none]

theorem alloc_best_none_mem (ret : Bool) (ps : List (Nat × jit_mach_reg_t))
    (q : Nat × jit_mach_reg_t) (h : alloc_best ret none ps = some q) : q ∈ ps := by
  cases ps with
  | nil => simp [alloc_best] at h
  | cons p ps =>
    simp only [alloc_best] at h
    rcases alloc_best_mem ret ps p q h with h1 | h1
    · simp [h1]
    · simp [h1]

/-- Callee-save avoidance, on the candidate list. -/
theorem alloc_best_callee_save (ret : Bool) : ∀ (ps : List (Nat × jit_mach_reg_t))
    (b q : Nat × jit_mach_reg_t),
    (ret = false ∨ ∀ p ∈ ps, p.2.flags.result = false) →
    alloc_best ret (some b) ps = some q →
    (b.2.flags.callee_save = false ∧ q = b) ∨
    (b.2.flags.callee_save = true ∧
      (((∀ p ∈ ps, p.2.flags.callee_save = true) ∧ q = b) ∨
        ∃ pre post, ps = pre ++ q :: post ∧ q.2.flags.callee_save = false ∧
          ∀ p ∈ pre, p.2.flags.callee_save = true)) := by
  intro ps
  induction ps with
  | nil =>
    intro b q _ h
    simp [alloc_best] at h
    subst h
    cases hc : b.2.flags.callee_save <;> simp
  | cons p ps ih =>
    intro b q hret h
    have hret2 : ret = false ∨ ∀ p' ∈ ps, p'.2.flags.result = false := by
      rcases hret with h1 | h1
      · exact Or.inl h1
      · exact Or.inr (fun p' hp' => h1 p' (by simp [hp']))
    have hfirst : (ret && p.2.flags.result) = false := by
      rcases hret with h1 | h1
      · simp [h1]
      · simp [h1 p (by simp)]
    simp only [alloc_best, hfirst] at h
    cases hb : b.2.flags.callee_save with
    | false =>
      simp [hb] at h
      rcases ih b q hret2 h with ⟨_, h2⟩ | ⟨h1, _⟩
      · exact Or.inl ⟨rfl, h2⟩
      · simp [hb] at h1
    | true =>
      right
      refine ⟨rfl, ?_⟩
      cases hp : p.2.flags.callee_save with
      | false =>
        simp [hb, hp] at h
        rcases ih p q hret2 h with ⟨_, h2⟩ | ⟨h1, _⟩
        · right
          exact ⟨[], ps, by simp [h2], by rw [h2]; exact hp, by simp⟩
        · simp [hp] at h1
      | true =>
        simp [hb, hp] at h
        rcases ih b q hret2 h with ⟨h1, _⟩ | ⟨_, h2⟩
        · simp [hb] at h1
        · rcases h2 with ⟨hall, hq⟩ | ⟨pre, post, hps, hqc, hpre⟩
          · left
            refine ⟨?_, hq⟩
            intro p' hp'
            simp at hp'
            rcases hp' with rfl | hp'
            · exact hp
            · exact hall p' hp'
          · right
            refine ⟨p :: pre, post, by simp [hps], hqc, ?_⟩
            intro p' hp'
            simp at hp'
            rcases hp' with rfl | hp'
            · exact hp
            · exact hpre p' hp'

/-! ## Machine-register selection (C7, C8, C9) -/

theorem cand_of_eligible {vregs : Nat → jit_vcode_reg_t} {blk op : Nat}
    {file : List jit_mach_reg_t} {k : Nat} {m : jit_mach_reg_t}
    (hk : file[k]? = some m) (he : eligible vregs blk op m) :
    (k, { m with usage := none }) ∈ (alloc_scan vregs blk op 0 file).2 :=
  (alloc_scan_snd_mem vregs blk op file 0 _).2 ⟨k, m, hk, he, by simp⟩

theorem eligible_of_cand {vregs : Nat → jit_vcode_reg_t} {blk op : Nat}
    {file : List jit_mach_reg_t} {p : Nat × jit_mach_reg_t}
    (hp : p ∈ (alloc_scan vregs blk op 0 file).2) :
    ∃ m, file[p.1]? = some m ∧ eligible vregs blk op m ∧ p.2 = { m with usage := none } := by
  obtain ⟨k, m, hk, he, rfl⟩ := (alloc_scan_snd_mem vregs blk op file 0 p).1 hp
  exact ⟨m, by simpa using hk, he, rfl⟩

/-- The two outcomes of `jit_alloc_reg` for a block-local register. -/
theorem jit_alloc_reg_cases (st : jit_state_t) (blk op usage : Nat)
    (hbl : (st.vcode_regs usage).flags.block_local = true) :
    ((alloc_scan st.vcode_regs blk op 0 st.mach_regs).2 = [] ∧
      jit_alloc_reg st blk op usage = ((alloc_scan st.vcode_regs blk op 0 st.mach_regs).1, none)) ∨
    ∃ q, q ∈ (alloc_scan st.vcode_regs blk op 0 st.mach_regs).2 ∧
      alloc_best (st.vcode_regs usage).flags.returned none
        (alloc_scan st.vcode_regs blk op 0 st.mach_regs).2 = some q ∧
      jit_alloc_reg st blk op usage =
        (set_usage (alloc_scan st.vcode_regs blk op 0 st.mach_regs).1 q.1 usage, some q.1) := by
  cases hb : alloc_best (st.vcode_regs usage).flags.returned none
      (alloc_scan st.vcode_regs blk op 0 st.mach_regs).2 with
  | none =>
    left
    exact ⟨(alloc_best_none_iff _ _).1 hb, by simp [jit_alloc_reg, hbl, hb]⟩
  | some q =>
    right
    exact ⟨q, alloc_best_none_mem _ _ _ hb, rfl, by simp [jit_alloc_reg, hbl, hb]⟩

theorem jit_alloc_reg_not_local (st : jit_state_t) (blk op usage : Nat)
    (hbl : (st.vcode_regs usage).flags.block_local = false) :
    jit_alloc_reg st blk op usage = (st.mach_regs, none) := by
  simp [jit_alloc_reg, hbl]

theorem sorted_head_le {ps : List (Nat × jit_mach_reg_t)} {p0 : Nat × jit_mach_reg_t}
    (hs : (p0 :: ps).Pairwise (fun a b => a.1 < b.1)) {p : Nat × jit_mach_reg_t}
    (hp : p ∈ p0 :: ps) : p0.1 ≤ p.1 := by
  simp at hp
  rcases hp with rfl | hp
  · exact le_refl _
  · exact le_of_lt ((List.pairwise_cons.1 hs).1 p hp)

theorem sorted_before {pre post : List (Nat × jit_mach_reg_t)} {q : Nat × jit_mach_reg_t}
    (hs : (pre ++ q :: post).Pairwise (fun a b => a.1 < b.1)) {p : Nat × jit_mach_reg_t}
    (hp : p ∈ pre ++ q :: post) (hlt : p.1 < q.1) : p ∈ pre := by
  rw [List.pairwise_append] at hs
  obtain ⟨_, hq, _⟩ := hs
  simp at hp
  rcases hp with hp | rfl | hp
  · exact hp
  · exact absurd hlt (lt_irrefl _)
  · have := (List.pairwise_cons.1 hq).1 p hp
    omega

/-- C8: for a BLOCK_LOCAL register that is not RETURNED (or when no eligible
candidate is flagged RESULT), `jit_alloc_reg` returns the first eligible
candidate in register-file order that is not CALLEE_SAVE when there is one,
and otherwise the first eligible candidate. -/
theorem jit_alloc_reg_avoids_callee_save (st : jit_state_t) (blk op usage : Nat)
    (hbl : (st.vcode_regs usage).flags.block_local = true)
    (hres : (st.vcode_regs usage).flags.returned = false ∨
      ∀ m ∈ st.mach_regs, eligible st.vcode_regs blk op m → m.flags.result = false) :
    ((∃ m ∈ st.mach_regs, eligible st.vcode_regs blk op m ∧ m.flags.callee_save = false) →
      ∃ i m, (jit_alloc_reg st blk op usage).2 = some i ∧ st.mach_regs[i]? = some m ∧
        eligible st.vcode_regs blk op m ∧ m.flags.callee_save = false ∧
        ∀ k mk, k < i → st.mach_regs[k]? = some mk → eligible st.vcode_regs blk op mk →
          mk.flags.callee_save = true) ∧
    ((∃ m ∈ st.mach_regs, eligible st.vcode_regs blk op m) →
      (∀ m ∈ st.mach_regs, eligible st.vcode_regs blk op m → m.flags.callee_save = true) →
      ∃ i m, (jit_alloc_reg st blk op usage).2 = some i ∧ st.mach_regs[i]? = some m ∧
        eligible st.vcode_regs blk op m ∧
        ∀ k mk, k < i → st.mach_regs[k]? = some mk → ¬ eligible st.vcode_regs blk op mk) := by
  have hsorted := alloc_scan_snd_sorted st.vcode_regs blk op st.mach_regs 0
  have hres2 : (st.vcode_regs usage).flags.returned = false ∨
      ∀ p ∈ (alloc_scan st.vcode_regs blk op 0 st.mach_regs).2, p.2.flags.result = false := by
    rcases hres with h | h
    · exact Or.inl h
    · right
      intro p hp
      obtain ⟨m, hm, he, hpm⟩ := eligible_of_cand hp
      rw [hpm]
      exact h m (List.mem_iff_getElem?.2 ⟨_, hm⟩) he
  -- what the choice among the candidates gives
  have key : (∃ m ∈ st.mach_regs, eligible st.vcode_regs blk op m) →
      ∃ q p0 rest, (alloc_scan st.vcode_regs blk op 0 st.mach_regs).2 = p0 :: rest ∧
        (jit_alloc_reg st blk op usage).2 = some q.1 ∧
        q ∈ (alloc_scan st.vcode_regs blk op 0 st.mach_regs).2 ∧
        ((p0.2.flags.callee_save = false ∧ q = p0) ∨
          (p0.2.flags.callee_save = true ∧
            (((∀ p ∈ rest, p.2.flags.callee_save = true) ∧ q = p0) ∨
              ∃ pre post, rest = pre ++ q :: post ∧ q.2.flags.callee_save = false ∧
                ∀ p ∈ pre, p.2.flags.callee_save = true))) := by
    rintro ⟨m0, hm0, he0⟩
    obtain ⟨k0, hk0⟩ := List.mem_iff_getElem?.1 hm0
    have hc0 := cand_of_eligible hk0 he0
    rcases jit_alloc_reg_cases st blk op usage hbl with ⟨hnil, _⟩ | ⟨q, hq, hbest, hr⟩
    · rw [hnil] at hc0; simp at hc0
    · generalize hps : (alloc_scan st.vcode_regs blk op 0 st.mach_regs).2 = ps at *
      cases ps with
      | nil => simp at hq
      | cons p0 rest =>
        simp only [alloc_best] at hbest
        have hres3 : (st.vcode_regs usage).flags.returned = false ∨
            ∀ p ∈ rest, p.2.flags.result = false := by
          rcases hres2 with h | h
          · exact Or.inl h
          · exact Or.inr (fun p hp => h p (by simp [hp]))
        exact ⟨q, p0, rest, rfl, by rw [hr], hq,
          alloc_best_callee_save _ rest p0 q hres3 hbest⟩
  constructor
  · rintro ⟨m1, hm1, he1, hc1⟩
    obtain ⟨k1, hk1⟩ := List.mem_iff_getElem?.1 hm1
    have hcand1 := cand_of_eligible hk1 he1
    obtain ⟨q, p0, rest, hps, hq1, hq, hcase⟩ := key ⟨m1, hm1, he1⟩
    rw [hps] at hsorted hcand1 hq
    obtain ⟨m, hm, he, hqm⟩ := eligible_of_cand (by rw [hps]; exact hq)
    rcases hcase with ⟨hp0, rfl⟩ | ⟨hp0, ⟨hall, rfl⟩ | ⟨pre, post, hrest, hqc, hpre⟩⟩
    · refine ⟨q.1, m, hq1, hm, he, by rw [hqm] at hp0; exact hp0, ?_⟩
      intro k mk hk hmk hek
      have hc := cand_of_eligible hmk hek
      rw [hps] at hc
      have := sorted_head_le hsorted hc
      simp at this
      omega
    · exfalso
      simp at hcand1
      rcases hcand1 with h | h
      · rw [← h] at hp0; simp [hc1] at hp0
      · have := hall _ h
        simp [hc1] at this
    · refine ⟨q.1, m, hq1, hm, he, by rw [hqm] at hqc; exact hqc, ?_⟩
      intro k mk hk hmk hek
      have hc := cand_of_eligible hmk hek
      rw [hps, hrest] at hc
      rw [hrest] at hsorted
      have hin : (k, ({ mk with usage := none } : jit_mach_reg_t)) ∈ (p0 :: pre) := by
        have h2 : (k, ({ mk with usage := none } : jit_mach_reg_t)) ∈ (p0 :: pre) ++ q :: post := by
          simpa using hc
        exact sorted_before (by simpa using hsorted) h2 hk
      simp at hin
      rcases hin with h | h
      · rw [← h] at hp0; exact hp0
      · exact hpre _ h
  · intro hex hall
    obtain ⟨q, p0, rest, hps, hq1, hq, hcase⟩ := key hex
    rw [hps] at hsorted hq
    obtain ⟨m, hm, he, hqm⟩ := eligible_of_cand (by rw [hps]; exact hq)
    have hqcs : q.2.flags.callee_save = true := by
      rw [hqm]; exact hall m (List.mem_iff_getElem?.2 ⟨_, hm⟩) he
    rcases hcase with ⟨hp0, rfl⟩ | ⟨hp0, ⟨_, rfl⟩ | ⟨pre, post, hrest, hqc, hpre⟩⟩
    · rw [hqcs] at hp0; cases hp0
    · refine ⟨q.1, m, hq1, hm, he, ?_⟩
      intro k mk hk hmk hek
      have hc := cand_of_eligible hmk hek
      rw [hps] at hc
      have := sorted_head_le hsorted hc
      simp at this
      omega
    · rw [hqcs] at hqc; cases hqc

/-- C9: `jit_alloc_reg` returns a machine register exactly when the VCODE
register is BLOCK_LOCAL and some machine register is eligible (not SCRATCH,
and unassigned or holding a dead tenant).  The returned register is not
SCRATCH and its usage becomes the VCODE register; every other eligible
register ends unassigned (dead tenants are evicted) and every other register,
in particular one holding a live tenant, is unchanged.  For a register that is
not BLOCK_LOCAL nothing is returned and the register file is untouched. -/
theorem jit_alloc_reg_eligibility (st : jit_state_t) (blk op usage : Nat) :
    ((∃ i, (jit_alloc_reg st blk op usage).2 = some i) ↔
      ((st.vcode_regs usage).flags.block_local = true ∧
        ∃ m ∈ st.mach_regs, eligible st.vcode_regs blk op m)) ∧
    (∀ i, (jit_alloc_reg st blk op usage).2 = some i →
      ∃ m, st.mach_regs[i]? = some m ∧ m.flags.scratch = false ∧
        eligible st.vcode_regs blk op m ∧
        (jit_alloc_reg st blk op usage).1[i]? = some { m with usage := some usage } ∧
        ∀ k mk, k ≠ i → st.mach_regs[k]? = some mk →
          (jit_alloc_reg st blk op usage).1[k]? =
            some (if eligible st.vcode_regs blk op mk then { mk with usage := none } else mk)) ∧
    ((st.vcode_regs usage).flags.block_local = false →
      jit_alloc_reg st blk op usage = (st.mach_regs, none)) := by
  refine ⟨?_, ?_, jit_alloc_reg_not_local st blk op usage⟩
  · constructor
    · rintro ⟨i, hi⟩
      cases hbl : (st.vcode_regs usage).flags.block_local with
      | false => rw [jit_alloc_reg_not_local st blk op usage hbl] at hi; cases hi
      | true =>
        refine ⟨rfl, ?_⟩
        rcases jit_alloc_reg_cases st blk op usage hbl with ⟨_, hr⟩ | ⟨q, hq, _, _⟩
        · rw [hr] at hi; cases hi
        · obtain ⟨m, hm, he, _⟩ := eligible_of_cand hq
          exact ⟨m, List.mem_iff_getElem?.2 ⟨_, hm⟩, he⟩
    · rintro ⟨hbl, m, hm, he⟩
      obtain ⟨k, hk⟩ := List.mem_iff_getElem?.1 hm
      have hc := cand_of_eligible hk he
      rcases jit_alloc_reg_cases st blk op usage hbl with ⟨hnil, _⟩ | ⟨q, _, _, hr⟩
      · rw [hnil] at hc; simp at hc
      · exact ⟨q.1, by rw [hr]⟩
  · intro i hi
    cases hbl : (st.vcode_regs usage).flags.block_local with
    | false => rw [jit_alloc_reg_not_local st blk op usage hbl] at hi; cases hi
    | true =>
      rcases jit_alloc_reg_cases st blk op usage hbl with ⟨_, hr⟩ | ⟨q, hq, _, hr⟩
      · rw [hr] at hi; cases hi
      · obtain ⟨m, hm, he, _⟩ := eligible_of_cand hq
        rw [hr] at hi ⊢
        simp at hi
        subst hi
        refine ⟨m, hm, he.1, he, ?_, ?_⟩
        · simp [set_usage_get, alloc_scan_fst, List.getElem?_map, hm, he]
        · intro k mk hk hmk
          simp [set_usage_get, alloc_scan_fst, List.getElem?_map, hmk, hk]

/-- Witness of C8 on `state_callee_first`. -/
theorem jit_alloc_reg_avoids_callee_save_witness :
    ((state_callee_first.vcode_regs 1).flags.block_local = true ∧
      (state_callee_first.vcode_regs 1).flags.returned = false ∧
      (∃ m ∈ state_callee_first.mach_regs, eligible state_callee_first.vcode_regs 0 0 m ∧
        m.flags.callee_save = false)) ∧
    ∃ i m, (jit_alloc_reg state_callee_first 0 0 1).2 = some i ∧
      state_callee_first.mach_regs[i]? = some m ∧
      eligible state_callee_first.vcode_regs 0 0 m ∧ m.flags.callee_save = false ∧
      ∀ k mk, k < i → state_callee_first.mach_regs[k]? = some mk →
        eligible state_callee_first.vcode_regs 0 0 mk → mk.flags.callee_save = true :=
  ⟨by decide,
   (jit_alloc_reg_avoids_callee_save state_callee_first 0 0 1 (by decide)
      (Or.inl (by decide))).1 (by decide)⟩

/-- Witness of C9 on `state_plain`. -/
theorem jit_alloc_reg_eligibility_witness :
    ((state_plain.vcode_regs 1).flags.block_local = true ∧
      ∃ m ∈ state_plain.mach_regs, eligible state_plain.vcode_regs 0 0 m) ∧
    ∃ i, (jit_alloc_reg state_plain 0 0 1).2 = some i :=
  ⟨by decide, (jit_alloc_reg_eligibility state_plain 0 0 1).1.2 (by decide)⟩

/-! ## Code buffer (C10) -/

theorem emit_bytes_wptr : ∀ (bytes : List Nat) (st : jit_state_t),
    (emit_bytes bytes st).code_wptr = st.code_wptr + bytes.length := by
  intro bytes
  induction bytes with
  | nil => intro st; rfl
  | cons b bs ih => intro st; simp [emit_bytes, ih]; omega

theorem emit_bytes_frame : ∀ (bytes : List Nat) (st : jit_state_t),
    (emit_bytes bytes st).code_base = st.code_base ∧
    (emit_bytes bytes st).code_len = st.code_len ∧
    (emit_bytes bytes st).stack_size = st.stack_size ∧
    (emit_bytes bytes st).stack_wptr = st.stack_wptr ∧
    (emit_bytes bytes st).mach_regs = st.mach_regs := by
  intro bytes
  induction bytes with
  | nil => intro st; simp [emit_bytes]
  | cons b bs ih => intro st; simp [emit_bytes, ih]

theorem emit_bytes_mem_other : ∀ (bytes : List Nat) (st : jit_state_t) (a : Nat),
    (a < st.code_wptr ∨ st.code_wptr + bytes.length ≤ a) →
    (emit_bytes bytes st).code_mem a = st.code_mem a := by
  intro bytes
  induction bytes with
  | nil => intro st a _; rfl
  | cons b bs ih =>
    intro st a ha
    simp only [emit_bytes]
    rw [ih]
    · simp only [upd]
      have : a ≠ st.code_wptr := by
        simp at ha; omega
      simp [this]
    · simp at ha ⊢; omega

theorem emit_bytes_mem_written : ∀ (bytes : List Nat) (st : jit_state_t) (k b : Nat),
    bytes[k]? = some b → (emit_bytes bytes st).code_mem (st.code_wptr + k) = b := by
  intro bytes
  induction bytes with
  | nil => intro st k b h; simp at h
  | cons b0 bs ih =>
    intro st k b h
    simp only [emit_bytes]
    cases k with
    | zero =>
      simp at h
      rw [emit_bytes_mem_other]
      · simp [upd, h]
      · left; simp
    | succ k =>
      simp at h
      have := ih { st with code_mem := upd st.code_mem st.code_wptr b0,
                           code_wptr := st.code_wptr + 1 } k b h
      simp at this
      rw [← this]
      congr 1
      omega

/-- The fatal exit of `jit_emit` is taken exactly when the write reaches or
passes the last byte of the buffer. -/
theorem jit_emit_fatal_iff (st : jit_state_t) (bytes : List Nat) :
    exit_of (jit_emit st bytes) = some .buffer_too_small ↔
      st.code_base + st.code_len ≤ st.code_wptr + bytes.length := by
  unfold jit_emit
  split <;> simp_all [exit_of]

/-- When `jit_emit` returns it has copied the bytes in order to the old write
pointer, advanced the pointer by their number and changed nothing else. -/
theorem jit_emit_ok (st st1 : jit_state_t) (bytes : List Nat)
    (h : jit_emit st bytes = .ok st1) :
    st1.code_wptr = st.code_wptr + bytes.length ∧
    (∀ k b, bytes[k]? = some b → st1.code_mem (st.code_wptr + k) = b) ∧
    (∀ a, a < st.code_wptr ∨ st.code_wptr + bytes.length ≤ a → st1.code_mem a = st.code_mem a) := by
  unfold jit_emit at h
  split at h
  · cases h
  · simp at h
    subst h
    exact ⟨emit_bytes_wptr _ _, emit_bytes_mem_written _ _, emit_bytes_mem_other _ _⟩

/-- C10 fails on the code: a write of 4 bytes into an empty buffer of 4 bytes
fills it exactly, (code_wptr - code_base) + len = code_len, and `jit_emit`
takes the fatal exit instead of copying the bytes. -/
theorem jit_emit_exact_fill_is_fatal :
    (state_buffer_4.code_wptr - state_buffer_4.code_base) + [1, 2, 3, 4].length
      = state_buffer_4.code_len ∧
    exit_of (jit_emit state_buffer_4 [1, 2, 3, 4]) = some .buffer_too_small := by
  decide

/-! ## Cache reverse lookup (C6) -/

theorem find_scan_none (mem : Nat) : ∀ (entries : List (Nat × jit_state_t)),
    (∀ e ∈ entries, ¬ (e.2.code_base ≤ mem ∧ mem < e.2.code_base + e.2.code_len)) →
    find_scan mem entries = none := by
  intro entries
  induction entries with
  | nil => intro _; rfl
  | cons e es ih =>
    intro h
    obtain ⟨key, value⟩ := e
    have h0 := h (key, value) (by simp)
    simp only [find_scan]
    rw [if_neg (by simpa using h0)]
    exact ih (fun e he => h e (by simp [he]))

theorem find_scan_owner (mem : Nat) : ∀ (entries : List (Nat × jit_state_t)),
    buffers_disjoint entries → ∀ e ∈ entries,
    e.2.code_base ≤ mem → mem < e.2.code_base + e.2.code_len →
    find_scan mem entries = some e.2 := by
  intro entries
  induction entries with
  | nil => intro _ e he; simp at he
  | cons e0 es ih =>
    intro hd e he hlo hhi
    obtain ⟨key, value⟩ := e0
    unfold buffers_disjoint at hd
    rw [List.pairwise_cons] at hd
    simp only [find_scan]
    simp at he
    rcases he with rfl | he
    · simp [hlo, hhi]
    · have := hd.1 e he
      simp at this
      rw [if_neg (by intro hc; omega)]
      exact ih hd.2 e he hlo hhi

/-- C6: in a cache whose entries have pairwise disjoint code buffers,
`jit_find_in_cache (code_base + k)` returns the owning state for every entry
and every `k < code_len`; it returns none for every address that lies in no
entry's buffer, and for every address when the cache was never created. -/
theorem jit_find_in_cache_reverse_lookup (entries : List (Nat × jit_state_t)) :
    (buffers_disjoint entries → ∀ e ∈ entries, ∀ k, k < e.2.code_len →
      jit_find_in_cache (some entries) (e.2.code_base + k) = some e.2) ∧
    (∀ mem, (∀ e ∈ entries, ¬ (e.2.code_base ≤ mem ∧ mem < e.2.code_base + e.2.code_len)) →
      jit_find_in_cache (some entries) mem = none) ∧
    (∀ mem, jit_find_in_cache none mem = none) := by
  refine ⟨?_, ?_, fun _ => rfl⟩
  · intro hd e he k hk
    exact find_scan_owner _ entries hd e he (by omega) (by omega)
  · intro mem h
    exact find_scan_none mem entries h

theorem cache_two_disjoint : buffers_disjoint cache_two := by
  simp [buffers_disjoint, cache_two, state_at, zero_state]

/-- Witness of C6 on `cache_two`. -/
theorem jit_find_in_cache_reverse_lookup_witness :
    (buffers_disjoint cache_two ∧ (2, state_at 12288 4096) ∈ cache_two ∧
      100 < (state_at 12288 4096).code_len ∧
      (∀ e ∈ cache_two, ¬ (e.2.code_base ≤ 9000 ∧ 9000 < e.2.code_base + e.2.code_len))) ∧
    jit_find_in_cache (some cache_two) ((state_at 12288 4096).code_base + 100)
      = some (state_at 12288 4096) ∧
    jit_find_in_cache (some cache_two) 9000 = none :=
  ⟨⟨cache_two_disjoint, by simp [cache_two], by decide, by simp [cache_two, state_at, zero_state]⟩,
   (jit_find_in_cache_reverse_lookup cache_two).1 cache_two_disjoint (2, state_at 12288 4096)
     (by simp [cache_two]) 100 (by decide),
   (jit_find_in_cache_reverse_lookup cache_two).2.1 9000
     (by simp [cache_two, state_at, zero_state])⟩

/-! ## Loop invariants -/

theorem for_range_inv {σ ε : Type} (body : Nat → σ → Except ε σ) (P : Nat → σ → Prop) :
    ∀ (n i : Nat) (s s1 : σ),
    (∀ k t t1, k < n → P (i + k) t → body (i + k) t = .ok t1 → P (i + k + 1) t1) →
    P i s → for_range body i n s = .ok s1 → P (i + n) s1 := by
  intro n
  induction n with
  | zero =>
    intro i s s1 _ h0 h
    simp [for_range] at h
    subst h
    exact h0
  | succ n ih =>
    intro i s s1 hstep h0 h
    simp only [for_range] at h
    cases hb : body i s with
    | error e => simp [hb] at h
    | ok t =>
      simp only [hb] at h
      have h1 : P (i + 1) t := hstep 0 s t (by omega) h0 hb
      have := ih (i + 1) t s1
        (fun k t2 t3 hk hp hbody => by
          have := hstep (k + 1) t2 t3 (by omega)
            (by rw [show i + (k + 1) = i + 1 + k by omega]; exact hp)
            (by rw [show i + (k + 1) = i + 1 + k by omega]; exact hbody)
          rw [show i + (k + 1) + 1 = i + 1 + k + 1 by omega] at this
          exact this)
        h1 h
      rw [show i + (n + 1) = i + 1 + n by omega]
      exact this

theorem for_each_inv {α σ ε : Type} (body : Nat → α → σ → Except ε σ) (P : Nat → σ → Prop) :
    ∀ (l : List α) (i : Nat) (s s1 : σ),
    (∀ k a t t1, l[k]? = some a → P (i + k) t → body (i + k) a t = .ok t1 → P (i + k + 1) t1) →
    P i s → for_each body i l s = .ok s1 → P (i + l.length) s1 := by
  intro l
  induction l with
  | nil =>
    intro i s s1 _ h0 h
    simp [for_each] at h
    subst h
    exact h0
  | cons a as ih =>
    intro i s s1 hstep h0 h
    simp only [for_each] at h
    cases hb : body i a s with
    | error e => simp [hb] at h
    | ok t =>
      simp only [hb] at h
      have h1 : P (i + 1) t := hstep 0 a s t (by simp) h0 hb
      have := ih (i + 1) t s1
        (fun k a2 t2 t3 hk hp hbody => by
          have := hstep (k + 1) a2 t2 t3 (by simpa using hk)
            (by rw [show i + (k + 1) = i + 1 + k by omega]; exact hp)
            (by rw [show i + (k + 1) = i + 1 + k by omega]; exact hbody)
          rw [show i + (k + 1) + 1 = i + 1 + k + 1 by omega] at this
          exact this)
        h1 h
      rw [show i + (a :: as).length = i + 1 + as.length by simp; omega]
      exact this

/-- Invariant rule for the nested loops over blocks and ops. -/
theorem for_each_op_inv {σ ε : Type}
    (body : Nat → List vcode_op → Nat → vcode_op → σ → Except ε σ)
    (P : Nat → Nat → σ → Prop) (blocks : List (List vcode_op)) (s s1 : σ)
    (hstep : ∀ i b j o t t1, blocks[i]? = some b → b[j]? = some o → P i j t →
      body i b j o t = .ok t1 → P i (j + 1) t1)
    (hblock : ∀ i b t, blocks[i]? = some b → P i b.length t → P (i + 1) 0 t)
    (h0 : P 0 0 s) (h : for_each_op body blocks s = .ok s1) :
    P blocks.length 0 s1 := by
  have := for_each_inv (fun i b s1 => for_each (fun j o s2 => body i b j o s2) 0 b s1)
    (fun i t => P i 0 t) blocks 0 s s1
    (fun k b t t1 hk hp hb => by
      simp only [Nat.zero_add] at hp hb ⊢
      have h2 := for_each_inv (fun j o s2 => body k b j o s2) (fun j t => P k j t) b 0 t t1
        (fun j o t2 t3 hj hp2 hb2 => by
          simp only [Nat.zero_add] at hp2 hb2 ⊢
          exact hstep k b j o t2 t3 hk hj hp2 hb2)
        hp hb
      simp only [Nat.zero_add] at h2
      exact hblock k b t1 hk h2)
    h0 h
  simpa using this

/-! ## Pass B: what one op does -/

theorem upd_same {α : Type} (a : Nat → α) (i : Nat) (v : α) : upd a i v i = v := by
  simp [upd]

theorem upd_other {α : Type} (a : Nat → α) (i j : Nat) (v : α) (h : j ≠ i) :
    upd a i v j = a j := by
  simp [upd, h]

theorem args_effect_defn (i j n : Nat) (r : jit_vcode_reg_t) :
    (args_effect i j n r).defn_block = r.defn_block := by
  unfold args_effect
  split
  · rfl
  · split <;> rfl

theorem args_effect_succ (i j n : Nat) (r : jit_vcode_reg_t) :
    args_effect i j n (args_effect i j 1 r) = args_effect i j (n + 1) r := by
  unfold args_effect
  by_cases hn : n = 0
  · subst hn; simp
  · by_cases hd : r.defn_block = some i
    · simp [hn, hd]; omega
    · simp [hn, hd]

/-- The argument loop of `jit_analyse` in closed form. -/
theorem analyse_args_eq (i j : Nat) : ∀ (args : List Nat) (k : Nat) (st st1 : jit_state_t),
    for_each (analyse_arg i j) k args st = .ok st1 →
    st1 = { st with vcode_regs := fun r => args_effect i j (args.count r) (st.vcode_regs r) } ∧
    ∀ r ∈ args, (st.vcode_regs r).defn_block ≠ none := by
  intro args
  induction args with
  | nil =>
    intro k st st1 h
    simp [for_each] at h
    subst h
    simp [args_effect]
  | cons a as ih =>
    intro k st st1 h
    simp only [for_each] at h
    cases hd : (st.vcode_regs a).defn_block with
    | none => simp [analyse_arg, hd] at h
    | some d =>
      have harg : analyse_arg i j k a st =
          .ok { st with vcode_regs := upd st.vcode_regs a (args_effect i j 1 (st.vcode_regs a)) } := by
        simp only [analyse_arg, hd, args_effect]
        by_cases hdi : d = i
        · subst hdi; simp
        · simp [hdi]
      rw [harg] at h
      simp only at h
      obtain ⟨h1, h2⟩ := ih (k + 1) _ st1 h
      constructor
      · rw [h1]
        simp only
        congr 1
        funext r
        by_cases hr : r = a
        · subst hr
          simp only [upd_same, List.count_cons_self]
          exact args_effect_succ i j _ _
        · rw [upd_other _ _ _ _ hr, List.count_cons_of_ne hr]
      · intro r hr
        simp at hr
        rcases hr with rfl | hr
        · simp [hd]
        · have := h2 r hr
          by_cases hra : r = a
          · subst hra; simp [hd]
          · simpa [upd_other _ _ _ _ hra] using this

theorem analyse_switch_defines (i : Nat) (b : List vcode_op) (j : Nat) (o : vcode_op)
    (st : jit_state_t) (h : defines_result o = true) :
    analyse_switch i b j o st =
      if (st.vcode_regs o.result).defn_block ≠ none then .error (.assert_defn_block j)
      else .ok { st with
        vcode_regs := upd st.vcode_regs o.result
          { st.vcode_regs o.result with defn_block := some i },
        stack_size :=
          if jit_must_store_result o then
            st.stack_size + (st.vcode_regs o.result).size
              + jit_align_object (st.vcode_regs o.result).size
                  (st.stack_size + (st.vcode_regs o.result).size)
          else st.stack_size } := by
  unfold defines_result at h
  unfold analyse_switch
  cases hk : o.kind <;> simp [hk] at h <;> simp only [hk] <;>
    (split <;> [rfl; (simp only [jit_must_store_result, hk]; rfl)])

theorem analyse_switch_skips (i : Nat) (b : List vcode_op) (j : Nat) (o : vcode_op)
    (st : jit_state_t) (h : analyse_skips o = true) :
    analyse_switch i b j o st = .ok st := by
  unfold analyse_skips at h
  unfold analyse_switch
  cases hk : o.kind <;> simp [hk] at h <;> simp only [hk]

theorem analyse_switch_return (i : Nat) (b : List vcode_op) (j : Nat) (o : vcode_op)
    (st : jit_state_t) (h : o.kind = .VCODE_OP_RETURN) :
    analyse_switch i b j o st =
      .ok (match o.args with
        | [] => st
        | a :: _ =>
          { st with
            vcode_regs := upd st.vcode_regs a
              { st.vcode_regs a with
                flags := { (st.vcode_regs a).flags with returned := true } } }) := by
  unfold analyse_switch
  simp only [h]
  cases o.args <;> rfl

theorem analyse_switch_cases (i : Nat) (b : List vcode_op) (j : Nat) (o : vcode_op)
    (st st1 : jit_state_t) (h : analyse_switch i b j o st = .ok st1) :
    defines_result o = true ∨ analyse_skips o = true ∨ o.kind = .VCODE_OP_RETURN ∨
      o.kind = .VCODE_OP_COND := by
  unfold analyse_switch at h
  unfold defines_result analyse_skips
  cases hk : o.kind <;> simp [hk] at h ⊢

/-- The condition under which the `COND` case of `jit_analyse` marks its
input `r`. -/
theorem analyse_switch_cond (i : Nat) (b : List vcode_op) (j : Nat) (o : vcode_op)
    (st st1 : jit_state_t) (hk : o.kind = .VCODE_OP_COND)
    (h : analyse_switch i b j o st = .ok st1) :
    st1 = st ∨
    ∃ input rest p prev, o.args = input :: rest ∧
      (st.vcode_regs input).defn_block = some i ∧ 0 < j ∧
      jit_previous_op b j = .ok p ∧ b[p]? = some prev ∧
      prev.kind = .VCODE_OP_CMP ∧ prev.result = input ∧
      st1 = { st with
        vcode_regs := upd st.vcode_regs input
          { st.vcode_regs input with
            flags := { (st.vcode_regs input).flags with cond_input := true } } } := by
  unfold analyse_switch at h
  simp only [hk] at h
  cases ha : o.args with
  | nil => simp [ha] at h
  | cons input rest =>
    simp only [ha] at h
    split at h
    · rename_i hc
      cases hp : jit_previous_op b j with
      | error e => simp [hp] at h
      | ok p =>
        simp only [hp] at h
        cases hb : b[p]? with
        | none => simp [hb] at h
        | some prev =>
          simp only [hb] at h
          split at h
          · rename_i hc2
            right
            refine ⟨input, rest, p, prev, rfl, hc.1, hc.2, rfl, hb, hc2.1, hc2.2, ?_⟩
            simpa using h.symm
          · left; simpa using h.symm
    · left; simpa using h.symm

theorem defines_not_cond {o : vcode_op} (h : defines_result o = true) :
    o.kind ≠ .VCODE_OP_COND ∧ o.kind ≠ .VCODE_OP_RETURN ∧ analyse_skips o = false := by
  unfold defines_result at h
  unfold analyse_skips
  cases hk : o.kind <;> simp [hk] at h ⊢

theorem skips_not_defines {o : vcode_op} (h : analyse_skips o = true) :
    defines_result o = false ∧ o.kind ≠ .VCODE_OP_COND := by
  unfold analyse_skips at h
  unfold defines_result
  cases hk : o.kind <;> simp [hk] at h ⊢

theorem cond_not_defines {o : vcode_op} (h : o.kind = .VCODE_OP_COND) :
    defines_result o = false := by
  simp [defines_result, h]

theorem return_not_defines {o : vcode_op} (h : o.kind = .VCODE_OP_RETURN) :
    defines_result o = false ∧ o.kind ≠ .VCODE_OP_COND := by
  simp [defines_result, h]

theorem analyse_switch_facts (i : Nat) (b : List vcode_op) (j : Nat) (o : vcode_op)
    (st st1 : jit_state_t) (h : analyse_switch i b j o st = .ok st1) :
    switch_facts i b j o st st1 := by
  rcases analyse_switch_cases i b j o st st1 h with hd | hs | hr | hc
  · rw [analyse_switch_defines i b j o st hd] at h
    split at h
    · cases h
    · rename_i hnone
      simp at hnone
      simp at h
      subst h
      refine ⟨⟨rfl, rfl⟩, ?_, ?_, fun _ => hnone, ?_⟩
      · intro r
        by_cases hr : r = o.result
        · subst hr; simp [upd]
        · simp [upd, hr]
      · intro r
        by_cases hr : r = o.result
        · subst hr; simp [upd, hd]
        · simp [upd, hr]
      · intro r hc
        left
        by_cases hr : r = o.result
        · subst hr; simpa [upd] using hc
        · simpa [upd, hr] using hc
  · rw [analyse_switch_skips i b j o st hs] at h
    simp at h
    subst h
    have := skips_not_defines hs
    exact ⟨⟨rfl, rfl⟩, fun r => ⟨rfl, rfl, rfl, rfl, rfl, rfl, rfl⟩, fun r => by simp [this.1],
      fun hd => by simp [this.1] at hd, fun r hc => Or.inl hc⟩
  · rw [analyse_switch_return i b j o st hr] at h
    simp at h
    subst h
    have hnd := return_not_defines hr
    cases ha : o.args with
    | nil =>
      exact ⟨⟨rfl, rfl⟩, fun r => ⟨rfl, rfl, rfl, rfl, rfl, rfl, rfl⟩, fun r => by simp [hnd.1],
        fun hd => by simp [hnd.1] at hd, fun r hc => Or.inl hc⟩
    | cons a rest =>
      refine ⟨⟨rfl, rfl⟩, ?_, ?_, fun hd => by simp [hnd.1] at hd, ?_⟩
      · intro r
        by_cases hra : r = a
        · subst hra; simp [upd]
        · simp [upd, hra]
      · intro r
        by_cases hra : r = a
        · subst hra; simp [upd, hnd.1]
        · simp [upd, hra, hnd.1]
      · intro r hc
        left
        by_cases hra : r = a
        · subst hra; simpa [upd] using hc
        · simpa [upd, hra] using hc
  · have hnd := cond_not_defines hc
    rcases analyse_switch_cond i b j o st st1 hc h with h1 | ⟨input, rest, p, prev, ha, hdf, _, hp, hb, hk, hres, h1⟩
    · subst h1
      exact ⟨⟨rfl, rfl⟩, fun r => ⟨rfl, rfl, rfl, rfl, rfl, rfl, rfl⟩, fun r => by simp [hnd],
        fun hd => by simp [hnd] at hd, fun r hc => Or.inl hc⟩
    · subst h1
      refine ⟨⟨rfl, rfl⟩, ?_, ?_, fun hd => by simp [hnd] at hd, ?_⟩
      · intro r
        by_cases hra : r = input
        · subst hra; simp [upd]
        · simp [upd, hra]
      · intro r
        by_cases hra : r = input
        · subst hra; simp [upd, hnd]
        · simp [upd, hra, hnd]
      · intro r hcr
        by_cases hra : r = input
        · subst hra
          right
          exact ⟨rest, p, prev, hc, ha, hdf, hp, hb, hk, hres⟩
        · left; simpa [upd, hra] using hcr

theorem analyse_op_step (i : Nat) (b : List vcode_op) (j : Nat) (o : vcode_op)
    (st st2 : jit_state_t) (h : analyse_op i b j o st = .ok st2) :
    analyse_step i b j o st st2 := by
  unfold analyse_op at h
  cases hs : analyse_switch i b j o st with
  | error e => simp [hs] at h
  | ok st1 =>
    simp only [hs] at h
    have sw := analyse_switch_facts i b j o st st1 hs
    obtain ⟨heq, hdef⟩ := analyse_args_eq i j o.args 0 st1 st2 h
    have hreg : ∀ r, st2.vcode_regs r
        = args_effect i j (o.args.count r) (st1.vcode_regs r) := by
      intro r; rw [heq]
    have hd2 : ∀ r, (st2.vcode_regs r).defn_block = (st1.vcode_regs r).defn_block := by
      intro r; rw [hreg, args_effect_defn]
    have hcount : ∀ r, o.args.count r = 0 ↔ r ∉ o.args := fun r => List.count_eq_zero
    refine ⟨?_, ?_, ?_, sw.fresh, ?_, ?_, ?_, ?_⟩
    · rw [heq]; exact sw.frame
    · intro r
      obtain ⟨k1, k2, k3, _, _, k6, _⟩ := sw.keep r
      rw [hreg]
      unfold args_effect
      split
      · exact ⟨k1, k2, k3, k6⟩
      · split <;> exact ⟨k1, k2, k3, k6⟩
    · intro r; rw [hd2, sw.defn]
    · intro r hr; rw [hd2]; exact hdef r hr
    · intro r
      obtain ⟨_, _, _, _, _, _, k7⟩ := sw.keep r
      rw [hd2, hreg, ← k7]
      unfold args_effect
      by_cases hin : r ∈ o.args
      · have hc : o.args.count r ≠ 0 := fun hc => ((hcount r).1 hc) hin
        by_cases hdi : (st1.vcode_regs r).defn_block = some i
        · simp [hc, hdi, hin]
        · simp [hc, hdi, hin]
      · have hc : o.args.count r = 0 := (hcount r).2 hin
        simp [hc, hin]
    · intro r hc
      have hc1 : (st1.vcode_regs r).flags.cond_input = true := by
        rw [hreg] at hc
        unfold args_effect at hc
        split at hc
        · exact hc
        · split at hc <;> exact hc
      rcases sw.cond r hc1 with h1 | ⟨rest, p, prev, hk, ha, hdf, hrest⟩
      · exact Or.inl h1
      · right
        refine ⟨rest, p, prev, hk, ha, ?_, hrest⟩
        rw [hd2, sw.defn, cond_not_defines hk]
        simpa using hdf
    · intro r
      obtain ⟨_, _, _, k4, _, _, _⟩ := sw.keep r
      rw [hd2, hreg, ← k4]
      unfold args_effect
      by_cases hin : r ∈ o.args
      · have hc : o.args.count r ≠ 0 := fun hc => ((hcount r).1 hc) hin
        by_cases hdi : (st1.vcode_regs r).defn_block = some i
        · simp [hc, hdi, hin]
        · simp [hc, hdi, hin]
      · have hc : o.args.count r = 0 := (hcount r).2 hin
        simp [hc, hin]

/-! ## Pass B: the invariant of the op loop -/

theorem visited_succ (i j i1 j1 : Nat) :
    visited i (j + 1) i1 j1 ↔ visited i j i1 j1 ∨ (i1 = i ∧ j1 = j) := by
  unfold visited; omega

theorem op_at_eq {u : vcode_unit_t} {i j : Nat} {b : List vcode_op}
    (hb : u.blocks[i]? = some b) : op_at u i j = b[j]? := by
  simp [op_at, hb]

theorem op_at_lt {u : vcode_unit_t} {i j : Nat} {o : vcode_op}
    (h : op_at u i j = some o) : i < u.blocks.length := by
  unfold op_at at h
  cases hb : u.blocks[i]? with
  | none => simp [hb] at h
  | some b => exact (List.getElem?_eq_some.1 hb).1

theorem visited_next_block {u : vcode_unit_t} {i i1 j1 : Nat} {b : List vcode_op}
    {o : vcode_op} (hb : u.blocks[i]? = some b) (ho : op_at u i1 j1 = some o) :
    visited (i + 1) 0 i1 j1 ↔ visited i b.length i1 j1 := by
  unfold visited
  constructor
  · rintro (h | ⟨_, h⟩)
    · by_cases hi : i1 = i
      · subst hi
        rw [op_at_eq hb] at ho
        have := (List.getElem?_eq_some.1 ho).1
        exact Or.inr ⟨rfl, this⟩
      · left; omega
    · omega
  · rintro (h | ⟨h, _⟩)
    · left; omega
    · left; omega

theorem visited_end {u : vcode_unit_t} {i1 j1 : Nat} {o : vcode_op}
    (ho : op_at u i1 j1 = some o) : visited u.blocks.length 0 i1 j1 :=
  Or.inl (op_at_lt ho)

theorem analyse_inv_init (u : vcode_unit_t) (s1 : jit_state_t) : analyse_inv u s1 0 0 s1 := by
  have hv : ∀ i1 j1, ¬ visited 0 0 i1 j1 := by
    intro i1 j1 h; unfold visited at h; omega
  refine ⟨⟨rfl, rfl⟩, fun r => ⟨rfl, rfl, rfl, rfl⟩, ?_, ?_, ?_, ?_, fun r h => Or.inl h⟩
  · intro r d
    constructor
    · exact fun h => Or.inl h
    · rintro (h | ⟨j1, o, hvis, _⟩)
      · exact h
      · exact absurd hvis (hv _ _)
  · intro i1 j1 o1 hvis; exact absurd hvis (hv _ _)
  · intro i1 j1 o r hvis; exact absurd hvis (hv _ _)
  · intro r
    constructor
    · intro h
      exact ⟨h, fun i1 j1 o hvis => absurd hvis (hv _ _)⟩
    · exact fun h => h.1

theorem analyse_inv_block (u : vcode_unit_t) (s1 : jit_state_t) (i : Nat) (b : List vcode_op)
    (st : jit_state_t) (hb : u.blocks[i]? = some b) (inv : analyse_inv u s1 i b.length st) :
    analyse_inv u s1 (i + 1) 0 st := by
  refine ⟨inv.frame, inv.keep, ?_, ?_, ?_, ?_, inv.cond⟩
  · intro r d
    rw [inv.defn r d]
    constructor
    · rintro (h | ⟨j1, o, hvis, ho, hd⟩)
      · exact Or.inl h
      · exact Or.inr ⟨j1, o, (visited_next_block hb ho).2 hvis, ho, hd⟩
    · rintro (h | ⟨j1, o, hvis, ho, hd⟩)
      · exact Or.inl h
      · exact Or.inr ⟨j1, o, (visited_next_block hb ho).1 hvis, ho, hd⟩
  · intro i1 j1 o1 hvis ho1 hd1
    obtain ⟨h1, h2⟩ := inv.single i1 j1 o1 ((visited_next_block hb ho1).1 hvis) ho1 hd1
    exact ⟨h1, fun i2 j2 o2 hvis2 ho2 => h2 i2 j2 o2 ((visited_next_block hb ho2).1 hvis2) ho2⟩
  · intro i1 j1 o r hvis ho
    exact inv.uses i1 j1 o r ((visited_next_block hb ho).1 hvis) ho
  · intro r
    rw [inv.blk_local r]
    constructor
    · rintro ⟨h1, h2⟩
      exact ⟨h1, fun i1 j1 o hvis ho => h2 i1 j1 o ((visited_next_block hb ho).1 hvis) ho⟩
    · rintro ⟨h1, h2⟩
      exact ⟨h1, fun i1 j1 o hvis ho => h2 i1 j1 o ((visited_next_block hb ho).2 hvis) ho⟩

theorem analyse_inv_step (u : vcode_unit_t) (s1 : jit_state_t) (i : Nat) (b : List vcode_op)
    (j : Nat) (o : vcode_op) (st st1 : jit_state_t)
    (hb : u.blocks[i]? = some b) (ho : b[j]? = some o)
    (inv : analyse_inv u s1 i j st) (step : analyse_step i b j o st st1) :
    analyse_inv u s1 i (j + 1) st1 := by
  have hoat : op_at u i j = some o := by rw [op_at_eq hb]; exact ho
  -- a register defined so far keeps its definition over this op
  have hkeep : ∀ r d, (st.vcode_regs r).defn_block = some d →
      (st1.vcode_regs r).defn_block = some d := by
    intro r d h
    rw [step.defn r]
    split
    · rename_i hc
      have := step.fresh hc.1
      rw [← hc.2, h] at this
      cases this
    · exact h
  have hdefn : ∀ r d, (st1.vcode_regs r).defn_block = some d ↔
      ((s1.vcode_regs r).defn_block = some d ∨
        ∃ j1 o1, visited i (j + 1) d j1 ∧ op_at u d j1 = some o1 ∧
          defines_result o1 = true ∧ o1.result = r) := by
    intro r d
    constructor
    · intro h
      rw [step.defn r] at h
      split at h
      · rename_i hc
        simp at h
        subst h
        exact Or.inr ⟨j, o, (visited_succ _ _ _ _).2 (Or.inr ⟨rfl, rfl⟩), hoat, hc.1, hc.2.symm⟩
      · rcases (inv.defn r d).1 h with h1 | ⟨j1, o1, hvis, h2⟩
        · exact Or.inl h1
        · exact Or.inr ⟨j1, o1, (visited_succ _ _ _ _).2 (Or.inl hvis), h2⟩
    · rintro (h | ⟨j1, o1, hvis, ho1, hd1, hr1⟩)
      · exact hkeep r d ((inv.defn r d).2 (Or.inl h))
      · rcases (visited_succ _ _ _ _).1 hvis with hvis | ⟨rfl, rfl⟩
        · exact hkeep r d ((inv.defn r d).2 (Or.inr ⟨j1, o1, hvis, ho1, hd1, hr1⟩))
        · rw [hoat] at ho1
          cases ho1
          rw [step.defn r, if_pos ⟨hd1, hr1.symm⟩]
  refine ⟨?_, ?_, hdefn, ?_, ?_, ?_, ?_⟩
  · exact ⟨step.frame.1.trans inv.frame.1, step.frame.2.trans inv.frame.2⟩
  · intro r
    obtain ⟨a1, a2, a3, a4⟩ := step.keep r
    obtain ⟨b1, b2, b3, b4⟩ := inv.keep r
    exact ⟨a1.trans b1, a2.trans b2, a3.trans b3, a4.trans b4⟩
  · -- single definition
    have hnew : defines_result o = true →
        (s1.vcode_regs o.result).defn_block = none ∧
        ∀ i2 j2 o2, visited i j i2 j2 → op_at u i2 j2 = some o2 → defines_result o2 = true →
          o2.result = o.result → False := by
      intro hd
      have hfresh := step.fresh hd
      constructor
      · cases hs : (s1.vcode_regs o.result).defn_block with
        | none => rfl
        | some d =>
          have := (inv.defn o.result d).2 (Or.inl hs)
          rw [hfresh] at this
          cases this
      · intro i2 j2 o2 hvis ho2 hd2 hr2
        have := (inv.defn o.result i2).2 (Or.inr ⟨j2, o2, hvis, ho2, hd2, hr2⟩)
        rw [hfresh] at this
        cases this
    intro i1 j1 o1 hvis1 ho1 hd1
    rcases (visited_succ _ _ _ _).1 hvis1 with hvis1 | ⟨rfl, rfl⟩
    · obtain ⟨h1, h2⟩ := inv.single i1 j1 o1 hvis1 ho1 hd1
      refine ⟨h1, ?_⟩
      intro i2 j2 o2 hvis2 ho2 hd2 hr2
      rcases (visited_succ _ _ _ _).1 hvis2 with hvis2 | ⟨rfl, rfl⟩
      · exact h2 i2 j2 o2 hvis2 ho2 hd2 hr2
      · rw [hoat] at ho2
        cases ho2
        exact ((hnew hd2).2 i1 j1 o1 hvis1 ho1 hd1 hr2.symm).elim
    · rw [hoat] at ho1
      cases ho1
      refine ⟨(hnew hd1).1, ?_⟩
      intro i2 j2 o2 hvis2 ho2 hd2 hr2
      rcases (visited_succ _ _ _ _).1 hvis2 with hvis2 | ⟨h3, h4⟩
      · exact ((hnew hd1).2 i2 j2 o2 hvis2 ho2 hd2 hr2).elim
      · exact ⟨h3, h4⟩
  · -- uses
    intro i1 j1 o1 r hvis1 ho1 hr
    rcases (visited_succ _ _ _ _).1 hvis1 with hvis1 | ⟨rfl, rfl⟩
    · exact inv.uses i1 j1 o1 r hvis1 ho1 hr
    · rw [hoat] at ho1
      cases ho1
      have hsome := step.args_defined r hr
      cases hd : (st1.vcode_regs r).defn_block with
      | none => exact absurd hd hsome
      | some d =>
        rcases (hdefn r d).1 hd with h1 | ⟨j2, o2, hvis2, h2⟩
        · left; rw [h1]; simp
        · right
          refine ⟨d, j2, o2, ?_, h2⟩
          exact hvis2
  · -- block locality
    intro r
    rw [step.blk_local r, inv.blk_local r]
    constructor
    · rintro ⟨⟨h1, h2⟩, h3⟩
      refine ⟨h1, ?_⟩
      intro i1 j1 o1 hvis1 ho1 hr
      rcases (visited_succ _ _ _ _).1 hvis1 with hvis1 | ⟨rfl, rfl⟩
      · exact hkeep r i1 (h2 i1 j1 o1 hvis1 ho1 hr)
      · rw [hoat] at ho1
        cases ho1
        exact h3 hr
    · rintro ⟨h1, h2⟩
      refine ⟨⟨h1, ?_⟩, ?_⟩
      · intro i1 j1 o1 hvis1 ho1 hr
        have h3 := h2 i1 j1 o1 ((visited_succ _ _ _ _).2 (Or.inl hvis1)) ho1 hr
        -- the use was checked, so the register was defined then
        rcases inv.uses i1 j1 o1 r hvis1 ho1 hr with hs | ⟨d, j2, o2, hvis2, ho2, hd2, hr2⟩
        · cases hd : (s1.vcode_regs r).defn_block with
          | none => exact absurd hd hs
          | some d =>
            have h4 := (inv.defn r d).2 (Or.inl hd)
            have h5 := hkeep r d h4
            rw [h3] at h5
            cases h5
            exact h4
        · have hvis3 : visited i j d j2 := by
            unfold visited at hvis1 hvis2 ⊢
            omega
          have h4 := (inv.defn r d).2 (Or.inr ⟨j2, o2, hvis3, ho2, hd2, hr2⟩)
          have h5 := hkeep r d h4
          rw [h3] at h5
          cases h5
          exact h4
      · intro hr
        exact h2 i j o ((visited_succ _ _ _ _).2 (Or.inr ⟨rfl, rfl⟩)) hoat hr
  · -- cond input
    intro r hc
    rcases step.cond r hc with h1 | ⟨rest, p, prev, hk, ha, hdf, hrest⟩
    · rcases inv.cond r h1 with h2 | ⟨i1, b1, j1, o1, rest, p, prev, hb1, ho1, hk, ha, hdf, hrest⟩
      · exact Or.inl h2
      · exact Or.inr ⟨i1, b1, j1, o1, rest, p, prev, hb1, ho1, hk, ha, hkeep r i1 hdf, hrest⟩
    · exact Or.inr ⟨i, b, j, o, rest, p, prev, hb, ho, hk, ha, hdf, hrest⟩

/-- The invariant holds when the op loop of `jit_analyse` returns. -/
theorem analyse_ops_inv (u : vcode_unit_t) (s1 s2 : jit_state_t)
    (h : for_each_op analyse_op u.blocks s1 = .ok s2) :
    analyse_inv u s1 u.blocks.length 0 s2 :=
  for_each_op_inv analyse_op (fun i j st => analyse_inv u s1 i j st) u.blocks s1 s2
    (fun i b j o t t1 hb ho inv hstep =>
      analyse_inv_step u s1 i b j o t t1 hb ho inv (analyse_op_step i b j o t t1 hstep))
    (fun i b t hb inv => analyse_inv_block u s1 i b t hb inv)
    (analyse_inv_init u s1) h

/-! ## Pass B: the first loop, and the properties of the whole pass (C4, C5) -/

theorem analyse_init_loop (T : target_t) (u : vcode_unit_t) (n : Nat) (st s1 : jit_state_t)
    (h : for_range (analyse_init T u) 0 n st = .ok s1) :
    (s1.mach_regs = st.mach_regs ∧ s1.stack_wptr = st.stack_wptr ∧
      s1.stack_size = st.stack_size) ∧
    ∀ r, (r < n → s1.vcode_regs r =
        { st.vcode_regs r with
          flags := { (st.vcode_regs r).flags with block_local := true },
          size := (s1.vcode_regs r).size,
          vcode_reg := r,
          defn_block := if (st.vcode_regs r).flags.parameter then some 0 else none }) ∧
      (n ≤ r → s1.vcode_regs r = st.vcode_regs r) := by
  have := for_range_inv (analyse_init T u)
    (fun k s => (s.mach_regs = st.mach_regs ∧ s.stack_wptr = st.stack_wptr ∧
        s.stack_size = st.stack_size) ∧
      ∀ r, (r < k → s.vcode_regs r =
          { st.vcode_regs r with
            flags := { (st.vcode_regs r).flags with block_local := true },
            size := (s.vcode_regs r).size,
            vcode_reg := r,
            defn_block := if (st.vcode_regs r).flags.parameter then some 0 else none }) ∧
        (k ≤ r → s.vcode_regs r = st.vcode_regs r))
    n 0 st s1
    (fun k t t1 _ hp hb => by
      simp only [Nat.zero_add] at hp hb ⊢
      unfold analyse_init at hb
      cases hsz : jit_size_of T (u.reg_type k) with
      | error e => simp [hsz] at hb
      | ok size =>
        simp only [hsz] at hb
        simp at hb
        subst hb
        refine ⟨hp.1, ?_⟩
        intro r
        constructor
        · intro hr
          by_cases hrk : r = k
          · subst hrk
            simp only [upd_same]
            rw [(hp.2 r).2 (le_refl _)]
          · simp only [upd_other _ _ _ _ hrk]
            exact (hp.2 r).1 (by omega)
        · intro hr
          have hrk : r ≠ k := by omega
          simp only [upd_other _ _ _ _ hrk]
          exact (hp.2 r).2 (by omega))
    ⟨⟨rfl, rfl, rfl⟩, fun r => ⟨fun hr => absurd hr (by omega), fun _ => rfl⟩⟩ h
  simpa using this

/-- The state after the first loop of `jit_analyse`, for a register of the
unit. -/
theorem analyse_init_reg (T : target_t) (u : vcode_unit_t) (n : Nat) (st s1 : jit_state_t)
    (h : for_range (analyse_init T u) 0 n st = .ok s1) (r : Nat) (hr : r < n) :
    (s1.vcode_regs r).flags.block_local = true ∧
    (s1.vcode_regs r).defn_block = (if (st.vcode_regs r).flags.parameter then some 0 else none) ∧
    (s1.vcode_regs r).flags.parameter = (st.vcode_regs r).flags.parameter ∧
    (s1.vcode_regs r).flags.cond_input = (st.vcode_regs r).flags.cond_input ∧
    (s1.vcode_regs r).state = (st.vcode_regs r).state ∧
    (s1.vcode_regs r).reg_name = (st.vcode_regs r).reg_name := by
  have := ((analyse_init_loop T u n st s1 h).2 r).1 hr
  rw [this]
  simp

theorem analyse_init_reg_out (T : target_t) (u : vcode_unit_t) (n : Nat) (st s1 : jit_state_t)
    (h : for_range (analyse_init T u) 0 n st = .ok s1) (r : Nat) (hr : n ≤ r) :
    s1.vcode_regs r = st.vcode_regs r :=
  ((analyse_init_loop T u n st s1 h).2 r).2 hr

/-- The two loops of `jit_analyse`. -/
theorem jit_analyse_split (T : target_t) (u : vcode_unit_t) (s0 s2 : jit_state_t)
    (h : jit_analyse T u s0 = .ok s2) :
    ∃ s1, for_range (analyse_init T u) 0 u.nregs s0 = .ok s1 ∧
      for_each_op analyse_op u.blocks s1 = .ok s2 := by
  unfold jit_analyse at h
  cases h1 : for_range (analyse_init T u) 0 u.nregs s0 with
  | error e => simp [h1] at h
  | ok s1 => exact ⟨s1, rfl, by simpa [h1] using h⟩

/-- C4: when `jit_analyse` completes, a register of the unit has BLOCK_LOCAL
set if and only if every op that takes it as an argument lies in the block
recorded as its `defn_block`; that block is block 0 for a parameter. -/
theorem block_local_iff (T : target_t) (u : vcode_unit_t) (s0 s2 : jit_state_t)
    (h : jit_analyse T u s0 = .ok s2) (r : Nat) (hr : r < u.nregs) :
    ((s2.vcode_regs r).flags.block_local = true ↔
      ∀ i j o, op_at u i j = some o → r ∈ o.args → (s2.vcode_regs r).defn_block = some i) ∧
    ((s0.vcode_regs r).flags.parameter = true → (s2.vcode_regs r).defn_block = some 0) := by
  obtain ⟨s1, h1, h2⟩ := jit_analyse_split T u s0 s2 h
  have inv := analyse_ops_inv u s1 s2 h2
  obtain ⟨hbl, hdf, _⟩ := analyse_init_reg T u u.nregs s0 s1 h1 r hr
  constructor
  · rw [inv.blk_local r]
    constructor
    · rintro ⟨_, h3⟩ i j o ho hin
      exact h3 i j o (visited_end ho) ho hin
    · intro h3
      exact ⟨hbl, fun i j o _ ho hin => h3 i j o ho hin⟩
  · intro hp
    rw [hp] at hdf
    exact (inv.defn r 0).2 (Or.inl (by simpa using hdf))

/-- Witness of C4 on `unit_cross_block`: `r0` is used in block 1 and loses
BLOCK_LOCAL. -/
theorem block_local_iff_witness :
    (jit_analyse target_lp64 unit_cross_block (zero_state [])
        = .ok (state_of (jit_analyse target_lp64 unit_cross_block (zero_state []))
            (zero_state [])) ∧
      0 < unit_cross_block.nregs) ∧
    ((((state_of (jit_analyse target_lp64 unit_cross_block (zero_state []))
          (zero_state [])).vcode_regs 0).flags.block_local = true ↔
      ∀ i j o, op_at unit_cross_block i j = some o → 0 ∈ o.args →
        ((state_of (jit_analyse target_lp64 unit_cross_block (zero_state []))
          (zero_state [])).vcode_regs 0).defn_block = some i) ∧
    (((zero_state []).vcode_regs 0).flags.parameter = true →
      ((state_of (jit_analyse target_lp64 unit_cross_block (zero_state []))
          (zero_state [])).vcode_regs 0).defn_block = some 0)) :=
  ⟨⟨rfl, by decide⟩,
   block_local_iff target_lp64 unit_cross_block (zero_state []) _ rfl 0 (by decide)⟩

/-- C5 (amended): when `jit_analyse` completes, no register is the result of
two defining ops, no register of the unit that is a parameter is the result of
a defining op, and every register of the unit that is an argument of an op is
a parameter or the result of a defining op at or before that op in block/op
order (the op itself included). -/
theorem analyse_single_definition (T : target_t) (u : vcode_unit_t) (s0 s2 : jit_state_t)
    (h : jit_analyse T u s0 = .ok s2) :
    (∀ i1 j1 o1 i2 j2 o2, op_at u i1 j1 = some o1 → op_at u i2 j2 = some o2 →
      defines_result o1 = true → defines_result o2 = true → o1.result = o2.result →
      i1 = i2 ∧ j1 = j2) ∧
    (∀ i j o, op_at u i j = some o → defines_result o = true → o.result < u.nregs →
      (s0.vcode_regs o.result).flags.parameter = false) ∧
    (∀ i j o r, op_at u i j = some o → r ∈ o.args → r < u.nregs →
      (s0.vcode_regs r).flags.parameter = true ∨
      ∃ i1 j1 o1, op_at u i1 j1 = some o1 ∧ defines_result o1 = true ∧ o1.result = r ∧
        (visited i j i1 j1 ∨ (i1 = i ∧ j1 = j))) := by
  obtain ⟨s1, h1, h2⟩ := jit_analyse_split T u s0 s2 h
  have inv := analyse_ops_inv u s1 s2 h2
  refine ⟨?_, ?_, ?_⟩
  · intro i1 j1 o1 i2 j2 o2 ho1 ho2 hd1 hd2 hres
    exact (inv.single i2 j2 o2 (visited_end ho2) ho2 hd2).2 i1 j1 o1 (visited_end ho1) ho1 hd1 hres
  · intro i j o ho hd hr
    have hnone := (inv.single i j o (visited_end ho) ho hd).1
    obtain ⟨_, hdf, _⟩ := analyse_init_reg T u u.nregs s0 s1 h1 o.result hr
    rw [hdf] at hnone
    cases hp : (s0.vcode_regs o.result).flags.parameter with
    | false => rfl
    | true => simp [hp] at hnone
  · intro i j o r ho hin hr
    obtain ⟨_, hdf, _⟩ := analyse_init_reg T u u.nregs s0 s1 h1 r hr
    rcases inv.uses i j o r (visited_end ho) ho hin with hs | ⟨d, j2, o2, hvis, ho2, hd2, hr2⟩
    · left
      rw [hdf] at hs
      cases hp : (s0.vcode_regs r).flags.parameter with
      | false => simp [hp] at hs
      | true => rfl
    · right
      exact ⟨d, j2, o2, ho2, hd2, hr2, (visited_succ _ _ _ _).1 hvis⟩

/-- Witness of C5 (amended) on `unit_cross_block`. -/
theorem analyse_single_definition_witness :
    jit_analyse target_lp64 unit_cross_block (zero_state [])
        = .ok (state_of (jit_analyse target_lp64 unit_cross_block (zero_state []))
            (zero_state [])) ∧
    (∀ i j o r, op_at unit_cross_block i j = some o → r ∈ o.args → r < unit_cross_block.nregs →
      ((zero_state []).vcode_regs r).flags.parameter = true ∨
      ∃ i1 j1 o1, op_at unit_cross_block i1 j1 = some o1 ∧ defines_result o1 = true ∧
        o1.result = r ∧ (visited i j i1 j1 ∨ (i1 = i ∧ j1 = j))) :=
  ⟨rfl, (analyse_single_definition target_lp64 unit_cross_block (zero_state []) _ rfl).2.2⟩

/-- C5 as stated fails: on `unit_self_use` analysis completes, although the
argument `r0` of its only op is not a parameter and no op earlier in block/op
order defines it. -/
theorem single_definition_counterexample :
    exit_of (jit_analyse target_lp64 unit_self_use (zero_state [])) = none ∧
    op_at unit_self_use 0 0 = some (mk_op .VCODE_OP_ADD [0, 0] 0) ∧
    0 ∈ (mk_op .VCODE_OP_ADD [0, 0] 0).args ∧
    ((zero_state []).vcode_regs 0).flags.parameter = false ∧
    ¬ ∃ i1 j1 o1, op_at unit_self_use i1 j1 = some o1 ∧ defines_result o1 = true ∧
        o1.result = 0 ∧ visited 0 0 i1 j1 := by
  refine ⟨by decide, by decide, by decide, by decide, ?_⟩
  rintro ⟨i1, j1, o1, _, _, _, hv⟩
  unfold visited at hv
  omega

/-! ## Pass C: what one op does -/

theorem jit_alloc_reg_none (st : jit_state_t) (blk op usage : Nat)
    (h : (jit_alloc_reg st blk op usage).2 = none) :
    (jit_alloc_reg st blk op usage).1 = st.mach_regs := by
  cases hbl : (st.vcode_regs usage).flags.block_local with
  | false => rw [jit_alloc_reg_not_local st blk op usage hbl]
  | true =>
    rcases jit_alloc_reg_cases st blk op usage hbl with ⟨hnil, hr⟩ | ⟨q, _, _, hr⟩
    · rw [hr]
      simp only
      rw [alloc_scan_fst]
      have hne : ∀ m ∈ st.mach_regs, ¬ eligible st.vcode_regs blk op m := by
        intro m hm he
        obtain ⟨k, hk⟩ := List.mem_iff_getElem?.1 hm
        have := cand_of_eligible hk he
        rw [hnil] at this
        simp at this
      calc st.mach_regs.map
            (fun m => if eligible st.vcode_regs blk op m then { m with usage := none } else m)
          = st.mach_regs.map id := List.map_congr_left (fun m hm => by simp [hne m hm])
        _ = st.mach_regs := List.map_id _
    · rw [hr] at h; cases h

/-- The two outcomes of `jit_map_result`. -/
theorem jit_map_result_cases (blk op : Nat) (o : vcode_op) (st st1 : jit_state_t)
    (h : jit_map_result blk op o st = .ok st1) :
    (∃ k, jit_alloc_reg st blk op o.result = (st1.mach_regs, some k) ∧
      st1 = { st with
        mach_regs := st1.mach_regs,
        vcode_regs := upd st.vcode_regs o.result
          { st.vcode_regs o.result with
            state := .JIT_REGISTER, reg_name := mach_name st1.mach_regs k } }) ∨
    ((jit_alloc_reg st blk op o.result).2 = none ∧
      st1 = { st with
        stack_wptr := st1.stack_wptr,
        vcode_regs := upd st.vcode_regs o.result
          { st.vcode_regs o.result with
            state := .JIT_STACK,
            stack_offset := (st1.vcode_regs o.result).stack_offset } }) := by
  unfold jit_map_result at h
  cases ha : jit_alloc_reg st blk op o.result with
  | mk file res =>
    cases res with
    | some k =>
      left
      simp only [ha] at h
      simp at h
      subst h
      exact ⟨k, rfl, rfl⟩
    | none =>
      right
      have hfile : file = st.mach_regs := by
        have := jit_alloc_reg_none st blk op o.result (by rw [ha])
        rw [ha] at this
        exact this
      simp only [ha] at h
      split at h
      · cases h
      · simp at h
        subst h
        refine ⟨rfl, ?_⟩
        subst hfile
        simp [upd]

theorem map_step_refl (blk op : Nat) (o : vcode_op) (st : jit_state_t) :
    map_step blk op o st st :=
  ⟨fun _ => ⟨rfl, rfl, rfl, rfl, rfl⟩, fun _ _ => rfl, Or.inl ⟨rfl, fun _ => rfl⟩⟩

/-- A step that only rewrites the storage of the result, not to a machine
register. -/
theorem map_step_write (blk op : Nat) (o : vcode_op) (st st1 : jit_state_t)
    (r1 : jit_vcode_reg_t)
    (hregs : st1.vcode_regs = upd st.vcode_regs o.result r1)
    (hfile : st1.mach_regs = st.mach_regs)
    (hflags : r1.flags = (st.vcode_regs o.result).flags)
    (hdefn : r1.defn_block = (st.vcode_regs o.result).defn_block)
    (hlife : r1.lifetime = (st.vcode_regs o.result).lifetime)
    (huse : r1.use_count = (st.vcode_regs o.result).use_count)
    (hsize : r1.size = (st.vcode_regs o.result).size)
    (hstate : r1.state ≠ .JIT_REGISTER) :
    map_step blk op o st st1 := by
  refine ⟨?_, ?_, Or.inl ⟨hfile, ?_⟩⟩
  · intro r
    rw [hregs]
    by_cases hr : r = o.result
    · subst hr; simp [upd, hflags, hdefn, hlife, huse, hsize]
    · simp [upd, hr]
  · intro r hr
    rw [hregs]; simp [upd, hr]
  · intro h
    rw [hregs] at h
    simp [upd] at h
    exact absurd h hstate

/-- A step that hands the result a machine register. -/
theorem map_step_register (blk op : Nat) (o : vcode_op) (st st1 : jit_state_t) (k : Nat)
    (ha : jit_alloc_reg st blk op o.result = (st1.mach_regs, some k))
    (hregs : st1.vcode_regs = upd st.vcode_regs o.result
      { st.vcode_regs o.result with
        state := .JIT_REGISTER, reg_name := mach_name st1.mach_regs k }) :
    map_step blk op o st st1 := by
  refine ⟨?_, ?_, Or.inr ⟨k, ha, ?_, ?_⟩⟩
  · intro r
    rw [hregs]
    by_cases hr : r = o.result
    · subst hr; simp [upd]
    · simp [upd, hr]
  · intro r hr
    rw [hregs]; simp [upd, hr]
  · rw [hregs]; simp [upd]
  · rw [hregs]; simp [upd]

theorem jit_map_result_step (blk op : Nat) (o : vcode_op) (st st1 : jit_state_t)
    (h : jit_map_result blk op o st = .ok st1) :
    map_step blk op o st st1 ∧
    ((st1.vcode_regs o.result).state = .JIT_REGISTER ∨
      (st1.vcode_regs o.result).state = .JIT_STACK) := by
  rcases jit_map_result_cases blk op o st st1 h with ⟨k, ha, heq⟩ | ⟨_, heq⟩
  · have hregs : st1.vcode_regs = upd st.vcode_regs o.result
        { st.vcode_regs o.result with
          state := .JIT_REGISTER, reg_name := mach_name st1.mach_regs k } := by
      conv_lhs => rw [heq]
    refine ⟨map_step_register blk op o st st1 k ha hregs, Or.inl ?_⟩
    rw [hregs]; simp [upd]
  · have hregs : st1.vcode_regs = upd st.vcode_regs o.result
        { st.vcode_regs o.result with
          state := .JIT_STACK,
          stack_offset := (st1.vcode_regs o.result).stack_offset } := by
      conv_lhs => rw [heq]
    have hfile : st1.mach_regs = st.mach_regs := by
      conv_lhs => rw [heq]
    refine ⟨map_step_write blk op o st st1 _ hregs hfile rfl rfl rfl rfl rfl (by simp),
      Or.inr ?_⟩
    rw [hregs]; simp [upd]

theorem jit_map_uarray_op_step (T : target_t) (blk op : Nat) (o : vcode_op)
    (st st1 : jit_state_t) (h : jit_map_uarray_op T blk op o st = .ok st1) :
    map_step blk op o st st1 ∧
    ((st1.vcode_regs o.result).state = .JIT_REGISTER ∨
      (st1.vcode_regs o.result).state = .JIT_STACK) := by
  unfold jit_map_uarray_op at h
  cases hargs : o.args with
  | nil => simp [hargs] at h
  | cons a rest =>
    simp only [hargs] at h
    split at h
    · cases h
    · split at h
      · cases h
      · rename_i off _
        split at h
        · cases ha : jit_alloc_reg st blk op o.result with
          | mk file res =>
            cases res with
            | some k =>
              simp only [ha] at h
              simp at h
              subst h
              exact ⟨map_step_register blk op o st _ k ha rfl, Or.inl (by simp [upd])⟩
            | none =>
              have hfile : file = st.mach_regs := by
                have := jit_alloc_reg_none st blk op o.result (by rw [ha])
                rw [ha] at this
                exact this
              simp only [ha] at h
              simp at h
              subst h
              exact ⟨map_step_write blk op o st _ _ rfl hfile rfl rfl rfl rfl rfl (by simp),
                Or.inr (by simp [upd])⟩
        · simp at h
          subst h
          exact ⟨map_step_write blk op o st _ _ rfl rfl rfl rfl rfl rfl rfl (by simp),
            Or.inr (by simp [upd])⟩

theorem jit_map_cast_step (u : vcode_unit_t) (blk op : Nat) (o : vcode_op)
    (st st1 : jit_state_t) (h : jit_map_cast u blk op o st = .ok st1) :
    map_step blk op o st st1 ∧
    ((st1.vcode_regs o.result).state = .JIT_REGISTER ∨
      (st1.vcode_regs o.result).state = .JIT_STACK) := by
  unfold jit_map_cast at h
  cases hargs : o.args with
  | nil => simp [hargs] at h
  | cons a rest =>
    simp only [hargs] at h
    split at h
    · simp at h
      subst h
      exact ⟨map_step_write blk op o st _ _ rfl rfl rfl rfl rfl rfl rfl (by simp),
        Or.inr (by simp [upd])⟩
    · exact jit_map_result_step blk op o st st1 h

/-- The ops for which `jit_map_storage_for_op` assigns storage to the
result are ops whose definition `jit_analyse` records. -/
theorem jit_map_storage_for_op_idle (T : target_t) (u : vcode_unit_t) (blk : Nat)
    (b : List vcode_op) (op : Nat) (o : vcode_op) (st st1 : jit_state_t)
    (h : jit_map_storage_for_op T u blk b op o st = .ok st1)
    (hd : defines_result o = false) : st1 = st := by
  unfold defines_result at hd
  unfold jit_map_storage_for_op at h
  cases hk : o.kind <;> simp [hk] at hd <;> simp [hk] at h <;> exact h.symm

theorem jit_map_storage_for_op_step (T : target_t) (u : vcode_unit_t) (blk : Nat)
    (b : List vcode_op) (op : Nat) (o : vcode_op) (st st1 : jit_state_t)
    (h : jit_map_storage_for_op T u blk b op o st = .ok st1) :
    map_step blk op o st st1 := by
  by_cases hd : defines_result o = false
  · rw [jit_map_storage_for_op_idle T u blk b op o st st1 h hd]
    exact map_step_refl blk op o st
  · unfold defines_result at hd
    unfold jit_map_storage_for_op at h
    cases hk : o.kind <;> simp [hk] at hd <;> simp only [hk] at h
    all_goals first
      | exact (jit_map_result_step blk op o st st1 h).1
      | exact (jit_map_uarray_op_step T blk op o st st1 h).1
      | exact (jit_map_cast_step u blk op o st st1 h).1
      | (simp at h; done)
      | skip
    · -- CMP
      split at h
      · simp at h
        subst h
        exact map_step_write blk op o st _ _ rfl rfl rfl rfl rfl rfl rfl (by simp)
      · exact (jit_map_result_step blk op o st st1 h).1
    · -- CONST
      simp at h
      subst h
      exact map_step_write blk op o st _ _ rfl rfl rfl rfl rfl rfl rfl (by simp)

/-- Flags storage is assigned by the `CMP` case only, under its test. -/
theorem jit_map_storage_for_op_flags (T : target_t) (u : vcode_unit_t) (blk : Nat)
    (b : List vcode_op) (op : Nat) (o : vcode_op) (st st1 : jit_state_t)
    (h : jit_map_storage_for_op T u blk b op o st = .ok st1) :
    ((st1.vcode_regs o.result).state = .JIT_FLAGS →
      (st1.vcode_regs o.result = st.vcode_regs o.result) ∨
      (o.kind = .VCODE_OP_CMP ∧ (st.vcode_regs o.result).flags.cond_input = true ∧
        jit_is_ephemeral b (st.vcode_regs o.result) op = true)) ∧
    (o.kind = .VCODE_OP_CMP → (st.vcode_regs o.result).flags.cond_input = true →
      jit_is_ephemeral b (st.vcode_regs o.result) op = true →
      (st1.vcode_regs o.result).state = .JIT_FLAGS) := by
  by_cases hd : defines_result o = false
  · rw [jit_map_storage_for_op_idle T u blk b op o st st1 h hd]
    refine ⟨fun _ => Or.inl rfl, ?_⟩
    intro hk
    simp [defines_result, hk] at hd
  · unfold defines_result at hd
    unfold jit_map_storage_for_op at h
    have hne : ∀ s : jit_storage_t, (s = .JIT_REGISTER ∨ s = .JIT_STACK) → s ≠ .JIT_FLAGS := by
      intro s hs; rcases hs with rfl | rfl <;> simp
    cases hk : o.kind <;> simp [hk] at hd <;> simp only [hk] at h
    all_goals first
      | exact ⟨fun hf => absurd hf (hne _ (jit_map_result_step blk op o st st1 h).2),
          fun hc => by cases hc⟩
      | exact ⟨fun hf => absurd hf (hne _ (jit_map_uarray_op_step T blk op o st st1 h).2),
          fun hc => by cases hc⟩
      | exact ⟨fun hf => absurd hf (hne _ (jit_map_cast_step u blk op o st st1 h).2),
          fun hc => by cases hc⟩
      | (simp at h; done)
      | skip
    · -- CMP
      split at h
      · rename_i hc
        simp at hc
        simp at h
        subst h
        exact ⟨fun _ => Or.inr ⟨rfl, hc.1, hc.2⟩, fun _ _ _ => by simp [upd]⟩
      · rename_i hc
        refine ⟨fun hf => absurd hf (hne _ (jit_map_result_step blk op o st st1 h).2), ?_⟩
        intro _ h1 h2
        simp [h1, h2] at hc
    · -- CONST
      simp at h
      subst h
      exact ⟨fun hf => by simp [upd] at hf, fun hc => by cases hc⟩

/-! ## Pass C: the invariant of the op loop -/

/-- The register file after a successful `jit_alloc_reg`, entry by entry. -/
theorem jit_alloc_reg_some (st : jit_state_t) (blk op usage k : Nat)
    (file : List jit_mach_reg_t) (h : jit_alloc_reg st blk op usage = (file, some k)) :
    (st.vcode_regs usage).flags.block_local = true ∧
    ∃ m, st.mach_regs[k]? = some m ∧ eligible st.vcode_regs blk op m ∧
      file[k]? = some { m with usage := some usage } ∧
      ∀ k1, k1 ≠ k → file[k1]? = (st.mach_regs[k1]?).map
        (fun mk => if eligible st.vcode_regs blk op mk then { mk with usage := none } else mk) := by
  cases hbl : (st.vcode_regs usage).flags.block_local with
  | false => rw [jit_alloc_reg_not_local st blk op usage hbl] at h; cases h
  | true =>
    refine ⟨rfl, ?_⟩
    rcases jit_alloc_reg_cases st blk op usage hbl with ⟨_, hr⟩ | ⟨q, hq, _, hr⟩
    · rw [hr] at h; cases h
    · obtain ⟨m, hm, he, _⟩ := eligible_of_cand hq
      rw [hr] at h
      simp only [Prod.mk.injEq, Option.some.injEq] at h
      obtain ⟨hfile, hk⟩ := h
      subst hk
      subst hfile
      refine ⟨m, hm, he, ?_, ?_⟩
      · simp [set_usage_get, alloc_scan_fst, List.getElem?_map, hm, he]
      · intro k1 hk1
        simp [set_usage_get, alloc_scan_fst, List.getElem?_map, hk1]
        rfl

theorem dead_tenant_succ {r : jit_vcode_reg_t} {i j : Nat} (h : dead_tenant r i j) :
    dead_tenant r i (j + 1) := by
  unfold dead_tenant at h ⊢
  rcases h with ⟨h1, h2 | h2⟩
  · exact ⟨h1, Or.inl h2⟩
  · exact ⟨h1, Or.inr (by omega)⟩

theorem visited_lt_block {i j i1 j1 : Nat} (h : visited i j i1 j1) : i1 ≤ i := by
  unfold visited at h; omega

theorem map_inv_init (u : vcode_unit_t) (s1 : jit_state_t)
    (hreg : ∀ r, (s1.vcode_regs r).state ≠ .JIT_REGISTER) : map_inv u s1 0 0 s1 := by
  refine ⟨fun r => ⟨rfl, rfl, rfl⟩, fun k => rfl, ?_, ?_, ?_⟩
  · intro r h; exact absurd h (hreg r)
  · intro r k m h; exact absurd h (hreg r)
  · intro r1 r2 i1 j1 o1 i2 j2 o2 h; exact absurd h (hreg r1)

theorem map_inv_block (u : vcode_unit_t) (s1 : jit_state_t) (an : analysed u s1) (i : Nat)
    (b : List vcode_op) (st : jit_state_t) (hb : u.blocks[i]? = some b)
    (inv : map_inv u s1 i b.length st) : map_inv u s1 (i + 1) 0 st := by
  refine ⟨inv.keep, inv.names, ?_, ?_, ?_⟩
  · intro r h
    obtain ⟨h1, i1, j1, o, hvis, ho, rest⟩ := inv.origin r h
    exact ⟨h1, i1, j1, o, (visited_next_block hb ho).2 hvis, ho, rest⟩
  · intro r k m hr hk hn
    rcases inv.tenant r k m hr hk hn with h1 | h1
    · exact Or.inl h1
    · right
      obtain ⟨_, i1, j1, o, hvis, ho, hd, hres⟩ := inv.origin r hr
      have hdef := an.defn i1 j1 o ho hd
      rw [hres] at hdef
      refine ⟨h1.1, Or.inl ?_⟩
      rw [hdef]
      have := visited_lt_block hvis
      simp
      omega
  · intro r1 r2 i1 j1 o1 i2 j2 o2 h1 h2 hn ho1 hd1 hr1 ho2 hd2 hr2 hvis2 hvis1
    exact inv.apart r1 r2 i1 j1 o1 i2 j2 o2 h1 h2 hn ho1 hd1 hr1 ho2 hd2 hr2
      ((visited_next_block hb ho2).1 hvis2) hvis1

theorem visited_irrefl (i j : Nat) : ¬ visited i j i j := by
  unfold visited; omega

theorem visited_trans {i j i2 j2 i1 j1 : Nat} (h2 : visited i j i2 j2)
    (h1 : visited i2 j2 i1 j1) : visited i j i1 j1 := by
  unfold visited at *; omega

theorem dead_tenant_congr {r r1 : jit_vcode_reg_t} {i j : Nat}
    (hf : r.flags = r1.flags) (hd : r.defn_block = r1.defn_block)
    (hl : r.lifetime = r1.lifetime) : dead_tenant r i j ↔ dead_tenant r1 i j := by
  unfold dead_tenant; rw [hf, hd, hl]

theorem jit_is_ephemeral_congr (b : List vcode_op) {r r1 : jit_vcode_reg_t} (j : Nat)
    (hf : r.flags = r1.flags) (hl : r.lifetime = r1.lifetime) :
    jit_is_ephemeral b r j = jit_is_ephemeral b r1 j := by
  unfold jit_is_ephemeral; rw [hf, hl]

/-- The register file after a successful `jit_alloc_reg`, seen from its
entries. -/
theorem jit_alloc_reg_entries (st : jit_state_t) (blk op usage k : Nat)
    (file : List jit_mach_reg_t) (h : jit_alloc_reg st blk op usage = (file, some k)) :
    (∀ k1 : Nat, (file[k1]?).map (fun (m : jit_mach_reg_t) => m.name)
      = (st.mach_regs[k1]?).map (fun (m : jit_mach_reg_t) => m.name)) ∧
    ∀ (k1 : Nat) (m1 : jit_mach_reg_t), file[k1]? = some m1 →
      ∃ m, st.mach_regs[k1]? = some m ∧ m1.name = m.name ∧
        ((k1 = k ∧ m1.usage = some usage ∧ eligible st.vcode_regs blk op m) ∨
          (k1 ≠ k ∧ ((eligible st.vcode_regs blk op m ∧ m1.usage = none) ∨
            (¬ eligible st.vcode_regs blk op m ∧ m1 = m)))) := by
  obtain ⟨_, m, hm, he, hk, hrest⟩ := jit_alloc_reg_some st blk op usage k file h
  constructor
  · intro k1
    by_cases hk1 : k1 = k
    · subst hk1; rw [hk, hm]; rfl
    · rw [hrest k1 hk1]
      cases st.mach_regs[k1]? with
      | none => rfl
      | some mk =>
        simp only [Option.map_some']
        split <;> rfl
  · intro k1 m1 hm1
    by_cases hk1 : k1 = k
    · subst hk1
      rw [hk] at hm1
      simp at hm1
      subst hm1
      exact ⟨m, hm, rfl, Or.inl ⟨rfl, rfl, he⟩⟩
    · rw [hrest k1 hk1] at hm1
      cases hmk : st.mach_regs[k1]? with
      | none => simp [hmk] at hm1
      | some mk =>
        simp only [hmk, Option.map_some', Option.some.injEq] at hm1
        refine ⟨mk, rfl, ?_, Or.inr ⟨hk1, ?_⟩⟩
        · rw [← hm1]; split <;> rfl
        · by_cases hel : eligible st.vcode_regs blk op mk
          · left; rw [← hm1]; simp [hel]
          · right; rw [← hm1]; simp [hel]

theorem names_distinct_of_names {file file1 : List jit_mach_reg_t}
    (hn : ∀ k : Nat, (file[k]?).map (fun (m : jit_mach_reg_t) => m.name)
      = (file1[k]?).map (fun (m : jit_mach_reg_t) => m.name))
    (hd : names_distinct file1) : names_distinct file := by
  intro k1 k2 m1 m2 h1 h2 hname
  have e1 := hn k1
  have e2 := hn k2
  rw [h1] at e1
  rw [h2] at e2
  cases hf1 : file1[k1]? with
  | none => simp [hf1] at e1
  | some n1 =>
    cases hf2 : file1[k2]? with
    | none => simp [hf2] at e2
    | some n2 =>
      simp [hf1] at e1
      simp [hf2] at e2
      exact hd k1 k2 n1 n2 hf1 hf2 (by rw [← e1, ← e2]; exact hname)

theorem mach_name_eq {file : List jit_mach_reg_t} {k : Nat} {m : jit_mach_reg_t}
    (h : file[k]? = some m) : mach_name file k = m.name := by
  simp [mach_name, h]

/-- An op whose definition `jit_analyse` does not record leaves the invariant
of pass C as it is. -/
theorem map_inv_idle (u : vcode_unit_t) (s1 : jit_state_t) (i : Nat) (b : List vcode_op)
    (j : Nat) (o : vcode_op) (st : jit_state_t)
    (hb : u.blocks[i]? = some b) (ho : b[j]? = some o) (hd : defines_result o = false)
    (inv : map_inv u s1 i j st) : map_inv u s1 i (j + 1) st := by
  have hoat : op_at u i j = some o := by rw [op_at_eq hb]; exact ho
  refine ⟨inv.keep, inv.names, ?_, ?_, ?_⟩
  · intro r h
    obtain ⟨h1, i1, j1, o1, hvis, rest⟩ := inv.origin r h
    exact ⟨h1, i1, j1, o1, (visited_succ _ _ _ _).2 (Or.inl hvis), rest⟩
  · intro r k m hr hk hn
    rcases inv.tenant r k m hr hk hn with h1 | h1
    · exact Or.inl h1
    · exact Or.inr (dead_tenant_succ h1)
  · intro r1 r2 i1 j1 o1 i2 j2 o2 h1 h2 hn ho1 hd1 hr1 ho2 hd2 hr2 hvis2 hvis1
    rcases (visited_succ _ _ _ _).1 hvis2 with hvis2 | ⟨rfl, rfl⟩
    · exact inv.apart r1 r2 i1 j1 o1 i2 j2 o2 h1 h2 hn ho1 hd1 hr1 ho2 hd2 hr2 hvis2 hvis1
    · rw [hoat] at ho2
      cases ho2
      rw [hd] at hd2
      cases hd2

/-- One op of pass C keeps the invariant. -/
theorem map_inv_step (T : target_t) (u : vcode_unit_t) (s1 : jit_state_t)
    (an : analysed u s1) (hnd : names_distinct s1.mach_regs)
    (i : Nat) (b : List vcode_op) (j : Nat) (o : vcode_op) (st st1 : jit_state_t)
    (hb : u.blocks[i]? = some b) (ho : b[j]? = some o)
    (inv : map_inv u s1 i j st)
    (h : jit_map_storage_for_op T u i b j o st = .ok st1) :
    map_inv u s1 i (j + 1) st1 := by
  by_cases hd0 : defines_result o = false
  · rw [jit_map_storage_for_op_idle T u i b j o st st1 h hd0]
    exact map_inv_idle u s1 i b j o st hb ho hd0 inv
  have hd : defines_result o = true := by simpa using hd0
  have hoat : op_at u i j = some o := by rw [op_at_eq hb]; exact ho
  have ms := jit_map_storage_for_op_step T u i b j o st st1 h
  -- a register defined by an op visited before is not the result of this op
  have hother : ∀ i1 j1 o1, visited i j i1 j1 → op_at u i1 j1 = some o1 →
      defines_result o1 = true → o1.result ≠ o.result := by
    intro i1 j1 o1 hvis ho1 hd1 hres
    obtain ⟨e1, e2⟩ := an.single i1 j1 o1 i j o ho1 hoat hd1 hd hres
    subst e1; subst e2
    exact visited_irrefl _ _ hvis
  -- a register that holds a machine register afterwards and is not newly
  -- allocated held it before
  have hkeep1 : ∀ r, (st1.vcode_regs r).flags = (s1.vcode_regs r).flags ∧
      (st1.vcode_regs r).defn_block = (s1.vcode_regs r).defn_block ∧
      (st1.vcode_regs r).lifetime = (s1.vcode_regs r).lifetime := by
    intro r
    obtain ⟨a1, a2, a3, _, _⟩ := ms.analysis r
    obtain ⟨b1, b2, b3⟩ := inv.keep r
    exact ⟨a1.trans b1, a2.trans b2, a3.trans b3⟩
  have hnames : ∀ k : Nat, (st1.mach_regs[k]?).map (fun (m : jit_mach_reg_t) => m.name)
      = (s1.mach_regs[k]?).map (fun (m : jit_mach_reg_t) => m.name) := by
    intro k
    rcases ms.alloc with ⟨hfile, _⟩ | ⟨k0, ha, _, _⟩
    · rw [hfile]; exact inv.names k
    · rw [(jit_alloc_reg_entries st i j o.result k0 st1.mach_regs ha).1 k]
      exact inv.names k
  refine ⟨hkeep1, hnames, ?_, ?_, ?_⟩
  · -- origin
    intro r hr
    by_cases hres : r = o.result
    · subst hres
      rcases ms.alloc with ⟨_, hsame⟩ | ⟨k0, ha, _, _⟩
      · rw [hsame hr] at hr
        obtain ⟨h1, i1, j1, o1, hvis, rest⟩ := inv.origin _ hr
        exact ⟨h1, i1, j1, o1, (visited_succ _ _ _ _).2 (Or.inl hvis), rest⟩
      · have hbl := (jit_alloc_reg_some st i j o.result k0 st1.mach_regs ha).1
        rw [(inv.keep o.result).1] at hbl
        exact ⟨hbl, i, j, o, (visited_succ _ _ _ _).2 (Or.inr ⟨rfl, rfl⟩), hoat, hd, rfl⟩
    · rw [ms.others r hres] at hr
      obtain ⟨h1, i1, j1, o1, hvis, rest⟩ := inv.origin r hr
      exact ⟨h1, i1, j1, o1, (visited_succ _ _ _ _).2 (Or.inl hvis), rest⟩
  · -- tenant
    intro r k m hr hk hn
    rcases ms.alloc with ⟨hfile, hsame⟩ | ⟨k0, ha, hst, hname⟩
    · have hreg : st1.vcode_regs r = st.vcode_regs r := by
        by_cases hres : r = o.result
        · subst hres; exact hsame hr
        · exact ms.others r hres
      rw [hreg] at hr hn
      rw [hfile] at hk
      rcases inv.tenant r k m hr hk hn with h1 | h1
      · exact Or.inl h1
      · exact Or.inr (dead_tenant_succ h1)
    · obtain ⟨_, hentry⟩ := jit_alloc_reg_entries st i j o.result k0 st1.mach_regs ha
      obtain ⟨m0, hm0, hnm, hcases⟩ := hentry k m hk
      by_cases hres : r = o.result
      · subst hres
        left
        -- the new tenant: its name is that of entry `k0`
        obtain ⟨_, mk0, hmk0, _, hfk0, _⟩ := jit_alloc_reg_some st i j o.result k0 st1.mach_regs ha
        rw [hname, mach_name_eq hfk0] at hn
        have hkk : k = k0 :=
          names_distinct_of_names hnames hnd k k0 m _ hk hfk0 (by simpa using hn)
        subst hkk
        rcases hcases with ⟨_, hu, _⟩ | ⟨hne, _⟩
        · exact hu
        · exact absurd rfl hne
      · rw [ms.others r hres] at hr hn
        have hdead : ∀ mm : jit_mach_reg_t, eligible st.vcode_regs i j mm → mm.usage = some r →
            dead_tenant (s1.vcode_regs r) i j := by
          intro mm hel hu
          obtain ⟨k1, k2, k3⟩ := inv.keep r
          rcases hel.2 with hnone | ⟨t, ht, hdt⟩
          · rw [hnone] at hu; cases hu
          · rw [ht] at hu
            cases hu
            exact (dead_tenant_congr k1 k2 k3).1 hdt
        rcases inv.tenant r k m0 hr hm0 (by rw [← hnm]; exact hn) with h1 | h1
        · rcases hcases with ⟨_, _, hel⟩ | ⟨_, ⟨hel, _⟩ | ⟨_, hmm⟩⟩
          · exact Or.inr (dead_tenant_succ (hdead m0 hel h1))
          · exact Or.inr (dead_tenant_succ (hdead m0 hel h1))
          · left; rw [hmm]; exact h1
        · exact Or.inr (dead_tenant_succ h1)
  · -- apart
    intro r1 r2 i1 j1 o1 i2 j2 o2 h1 h2 hn ho1 hd1 hr1 ho2 hd2 hr2 hvis2 hvis1
    rcases (visited_succ _ _ _ _).1 hvis2 with hvis2 | ⟨rfl, rfl⟩
    · -- both registers were defined before this op
      have hne2 : r2 ≠ o.result := by
        rw [← hr2]; exact hother i2 j2 o2 hvis2 ho2 hd2
      have hne1 : r1 ≠ o.result := by
        rw [← hr1]; exact hother i1 j1 o1 (visited_trans hvis2 hvis1) ho1 hd1
      rw [ms.others r1 hne1] at h1 hn
      rw [ms.others r2 hne2] at h2 hn
      exact inv.apart r1 r2 i1 j1 o1 i2 j2 o2 h1 h2 hn ho1 hd1 hr1 ho2 hd2 hr2 hvis2 hvis1
    · -- the later register is the result of this op
      rw [hoat] at ho2
      cases ho2
      have hne1 : r1 ≠ o.result := by
        rw [← hr1]; exact hother i1 j1 o1 hvis1 ho1 hd1
      subst hr2
      rcases ms.alloc with ⟨_, hsame⟩ | ⟨k0, ha, _, hname⟩
      · exfalso
        rw [hsame h2] at h2
        obtain ⟨_, i3, j3, o3, hvis3, ho3, hd3, hr3⟩ := inv.origin _ h2
        exact hother i3 j3 o3 hvis3 ho3 hd3 hr3
      · obtain ⟨_, m0, hm0, hel, hfk0, _⟩ :=
          jit_alloc_reg_some st _ _ o.result k0 st1.mach_regs ha
        rw [ms.others r1 hne1] at h1 hn
        rw [hname, mach_name_eq hfk0] at hn
        have hdead : dead_tenant (s1.vcode_regs r1) i2 j2 := by
          rcases inv.tenant r1 k0 m0 h1 hm0 (by simpa using hn.symm) with hu | hdt
          · obtain ⟨k1, k2, k3⟩ := inv.keep r1
            rcases hel.2 with hnone | ⟨t, ht, hdt⟩
            · rw [hnone] at hu; cases hu
            · rw [ht] at hu
              cases hu
              exact (dead_tenant_congr k1 k2 k3).1 hdt
          · exact hdt
        have hdef := an.defn i1 j1 o1 ho1 hd1
        rw [hr1] at hdef
        rcases hdead.2 with hdb | hlt
        · left
          intro hii
          subst hii
          exact hdb hdef
        · exact Or.inr hlt

/-- The invariant holds when `jit_map_storage` returns. -/
theorem jit_map_storage_inv (T : target_t) (u : vcode_unit_t) (s1 s2 : jit_state_t)
    (an : analysed u s1) (hnd : names_distinct s1.mach_regs)
    (hreg : ∀ r, (s1.vcode_regs r).state ≠ .JIT_REGISTER)
    (h : jit_map_storage T u s1 = .ok s2) :
    map_inv u s1 u.blocks.length 0 s2 :=
  for_each_op_inv (jit_map_storage_for_op T u) (fun i j st => map_inv u s1 i j st)
    u.blocks s1 s2
    (fun i b j o t t1 hb ho inv hstep => map_inv_step T u s1 an hnd i b j o t t1 hb ho inv hstep)
    (fun i b t hb inv => map_inv_block u s1 an i b t hb inv)
    (map_inv_init u s1 hreg) h


/-! ## Pass C: Flags storage -/

theorem flags_inv_init (u : vcode_unit_t) (s1 : jit_state_t) : flags_inv u s1 0 0 s1 := by
  refine ⟨fun r => ⟨rfl, rfl, rfl⟩, fun r h => Or.inl h, ?_⟩
  intro i1 b j1 o hvis
  unfold visited at hvis
  omega

theorem flags_inv_block (u : vcode_unit_t) (s1 : jit_state_t) (i : Nat)
    (b : List vcode_op) (st : jit_state_t) (hb : u.blocks[i]? = some b)
    (inv : flags_inv u s1 i b.length st) : flags_inv u s1 (i + 1) 0 st := by
  refine ⟨inv.keep, ?_, ?_⟩
  · intro r h
    rcases inv.flags_only_if r h with h1 | ⟨i1, b1, j1, o, hvis, hb1, ho, rest⟩
    · exact Or.inl h1
    · have hoat : op_at u i1 j1 = some o := by rw [op_at_eq hb1]; exact ho
      exact Or.inr ⟨i1, b1, j1, o, (visited_next_block hb hoat).2 hvis, hb1, ho, rest⟩
  · intro i1 b1 j1 o hvis hb1 ho
    have hoat : op_at u i1 j1 = some o := by rw [op_at_eq hb1]; exact ho
    exact inv.flags_if i1 b1 j1 o ((visited_next_block hb hoat).1 hvis) hb1 ho

theorem flags_inv_step (T : target_t) (u : vcode_unit_t) (s1 : jit_state_t)
    (an : analysed u s1)
    (i : Nat) (b : List vcode_op) (j : Nat) (o : vcode_op) (st st1 : jit_state_t)
    (hb : u.blocks[i]? = some b) (ho : b[j]? = some o)
    (inv : flags_inv u s1 i j st)
    (h : jit_map_storage_for_op T u i b j o st = .ok st1) :
    flags_inv u s1 i (j + 1) st1 := by
  have hoat : op_at u i j = some o := by rw [op_at_eq hb]; exact ho
  have ms := jit_map_storage_for_op_step T u i b j o st st1 h
  have fl := jit_map_storage_for_op_flags T u i b j o st st1 h
  have hkeep1 : ∀ r, (st1.vcode_regs r).flags = (s1.vcode_regs r).flags ∧
      (st1.vcode_regs r).defn_block = (s1.vcode_regs r).defn_block ∧
      (st1.vcode_regs r).lifetime = (s1.vcode_regs r).lifetime := by
    intro r
    obtain ⟨a1, a2, a3, _, _⟩ := ms.analysis r
    obtain ⟨b1, b2, b3⟩ := inv.keep r
    exact ⟨a1.trans b1, a2.trans b2, a3.trans b3⟩
  refine ⟨hkeep1, ?_, ?_⟩
  · -- flags_only_if
    intro r hr
    by_cases hres : r = o.result
    · subst hres
      rcases fl.1 hr with hsame | ⟨hk, hc, he⟩
      · rw [hsame] at hr
        rcases inv.flags_only_if _ hr with h1 | ⟨i1, b1, j1, o1, hvis, rest⟩
        · exact Or.inl h1
        · exact Or.inr ⟨i1, b1, j1, o1, (visited_succ _ _ _ _).2 (Or.inl hvis), rest⟩
      · right
        obtain ⟨k1, _, k3⟩ := inv.keep o.result
        refine ⟨i, b, j, o, (visited_succ _ _ _ _).2 (Or.inr ⟨rfl, rfl⟩), hb, ho, hk, rfl, ?_, ?_⟩
        · rw [← k1]; exact hc
        · rw [← jit_is_ephemeral_congr b j k1 k3]; exact he
    · rw [ms.others r hres] at hr
      rcases inv.flags_only_if r hr with h1 | ⟨i1, b1, j1, o1, hvis, rest⟩
      · exact Or.inl h1
      · exact Or.inr ⟨i1, b1, j1, o1, (visited_succ _ _ _ _).2 (Or.inl hvis), rest⟩
  · -- flags_if
    intro i1 b1 j1 o1 hvis hb1 ho1 hk hc he
    have hoat1 : op_at u i1 j1 = some o1 := by rw [op_at_eq hb1]; exact ho1
    have hd1 : defines_result o1 = true := by simp [defines_result, hk]
    rcases (visited_succ _ _ _ _).1 hvis with hvis | ⟨rfl, rfl⟩
    · have hst : st1.vcode_regs o1.result = st.vcode_regs o1.result := by
        by_cases hd : defines_result o = true
        · apply ms.others
          intro hres
          obtain ⟨e1, e2⟩ := an.single i1 j1 o1 i j o hoat1 hoat hd1 hd hres
          subst e1; subst e2
          exact visited_irrefl _ _ hvis
        · rw [jit_map_storage_for_op_idle T u i b j o st st1 h (by simpa using hd)]
      rw [hst]
      exact inv.flags_if i1 b1 j1 o1 hvis hb1 ho1 hk hc he
    · rw [hb] at hb1
      cases hb1
      rw [ho] at ho1
      cases ho1
      obtain ⟨k1, _, k3⟩ := inv.keep o.result
      refine fl.2 hk ?_ ?_
      · rw [k1]; exact hc
      · rw [jit_is_ephemeral_congr b _ k1 k3]; exact he

/-- The Flags invariant holds when `jit_map_storage` returns. -/
theorem jit_map_storage_flags_inv (T : target_t) (u : vcode_unit_t) (s1 s2 : jit_state_t)
    (an : analysed u s1) (h : jit_map_storage T u s1 = .ok s2) :
    flags_inv u s1 u.blocks.length 0 s2 :=
  for_each_op_inv (jit_map_storage_for_op T u) (fun i j st => flags_inv u s1 i j st)
    u.blocks s1 s2
    (fun i b j o t t1 hb ho inv hstep => flags_inv_step T u s1 an i b j o t t1 hb ho inv hstep)
    (fun i b t hb inv => flags_inv_block u s1 i b t hb inv)
    (flags_inv_init u s1) h

/-! ## Neighbouring ops -/

theorem previous_op_loop_spec (b : List vcode_op) : ∀ (n p : Nat),
    previous_op_loop b n = .ok p →
    p < n ∧ ∀ k, p < k → k < n → ∃ c, b[k]? = some c ∧ jit_is_no_op c = true := by
  intro n
  induction n with
  | zero => intro p h; simp [previous_op_loop] at h
  | succ n ih =>
    intro p h
    simp only [previous_op_loop] at h
    cases hb : b[n]? with
    | none =>
      simp [hb] at h
      subst h
      exact ⟨by omega, fun k h1 h2 => by omega⟩
    | some o =>
      simp only [hb] at h
      by_cases hn : jit_is_no_op o = true
      · simp only [hn, if_true] at h
        obtain ⟨h1, h2⟩ := ih p h
        refine ⟨by omega, ?_⟩
        intro k hk1 hk2
        by_cases hkn : k = n
        · subst hkn; exact ⟨o, hb, hn⟩
        · exact h2 k hk1 (by omega)
      · simp [hn] at h
        subst h
        exact ⟨by omega, fun k h1 h2 => by omega⟩

theorem next_op_loop_spec (b : List vcode_op) : ∀ (fuel op t : Nat) (c : vcode_op),
    op ≤ t → t < op + fuel →
    (∀ k, op ≤ k → k < t → ∃ c1, b[k]? = some c1 ∧ jit_is_no_op c1 = true) →
    b[t]? = some c → jit_is_no_op c = false →
    next_op_loop b fuel op = t := by
  intro fuel
  induction fuel with
  | zero => intro op t c h1 h2; omega
  | succ fuel ih =>
    intro op t c h1 h2 hbetween hc hno
    simp only [next_op_loop]
    by_cases hop : op = t
    · subst hop
      simp [hc, hno]
    · obtain ⟨c1, hc1, hn1⟩ := hbetween op (le_refl _) (by omega)
      simp only [hc1, hn1, if_true]
      exact ih (op + 1) t c (by omega) (by omega) (fun k hk1 hk2 => hbetween k (by omega) hk2)
        hc hno

/-- When `jit_previous_op` of a non-comment op `j` is `p`, `jit_next_op` of `p`
is `j`. -/
theorem jit_next_op_of_previous (b : List vcode_op) (j p : Nat) (c : vcode_op)
    (hp : jit_previous_op b j = .ok p) (hc : b[j]? = some c) (hno : jit_is_no_op c = false) :
    jit_next_op b p = j := by
  unfold jit_previous_op at hp
  split at hp
  · obtain ⟨h1, h2⟩ := previous_op_loop_spec b j p hp
    have hj : j < b.length := (List.getElem?_eq_some.1 hc).1
    unfold jit_next_op
    exact next_op_loop_spec b b.length (p + 1) j c (by omega) (by omega)
      (fun k hk1 hk2 => h2 k (by omega) hk2) hc hno
  · cases hp

/-! ## Pass B seen from pass C -/

/-- What pass C needs from a completed `jit_analyse`. -/
theorem jit_analyse_facts (T : target_t) (u : vcode_unit_t) (s0 s1 : jit_state_t)
    (h : jit_analyse T u s0 = .ok s1) :
    analysed u s1 ∧ s1.mach_regs = s0.mach_regs ∧
    (∀ r, (s1.vcode_regs r).state = (s0.vcode_regs r).state) ∧
    (∀ r, (s1.vcode_regs r).flags.cond_input = true →
      (s0.vcode_regs r).flags.cond_input = true ∨
      ∃ (i : Nat) (b : List vcode_op) (j : Nat) (o : vcode_op) (rest : List Nat) (p : Nat)
        (prev : vcode_op), u.blocks[i]? = some b ∧ b[j]? = some o ∧
        o.kind = .VCODE_OP_COND ∧ o.args = r :: rest ∧
        jit_previous_op b j = .ok p ∧ b[p]? = some prev ∧
        prev.kind = .VCODE_OP_CMP ∧ prev.result = r) := by
  obtain ⟨si, h1, h2⟩ := jit_analyse_split T u s0 s1 h
  have inv := analyse_ops_inv u si s1 h2
  have hinit := analyse_init_loop T u u.nregs s0 si h1
  have hreg : ∀ r, (si.vcode_regs r).state = (s0.vcode_regs r).state ∧
      (si.vcode_regs r).flags.cond_input = (s0.vcode_regs r).flags.cond_input := by
    intro r
    by_cases hr : r < u.nregs
    · rw [(hinit.2 r).1 hr]; simp
    · rw [(hinit.2 r).2 (by omega)]; simp
  refine ⟨⟨?_, ?_⟩, ?_, ?_, ?_⟩
  · intro i1 j1 o1 i2 j2 o2 ho1 ho2 hd1 hd2 hres
    exact (inv.single i2 j2 o2 (visited_end ho2) ho2 hd2).2 i1 j1 o1 (visited_end ho1) ho1
      hd1 hres
  · intro i j o ho hd
    exact (inv.defn o.result i).2 (Or.inr ⟨j, o, visited_end ho, ho, hd, rfl⟩)
  · rw [inv.frame.1, hinit.1.1]
  · intro r
    rw [(inv.keep r).1, (hreg r).1]
  · intro r hc
    rcases inv.cond r hc with h3 | ⟨i, b, j, o, rest, p, prev, hb, ho, hk, ha, _, hrest⟩
    · left; rw [← (hreg r).2]; exact h3
    · exact Or.inr ⟨i, b, j, o, rest, p, prev, hb, ho, hk, ha, hrest⟩

/-! ## Flags storage is sound (C3) -/

/-- C3: after `jit_analyse` and `jit_map_storage`, from a state in which no
register has Flags storage or COND_INPUT yet, every register with Flags storage
is the result of a `CMP`, has BLOCK_LOCAL and COND_INPUT, and the next
non-comment op after that `CMP` is a `COND` of the same block whose first
argument is the register and which is its last use; conversely the result of a
`CMP` with COND_INPUT, BLOCK_LOCAL and lifetime equal to the next non-comment
op has Flags storage; and the result of no other op has. -/
theorem flags_storage_sound (T : target_t) (u : vcode_unit_t) (s0 s1 s2 : jit_state_t)
    (hinit : ∀ r, (s0.vcode_regs r).state ≠ .JIT_FLAGS ∧
      (s0.vcode_regs r).flags.cond_input = false)
    (ha : jit_analyse T u s0 = .ok s1) (hm : jit_map_storage T u s1 = .ok s2) :
    (∀ r, (s2.vcode_regs r).state = .JIT_FLAGS →
      ∃ (i : Nat) (b : List vcode_op) (j : Nat) (o c : vcode_op) (rest : List Nat),
        u.blocks[i]? = some b ∧ b[j]? = some o ∧
        o.kind = .VCODE_OP_CMP ∧ o.result = r ∧
        (s2.vcode_regs r).flags.block_local = true ∧
        (s2.vcode_regs r).flags.cond_input = true ∧
        b[jit_next_op b j]? = some c ∧ c.kind = .VCODE_OP_COND ∧ c.args = r :: rest ∧
        (s2.vcode_regs r).lifetime = jit_next_op b j) ∧
    (∀ (i : Nat) (b : List vcode_op) (j : Nat) (o : vcode_op),
      u.blocks[i]? = some b → b[j]? = some o → o.kind = .VCODE_OP_CMP →
      (s2.vcode_regs o.result).flags.cond_input = true →
      (s2.vcode_regs o.result).flags.block_local = true →
      (s2.vcode_regs o.result).lifetime = jit_next_op b j →
      (s2.vcode_regs o.result).state = .JIT_FLAGS) ∧
    (∀ i j o, op_at u i j = some o → defines_result o = true → o.kind ≠ .VCODE_OP_CMP →
      (s2.vcode_regs o.result).state ≠ .JIT_FLAGS) := by
  obtain ⟨an, _, hstate, hcond⟩ := jit_analyse_facts T u s0 s1 ha
  have finv := jit_map_storage_flags_inv T u s1 s2 an hm
  -- a register with Flags storage is the result of a visited `CMP`
  have hcmp : ∀ r, (s2.vcode_regs r).state = .JIT_FLAGS →
      ∃ (i : Nat) (b : List vcode_op) (j : Nat) (o : vcode_op),
        u.blocks[i]? = some b ∧ b[j]? = some o ∧ o.kind = .VCODE_OP_CMP ∧ o.result = r ∧
        (s1.vcode_regs r).flags.cond_input = true ∧
        jit_is_ephemeral b (s1.vcode_regs r) j = true := by
    intro r hr
    rcases finv.flags_only_if r hr with h1 | ⟨i, b, j, o, _, hb, ho, hk, hres, hc, he⟩
    · rw [hstate r] at h1
      exact absurd h1 (hinit r).1
    · exact ⟨i, b, j, o, hb, ho, hk, hres, hc, he⟩
  refine ⟨?_, ?_, ?_⟩
  · intro r hr
    obtain ⟨i, b, j, o, hb, ho, hk, hres, hc, he⟩ := hcmp r hr
    obtain ⟨k1, _, k3⟩ := finv.keep r
    unfold jit_is_ephemeral at he
    simp only [Bool.and_eq_true, decide_eq_true_eq] at he
    rcases hcond r hc with h0 | ⟨i2, b2, j2, o2, rest, p, prev, hb2, ho2, hk2, ha2, hp, hprev, hkp, hrp⟩
    · rw [(hinit r).2] at h0; cases h0
    · -- the `CMP` before the `COND` is the defining `CMP`
      have hoat : op_at u i j = some o := by rw [op_at_eq hb]; exact ho
      have hoat2 : op_at u i2 p = some prev := by rw [op_at_eq hb2]; exact hprev
      obtain ⟨e1, e2⟩ := an.single i j o i2 p prev hoat hoat2
        (by simp [defines_result, hk]) (by simp [defines_result, hkp]) (by rw [hres, hrp])
      subst e1; subst e2
      rw [hb] at hb2
      cases hb2
      have hnext : jit_next_op b j = j2 :=
        jit_next_op_of_previous b j2 j o2 hp ho2 (by simp [jit_is_no_op, hk2])
      refine ⟨i, b, j, o, o2, rest, hb, ho, hk, hres, ?_, ?_, ?_, hk2, ha2, ?_⟩
      · rw [k1]; exact he.1
      · rw [k1]; exact hc
      · rw [hnext]; exact ho2
      · rw [k3]; exact he.2
  · intro i b j o hb ho hk hc hbl hl
    obtain ⟨k1, _, k3⟩ := finv.keep o.result
    have hoat : op_at u i j = some o := by rw [op_at_eq hb]; exact ho
    refine finv.flags_if i b j o (visited_end hoat) hb ho hk (by rw [← k1]; exact hc) ?_
    unfold jit_is_ephemeral
    simp only [Bool.and_eq_true, decide_eq_true_eq]
    exact ⟨by rw [← k1]; exact hbl, by rw [← k3]; exact hl⟩
  · intro i j o ho hd hk hr
    obtain ⟨i2, b2, j2, o2, hb2, ho2, hk2, hres2, _, _⟩ := hcmp _ hr
    have hoat2 : op_at u i2 j2 = some o2 := by rw [op_at_eq hb2]; exact ho2
    obtain ⟨e1, e2⟩ := an.single i j o i2 j2 o2 ho hoat2 hd
      (by simp [defines_result, hk2]) hres2.symm
    subst e1; subst e2
    rw [ho] at hoat2
    cases hoat2
    exact hk hk2

theorem zero_state_storage (file : List jit_mach_reg_t) (r : Nat) :
    ((zero_state file).vcode_regs r).state = .JIT_UNDEFINED ∧
    ((zero_state file).vcode_regs r).flags.cond_input = false :=
  ⟨rfl, rfl⟩

theorem zero_state_no_flags (file : List jit_mach_reg_t) (r : Nat) :
    ((zero_state file).vcode_regs r).state ≠ .JIT_FLAGS ∧
    ((zero_state file).vcode_regs r).flags.cond_input = false := by
  refine ⟨?_, rfl⟩
  rw [(zero_state_storage file r).1]
  decide

/-- Witness of C3 on `unit_cmp_cond`: the result `r1` of the `CMP` gets Flags
storage. -/
theorem flags_storage_sound_witness :
    ((∀ r, ((zero_state file_plain).vcode_regs r).state ≠ .JIT_FLAGS ∧
        ((zero_state file_plain).vcode_regs r).flags.cond_input = false) ∧
      jit_analyse target_lp64 unit_cmp_cond (zero_state file_plain)
        = .ok (analysed_state target_lp64 unit_cmp_cond (zero_state file_plain)) ∧
      jit_map_storage target_lp64 unit_cmp_cond
          (analysed_state target_lp64 unit_cmp_cond (zero_state file_plain))
        = .ok (mapped_state target_lp64 unit_cmp_cond (zero_state file_plain))) ∧
    ((mapped_state target_lp64 unit_cmp_cond (zero_state file_plain)).vcode_regs 1).state
      = .JIT_FLAGS :=
  ⟨⟨zero_state_no_flags file_plain, rfl, rfl⟩,
   (flags_storage_sound target_lp64 unit_cmp_cond (zero_state file_plain) _ _
      (zero_state_no_flags file_plain) rfl rfl).2.1 0 _ 1 (mk_op .VCODE_OP_CMP [0, 0] 1)
      rfl rfl rfl rfl rfl rfl⟩

/-! ## No two live registers share a machine register (C2) -/

/-- C2: after `jit_analyse` and `jit_map_storage`, on a register file with
pairwise distinct names and from a state in which no VCODE register has
MachineReg storage yet, two distinct VCODE registers that end with MachineReg
storage naming the same machine register are both BLOCK_LOCAL results of
defining ops, and either they are defined in different blocks, or in the same
block with the lifetime of the earlier-defined one strictly less than the
index of the op that defines the later one. -/
theorem no_register_aliasing (T : target_t) (u : vcode_unit_t) (s0 s1 s2 : jit_state_t)
    (hnames : names_distinct s0.mach_regs)
    (hinit : ∀ r, (s0.vcode_regs r).state ≠ .JIT_REGISTER)
    (ha : jit_analyse T u s0 = .ok s1) (hm : jit_map_storage T u s1 = .ok s2)
    (r1 r2 : Nat) (hne : r1 ≠ r2)
    (h1 : (s2.vcode_regs r1).state = .JIT_REGISTER)
    (h2 : (s2.vcode_regs r2).state = .JIT_REGISTER)
    (hn : (s2.vcode_regs r1).reg_name = (s2.vcode_regs r2).reg_name) :
    ∃ i1 j1 o1 i2 j2 o2,
      op_at u i1 j1 = some o1 ∧ defines_result o1 = true ∧ o1.result = r1 ∧
      (s2.vcode_regs r1).defn_block = some i1 ∧
      op_at u i2 j2 = some o2 ∧ defines_result o2 = true ∧ o2.result = r2 ∧
      (s2.vcode_regs r2).defn_block = some i2 ∧
      (s2.vcode_regs r1).flags.block_local = true ∧
      (s2.vcode_regs r2).flags.block_local = true ∧
      (i1 ≠ i2 ∨ (i1 = i2 ∧ j1 < j2 ∧ (s2.vcode_regs r1).lifetime < j2) ∨
        (i1 = i2 ∧ j2 < j1 ∧ (s2.vcode_regs r2).lifetime < j1)) := by
  obtain ⟨an, hfile, hstate, _⟩ := jit_analyse_facts T u s0 s1 ha
  have inv := jit_map_storage_inv T u s1 s2 an (by rw [hfile]; exact hnames)
    (fun r => by rw [hstate r]; exact hinit r) hm
  obtain ⟨hbl1, i1, j1, o1, _, ho1, hd1, hr1⟩ := inv.origin r1 h1
  obtain ⟨hbl2, i2, j2, o2, _, ho2, hd2, hr2⟩ := inv.origin r2 h2
  obtain ⟨f1, d1, l1⟩ := inv.keep r1
  obtain ⟨f2, d2, l2⟩ := inv.keep r2
  have hdef1 := an.defn i1 j1 o1 ho1 hd1
  have hdef2 := an.defn i2 j2 o2 ho2 hd2
  rw [hr1] at hdef1
  rw [hr2] at hdef2
  refine ⟨i1, j1, o1, i2, j2, o2, ho1, hd1, hr1, by rw [d1]; exact hdef1, ho2, hd2, hr2,
    by rw [d2]; exact hdef2, by rw [f1]; exact hbl1, by rw [f2]; exact hbl2, ?_⟩
  by_cases hi : i1 = i2
  · right
    subst hi
    have hj : j1 ≠ j2 := by
      intro hj
      subst hj
      rw [ho1] at ho2
      cases ho2
      exact hne (hr1.symm.trans hr2)
    rcases Nat.lt_or_gt_of_ne hj with hlt | hgt
    · left
      refine ⟨rfl, hlt, ?_⟩
      rcases inv.apart r1 r2 i1 j1 o1 i1 j2 o2 h1 h2 hn ho1 hd1 hr1 ho2 hd2 hr2
        (visited_end ho2) (Or.inr ⟨rfl, hlt⟩) with h | h
      · exact absurd rfl h
      · rw [l1]; exact h
    · right
      refine ⟨rfl, hgt, ?_⟩
      rcases inv.apart r2 r1 i1 j2 o2 i1 j1 o1 h2 h1 hn.symm ho2 hd2 hr2 ho1 hd1 hr1
        (visited_end ho1) (Or.inr ⟨rfl, hgt⟩) with h | h
      · exact absurd rfl h
      · rw [l2]; exact h
  · exact Or.inl hi

theorem file_plain_names : names_distinct (zero_state file_plain).mach_regs := by
  intro k1 k2 m1 m2 h1 h2 hn
  simp only [zero_state, file_plain] at h1 h2
  rcases k1 with _ | _ | _ | _ | k1 <;> rcases k2 with _ | _ | _ | _ | k2 <;>
    simp [mk_mach] at h1 h2 <;> first | rfl | (subst h1; subst h2; simp at hn)

theorem zero_state_no_register (file : List jit_mach_reg_t) (r : Nat) :
    ((zero_state file).vcode_regs r).state ≠ .JIT_REGISTER := by
  rw [(zero_state_storage file r).1]
  decide

/-- Witness of C2 on `unit_reuse`: `r1` and `r2` both end in machine register
0; `r1` is last used by op 2 and `r2` is defined by op 3. -/
theorem no_register_aliasing_witness :
    (names_distinct (zero_state file_plain).mach_regs ∧
      (∀ r, ((zero_state file_plain).vcode_regs r).state ≠ .JIT_REGISTER) ∧
      jit_analyse target_lp64 unit_reuse (zero_state file_plain)
        = .ok (analysed_state target_lp64 unit_reuse (zero_state file_plain)) ∧
      jit_map_storage target_lp64 unit_reuse
          (analysed_state target_lp64 unit_reuse (zero_state file_plain))
        = .ok (mapped_state target_lp64 unit_reuse (zero_state file_plain)) ∧
      (1 : Nat) ≠ 2 ∧
      ((mapped_state target_lp64 unit_reuse (zero_state file_plain)).vcode_regs 1).state
        = .JIT_REGISTER ∧
      ((mapped_state target_lp64 unit_reuse (zero_state file_plain)).vcode_regs 2).state
        = .JIT_REGISTER ∧
      ((mapped_state target_lp64 unit_reuse (zero_state file_plain)).vcode_regs 1).reg_name
        = ((mapped_state target_lp64 unit_reuse (zero_state file_plain)).vcode_regs 2).reg_name) ∧
    ∃ i1 j1 o1 i2 j2 o2,
      op_at unit_reuse i1 j1 = some o1 ∧ defines_result o1 = true ∧ o1.result = 1 ∧
      ((mapped_state target_lp64 unit_reuse (zero_state file_plain)).vcode_regs 1).defn_block
        = some i1 ∧
      op_at unit_reuse i2 j2 = some o2 ∧ defines_result o2 = true ∧ o2.result = 2 ∧
      ((mapped_state target_lp64 unit_reuse (zero_state file_plain)).vcode_regs 2).defn_block
        = some i2 ∧
      ((mapped_state target_lp64 unit_reuse (zero_state file_plain)).vcode_regs 1).flags.block_local
        = true ∧
      ((mapped_state target_lp64 unit_reuse (zero_state file_plain)).vcode_regs 2).flags.block_local
        = true ∧
      (i1 ≠ i2 ∨
        (i1 = i2 ∧ j1 < j2 ∧
          ((mapped_state target_lp64 unit_reuse (zero_state file_plain)).vcode_regs 1).lifetime
            < j2) ∨
        (i1 = i2 ∧ j2 < j1 ∧
          ((mapped_state target_lp64 unit_reuse (zero_state file_plain)).vcode_regs 2).lifetime
            < j1)) :=
  ⟨⟨file_plain_names, zero_state_no_register file_plain, rfl, rfl, by decide,
      by decide, by decide, by decide⟩,
   no_register_aliasing target_lp64 unit_reuse (zero_state file_plain) _ _
     file_plain_names (zero_state_no_register file_plain) rfl rfl 1 2 (by decide)
     (by decide) (by decide) (by decide)⟩

/-! ## Frame sufficiency (C1) -/

/-- C1 fails on the code: on `unit_cross_block`, from the zeroed state over the
unassigned register file `file_plain`, passes A and B complete and leave
`stack_size = stack_wptr = 4`, the frame of the one variable (pass B reserves
nothing for the `LOAD`); the result `r0` of the `LOAD`, of size 4, is not
BLOCK_LOCAL, so `jit_map_result` spills it, and the assertion
`stack_wptr <= stack_size` fails at op 0. -/
theorem frame_sufficiency_fails_for_load :
    (∀ m ∈ (zero_state file_plain).mach_regs, m.usage = none) ∧
    exit_of (jit_stack_frame target_lp64 unit_cross_block (zero_state file_plain)) = none ∧
    exit_of (jit_analyse target_lp64 unit_cross_block
      (state_of (jit_stack_frame target_lp64 unit_cross_block (zero_state file_plain))
        (zero_state file_plain))) = none ∧
    (analysed_state target_lp64 unit_cross_block
      (state_of (jit_stack_frame target_lp64 unit_cross_block (zero_state file_plain))
        (zero_state file_plain))).stack_size = 4 ∧
    (analysed_state target_lp64 unit_cross_block
      (state_of (jit_stack_frame target_lp64 unit_cross_block (zero_state file_plain))
        (zero_state file_plain))).stack_wptr = 4 ∧
    ((analysed_state target_lp64 unit_cross_block
      (state_of (jit_stack_frame target_lp64 unit_cross_block (zero_state file_plain))
        (zero_state file_plain))).vcode_regs 0).size = 4 ∧
    ((analysed_state target_lp64 unit_cross_block
      (state_of (jit_stack_frame target_lp64 unit_cross_block (zero_state file_plain))
        (zero_state file_plain))).vcode_regs 0).flags.block_local = false ∧
    exit_of (jit_plan target_lp64 unit_cross_block (zero_state file_plain))
      = some (.assert_stack_wptr 0) := by
  decide

/-! ## Pass C: ops without a result (C13, C14) -/

/-- The result-less ops that `jit_map_storage_for_op` lists leave the planner
state as it is. -/
theorem jit_map_storage_for_op_result_less (T : target_t) (u : vcode_unit_t) (blk : Nat)
    (b : List vcode_op) (op : Nat) (o : vcode_op) (st : jit_state_t)
    (hk : result_less o.kind = true) (hs : o.kind ≠ .VCODE_OP_STORE_INDIRECT) :
    jit_map_storage_for_op T u blk b op o st = .ok st := by
  unfold result_less at hk
  unfold jit_map_storage_for_op
  cases h : o.kind <;> simp [h] at hk hs ⊢

/-- C13 fails on the code: `STORE_INDIRECT` is among the result-less ops, but
`jit_map_storage_for_op` has no case for it and takes the fatal exit
"cannot allocate registers for op"; on `unit_store_indirect` pass B completes
and pass C stops at op 2. -/
theorem store_indirect_is_rejected :
    result_less (mk_op .VCODE_OP_STORE_INDIRECT [1, 0] 0).kind = true ∧
    op_at unit_store_indirect 0 2 = some (mk_op .VCODE_OP_STORE_INDIRECT [1, 0] 0) ∧
    exit_of (jit_map_storage_for_op target_lp64 unit_store_indirect 0 [] 2
      (mk_op .VCODE_OP_STORE_INDIRECT [1, 0] 0) (zero_state file_plain))
      = some (.cannot_allocate 2) ∧
    exit_of (jit_analyse target_lp64 unit_store_indirect (zero_state file_plain)) = none ∧
    exit_of (jit_plan target_lp64 unit_store_indirect (zero_state file_plain))
      = some (.cannot_allocate 2) := by
  decide

theorem jit_alloc_reg_fst_of_none (st : jit_state_t) (blk op usage : Nat)
    (file : List jit_mach_reg_t) (h : jit_alloc_reg st blk op usage = (file, none)) :
    file = st.mach_regs := by
  have := jit_alloc_reg_none st blk op usage (by rw [h])
  rw [h] at this
  exact this

theorem jit_map_result_exit (blk op : Nat) (o : vcode_op) (st : jit_state_t) :
    exit_of (jit_map_result blk op o st) = none ∨
    exit_of (jit_map_result blk op o st) = some (.assert_stack_wptr op) := by
  unfold jit_map_result
  cases ha : jit_alloc_reg st blk op o.result with
  | mk file res =>
    cases res with
    | some k => left; simp [exit_of, ha]
    | none =>
      by_cases hfit : st.stack_wptr + (jit_align_object (st.vcode_regs o.result).size
          st.stack_wptr + (st.vcode_regs o.result).size) ≤ st.stack_size
      · left; simp [exit_of, ha, hfit]
      · right; simp [exit_of, ha, hfit]

theorem jit_map_uarray_op_exit (T : target_t) (blk op : Nat) (o : vcode_op)
    (st : jit_state_t) :
    exit_of (jit_map_uarray_op T blk op o st) ≠ some (.cannot_allocate op) := by
  unfold jit_map_uarray_op
  cases o.args with
  | nil => simp [exit_of]
  | cons a rest =>
    simp only
    split
    · simp [exit_of]
    · split
      · rename_i e he
        intro h
        simp only [exit_of, Option.some.injEq] at h
        subst h
        split at he <;> simp at he
      · split
        · cases ha : jit_alloc_reg st blk op o.result with
          | mk file res => cases res <;> simp [exit_of]
        · simp [exit_of]

theorem jit_map_cast_exit (u : vcode_unit_t) (blk op : Nat) (o : vcode_op)
    (st : jit_state_t) :
    exit_of (jit_map_cast u blk op o st) ≠ some (.cannot_allocate op) := by
  unfold jit_map_cast
  cases o.args with
  | nil => simp [exit_of]
  | cons a rest =>
    simp only
    split
    · simp [exit_of]
    · rcases jit_map_result_exit blk op o st with h | h <;> rw [h] <;> simp

/-- C14 fails on the code: pass A reserves 4 bytes of frame for the `ALLOCA`
of `unit_alloca` and pass B accepts it and completes, but
`jit_map_storage_for_op` has no case for `ALLOCA` and the plan stops at op 0
with "cannot allocate registers for op". The `switch` of `jit_analyse`
likewise accepts a `UARRAY_LEN` and a `STORE_INDIRECT`, and
`jit_map_storage_for_op` rejects both. -/
theorem accepted_ops_rejected_in_pass_c :
    op_at unit_alloca 0 0 = some (mk_op .VCODE_OP_ALLOCA [] 0) ∧
    exit_of (jit_stack_frame target_lp64 unit_alloca (zero_state file_plain)) = none ∧
    (framed_state target_lp64 unit_alloca (zero_state file_plain)).stack_size = 4 ∧
    exit_of (analyse_switch 0 [] 0 (mk_op .VCODE_OP_ALLOCA [] 0) (zero_state file_plain))
      = none ∧
    exit_of (jit_analyse target_lp64 unit_alloca
      (framed_state target_lp64 unit_alloca (zero_state file_plain))) = none ∧
    exit_of (jit_map_storage_for_op target_lp64 unit_alloca 0 [] 0
      (mk_op .VCODE_OP_ALLOCA [] 0) (zero_state file_plain)) = some (.cannot_allocate 0) ∧
    exit_of (jit_plan target_lp64 unit_alloca (zero_state file_plain))
      = some (.cannot_allocate 0) ∧
    exit_of (analyse_switch 0 [] 0 (mk_op .VCODE_OP_UARRAY_LEN [0] 1) (zero_state file_plain))
      = none ∧
    exit_of (jit_map_storage_for_op target_lp64 unit_alloca 0 [] 0
      (mk_op .VCODE_OP_UARRAY_LEN [0] 1) (zero_state file_plain))
      = some (.cannot_allocate 0) ∧
    exit_of (analyse_switch 0 [] 0 (mk_op .VCODE_OP_STORE_INDIRECT [1, 0] 0)
      (zero_state file_plain)) = none ∧
    exit_of (jit_map_storage_for_op target_lp64 unit_alloca 0 [] 0
      (mk_op .VCODE_OP_STORE_INDIRECT [1, 0] 0) (zero_state file_plain))
      = some (.cannot_allocate 0) := by
  decide

/-- The two `switch` statements compared kind by kind: an op that the
`switch` of `jit_analyse` accepts is not sent to the `default` case of
`jit_map_storage_for_op`, unless its kind is ALLOCA, UARRAY_LEN or
STORE_INDIRECT; ops of these three kinds are accepted by the first and sent
to the `default` case of the second. -/
theorem analysed_ops_are_mapped (T : target_t) (u : vcode_unit_t) (o : vcode_op)
    (i j blk op : Nat) (b b1 : List vcode_op) (st st1 : jit_state_t) :
    (exit_of (analyse_switch i b j o st) ≠ some (.cannot_analyse j) →
      o.kind ≠ .VCODE_OP_ALLOCA → o.kind ≠ .VCODE_OP_UARRAY_LEN →
      o.kind ≠ .VCODE_OP_STORE_INDIRECT →
      exit_of (jit_map_storage_for_op T u blk b1 op o st1) ≠ some (.cannot_allocate op)) ∧
    (o.kind = .VCODE_OP_ALLOCA ∨ o.kind = .VCODE_OP_UARRAY_LEN ∨
        o.kind = .VCODE_OP_STORE_INDIRECT →
      exit_of (analyse_switch i b j o st) ≠ some (.cannot_analyse j) ∧
      exit_of (jit_map_storage_for_op T u blk b1 op o st1) = some (.cannot_allocate op)) := by
  have hres : exit_of (jit_map_result blk op o st1) ≠ some (.cannot_allocate op) := by
    rcases jit_map_result_exit blk op o st1 with h | h <;> rw [h] <;> simp
  constructor
  · intro hacc h1 h2 h3
    unfold analyse_switch at hacc
    unfold jit_map_storage_for_op
    cases hk : o.kind <;> simp [hk] at h1 h2 h3 <;> simp only [hk] at hacc ⊢
    all_goals first
      | exact hres
      | exact jit_map_uarray_op_exit T blk op o st1
      | exact jit_map_cast_exit u blk op o st1
      | (simp [exit_of]; done)
      | (simp [exit_of] at hacc; done)
      | skip
    · -- CMP
      split
      · simp [exit_of]
      · exact hres
  · intro hk
    refine ⟨?_, ?_⟩
    · rcases hk with hk | hk | hk
      · rw [analyse_switch_defines i b j o st (by simp [defines_result, hk])]
        split <;> simp [exit_of]
      · rw [analyse_switch_defines i b j o st (by simp [defines_result, hk])]
        split <;> simp [exit_of]
      · rw [analyse_switch_skips i b j o st (by simp [analyse_skips, hk])]
        simp [exit_of]
    · unfold jit_map_storage_for_op
      rcases hk with hk | hk | hk <;> simp [hk, exit_of]

/-- An instance of `analysed_ops_are_mapped`: the `CONST` of
`unit_store_indirect`. -/
theorem analysed_ops_are_mapped_witness :
    (exit_of (analyse_switch 0 [] 0 (mk_op .VCODE_OP_CONST [] 0) (zero_state file_plain))
        ≠ some (.cannot_analyse 0) ∧
      (mk_op .VCODE_OP_CONST [] 0).kind ≠ .VCODE_OP_ALLOCA ∧
      (mk_op .VCODE_OP_CONST [] 0).kind ≠ .VCODE_OP_UARRAY_LEN ∧
      (mk_op .VCODE_OP_CONST [] 0).kind ≠ .VCODE_OP_STORE_INDIRECT) ∧
    exit_of (jit_map_storage_for_op target_lp64 unit_store_indirect 0 [] 0
      (mk_op .VCODE_OP_CONST [] 0) (zero_state file_plain)) ≠ some (.cannot_allocate 0) :=
  ⟨by decide,
   (analysed_ops_are_mapped target_lp64 unit_store_indirect (mk_op .VCODE_OP_CONST [] 0)
      0 0 0 0 [] [] (zero_state file_plain) (zero_state file_plain)).1
      (by decide) (by decide) (by decide) (by decide)⟩

/-! ## Pass C: storage by kind of op (C16, C17, C18, C19) -/

/-- C16: for a `CONST` op `jit_map_storage_for_op` returns, the result has
Const storage with the value of the op, and nothing else changes: the
register file, `stack_wptr`, `stack_size` and every other VCODE register are
as before, and so are the other fields of the result's descriptor. -/
theorem const_storage (T : target_t) (u : vcode_unit_t) (blk : Nat) (b : List vcode_op)
    (op : Nat) (o : vcode_op) (st : jit_state_t) (hk : o.kind = .VCODE_OP_CONST) :
    ∃ st1, jit_map_storage_for_op T u blk b op o st = .ok st1 ∧
      (st1.vcode_regs o.result).state = .JIT_CONST ∧
      (st1.vcode_regs o.result).value = o.value ∧
      st1.mach_regs = st.mach_regs ∧ st1.stack_wptr = st.stack_wptr ∧
      st1.stack_size = st.stack_size ∧
      (∀ r, r ≠ o.result → st1.vcode_regs r = st.vcode_regs r) ∧
      st1.vcode_regs o.result =
        { st.vcode_regs o.result with state := .JIT_CONST, value := o.value } := by
  refine ⟨{ st with
      vcode_regs := upd st.vcode_regs o.result
        { st.vcode_regs o.result with state := .JIT_CONST, value := o.value } },
    by simp only [jit_map_storage_for_op, hk], ?_⟩
  refine ⟨by simp [upd], by simp [upd], rfl, rfl, rfl, ?_, by simp [upd]⟩
  intro r hr
  simp [upd, hr]

/-- Witness of C16: a `CONST` of value 0 into `r1` on `state_plain`. -/
theorem const_storage_witness :
    (mk_op .VCODE_OP_CONST [] 1).kind = .VCODE_OP_CONST ∧
    ∃ st1, jit_map_storage_for_op target_lp64 unit_store_indirect 0 [] 1
        (mk_op .VCODE_OP_CONST [] 1) state_plain = .ok st1 ∧
      (st1.vcode_regs (mk_op .VCODE_OP_CONST [] 1).result).state = .JIT_CONST ∧
      (st1.vcode_regs (mk_op .VCODE_OP_CONST [] 1).result).value
        = (mk_op .VCODE_OP_CONST [] 1).value ∧
      st1.mach_regs = state_plain.mach_regs ∧ st1.stack_wptr = state_plain.stack_wptr ∧
      st1.stack_size = state_plain.stack_size ∧
      (∀ r, r ≠ (mk_op .VCODE_OP_CONST [] 1).result →
        st1.vcode_regs r = state_plain.vcode_regs r) ∧
      st1.vcode_regs (mk_op .VCODE_OP_CONST [] 1).result =
        { state_plain.vcode_regs (mk_op .VCODE_OP_CONST [] 1).result with
          state := .JIT_CONST, value := (mk_op .VCODE_OP_CONST [] 1).value } :=
  ⟨rfl, const_storage target_lp64 unit_store_indirect 0 [] 1 (mk_op .VCODE_OP_CONST [] 1)
    state_plain rfl⟩

/-- The general-case ops, and `CMP` and `CAST` when they fall through, are
mapped by `jit_map_result`. -/
theorem jit_map_storage_for_op_general (T : target_t) (u : vcode_unit_t) (blk : Nat)
    (b : List vcode_op) (op : Nat) (o : vcode_op) (st : jit_state_t) :
    (general_case o.kind = true →
      jit_map_storage_for_op T u blk b op o st = jit_map_result blk op o st) ∧
    (o.kind = .VCODE_OP_CMP →
      ((st.vcode_regs o.result).flags.cond_input && jit_is_ephemeral b (st.vcode_regs o.result) op)
        = false →
      jit_map_storage_for_op T u blk b op o st = jit_map_result blk op o st) ∧
    (o.kind = .VCODE_OP_CAST →
      jit_map_storage_for_op T u blk b op o st = jit_map_cast u blk op o st) := by
  refine ⟨?_, ?_, ?_⟩
  · intro hk
    unfold general_case at hk
    unfold jit_map_storage_for_op
    cases h : o.kind <;> simp [h] at hk ⊢
  · intro hk hc
    unfold jit_map_storage_for_op
    simp only [hk, hc]
    simp
  · intro hk
    unfold jit_map_storage_for_op
    simp only [hk]

/-- The outcome of `jit_map_result` in each of its three cases. -/
theorem jit_map_result_outcome (blk op : Nat) (o : vcode_op) (st : jit_state_t) :
    (∀ file k, jit_alloc_reg st blk op o.result = (file, some k) →
      ∃ st1, jit_map_result blk op o st = .ok st1 ∧
        (st1.vcode_regs o.result).state = .JIT_REGISTER ∧
        (st1.vcode_regs o.result).reg_name = mach_name file k ∧
        st1.mach_regs = file ∧ st1.stack_wptr = st.stack_wptr ∧
        st1.stack_size = st.stack_size ∧
        ∀ r, r ≠ o.result → st1.vcode_regs r = st.vcode_regs r) ∧
    ((jit_alloc_reg st blk op o.result).2 = none →
      st.stack_wptr + (jit_align_object (st.vcode_regs o.result).size st.stack_wptr
        + (st.vcode_regs o.result).size) ≤ st.stack_size →
      ∃ st1, jit_map_result blk op o st = .ok st1 ∧
        (st1.vcode_regs o.result).state = .JIT_STACK ∧
        (st1.vcode_regs o.result).stack_offset =
          -((st.stack_wptr : Int)
              + (jit_align_object (st.vcode_regs o.result).size st.stack_wptr : Int))
            - ((st.vcode_regs o.result).size : Int) ∧
        st1.stack_wptr = st.stack_wptr
          + (jit_align_object (st.vcode_regs o.result).size st.stack_wptr
            + (st.vcode_regs o.result).size) ∧
        st1.mach_regs = st.mach_regs ∧ st1.stack_size = st.stack_size ∧
        ∀ r, r ≠ o.result → st1.vcode_regs r = st.vcode_regs r) ∧
    ((jit_alloc_reg st blk op o.result).2 = none →
      ¬ st.stack_wptr + (jit_align_object (st.vcode_regs o.result).size st.stack_wptr
        + (st.vcode_regs o.result).size) ≤ st.stack_size →
      exit_of (jit_map_result blk op o st) = some (.assert_stack_wptr op)) := by
  refine ⟨?_, ?_, ?_⟩
  · intro file k ha
    refine ⟨{ st with
        mach_regs := file,
        vcode_regs := upd st.vcode_regs o.result
          { st.vcode_regs o.result with
            state := .JIT_REGISTER, reg_name := mach_name file k } },
      by simp only [jit_map_result, ha], ?_⟩
    refine ⟨by simp [upd], by simp [upd], rfl, rfl, rfl, ?_⟩
    intro r hr
    simp [upd, hr]
  · intro hnone hfit
    cases ha : jit_alloc_reg st blk op o.result with
    | mk file res =>
      rw [ha] at hnone
      simp only at hnone
      subst hnone
      have hfile := jit_alloc_reg_fst_of_none st blk op o.result file ha
      refine ⟨{ st with
          mach_regs := file,
          stack_wptr := st.stack_wptr
            + (jit_align_object (st.vcode_regs o.result).size st.stack_wptr
              + (st.vcode_regs o.result).size),
          vcode_regs := upd st.vcode_regs o.result
            { st.vcode_regs o.result with
              state := .JIT_STACK,
              stack_offset := -((st.stack_wptr : Int)
                  + (jit_align_object (st.vcode_regs o.result).size st.stack_wptr : Int))
                - ((st.vcode_regs o.result).size : Int) } },
        by simp only [jit_map_result, ha, hfit, not_true_eq_false, if_false], ?_⟩
      refine ⟨by simp [upd], by simp [upd], rfl, hfile, rfl, ?_⟩
      intro r hr
      simp [upd, hr]
  · intro hnone hfit
    cases ha : jit_alloc_reg st blk op o.result with
    | mk file res =>
      rw [ha] at hnone
      simp only at hnone
      subst hnone
      simp [jit_map_result, ha, hfit, exit_of]

theorem jit_map_cast_alias_iff (u : vcode_unit_t) (o : vcode_op) (st : jit_state_t)
    (src : Nat) :
    (((decide (o.type.kind = .VCODE_TYPE_OFFSET) || decide (o.type.kind = .VCODE_TYPE_INT))
        && (decide ((u.reg_type src).kind = .VCODE_TYPE_OFFSET)
          || decide ((u.reg_type src).kind = .VCODE_TYPE_INT)))
      && (decide ((st.vcode_regs src).state = .JIT_STACK)
        && decide ((st.vcode_regs o.result).use_count ≤ 2))) = true ↔
    cast_aliases u o st src := by
  unfold cast_aliases integer_kind
  simp only [Bool.and_eq_true, Bool.or_eq_true, decide_eq_true_eq]
  tauto

/-- The two cases of `jit_map_cast` for a `CAST` with source register
`src`. -/
theorem jit_map_cast_cases (u : vcode_unit_t) (blk op : Nat) (o : vcode_op)
    (st : jit_state_t) (src : Nat) (rest : List Nat) (hargs : o.args = src :: rest) :
    (cast_aliases u o st src →
      jit_map_cast u blk op o st = .ok { st with
        vcode_regs := upd st.vcode_regs o.result
          { st.vcode_regs o.result with
            state := .JIT_STACK, stack_offset := (st.vcode_regs src).stack_offset } }) ∧
    (¬ cast_aliases u o st src → jit_map_cast u blk op o st = jit_map_result blk op o st) := by
  constructor
  · intro h
    have := (jit_map_cast_alias_iff u o st src).2 h
    unfold jit_map_cast
    simp only [hargs]
    rw [if_pos this]
  · intro h
    have : ¬ _ := fun h1 => h ((jit_map_cast_alias_iff u o st src).1 h1)
    unfold jit_map_cast
    simp only [hargs]
    rw [if_neg this]

/-- What the general case does, for every op that `jit_map_storage_for_op`
hands to `jit_map_result` (ADD, ADDI, SUB, MUL, LOAD, LOAD_INDIRECT, SELECT,
UNWRAP, RANGE_NULL, and the `CMP` and `CAST` fall-through): if `jit_alloc_reg`
succeeds the result gets MachineReg storage naming the returned register and
`stack_wptr` is unchanged; otherwise, provided the slot fits the frame
(`stack_wptr + pad + size <= stack_size` with
`pad = jit_align_object(size, stack_wptr)`), the result gets StackSlot storage
with `stack_offset = -(stack_wptr + pad) - size` and `stack_wptr` advances by
exactly `pad + size`; when the slot does not fit, the assertion of
`jit_map_result` fails. -/
theorem general_case_storage (T : target_t) (u : vcode_unit_t) (blk : Nat)
    (b : List vcode_op) (op : Nat) (o : vcode_op) (st : jit_state_t)
    (hk : handled_by_map_result u b op o st) :
    (∀ file k, jit_alloc_reg st blk op o.result = (file, some k) →
      ∃ st1, jit_map_storage_for_op T u blk b op o st = .ok st1 ∧
        (st1.vcode_regs o.result).state = .JIT_REGISTER ∧
        (st1.vcode_regs o.result).reg_name = mach_name file k ∧
        st1.mach_regs = file ∧ st1.stack_wptr = st.stack_wptr ∧
        st1.stack_size = st.stack_size ∧
        ∀ r, r ≠ o.result → st1.vcode_regs r = st.vcode_regs r) ∧
    ((jit_alloc_reg st blk op o.result).2 = none →
      st.stack_wptr + (jit_align_object (st.vcode_regs o.result).size st.stack_wptr
        + (st.vcode_regs o.result).size) ≤ st.stack_size →
      ∃ st1, jit_map_storage_for_op T u blk b op o st = .ok st1 ∧
        (st1.vcode_regs o.result).state = .JIT_STACK ∧
        (st1.vcode_regs o.result).stack_offset =
          -((st.stack_wptr : Int)
              + (jit_align_object (st.vcode_regs o.result).size st.stack_wptr : Int))
            - ((st.vcode_regs o.result).size : Int) ∧
        st1.stack_wptr = st.stack_wptr
          + (jit_align_object (st.vcode_regs o.result).size st.stack_wptr
            + (st.vcode_regs o.result).size) ∧
        st1.mach_regs = st.mach_regs ∧ st1.stack_size = st.stack_size ∧
        ∀ r, r ≠ o.result → st1.vcode_regs r = st.vcode_regs r) ∧
    ((jit_alloc_reg st blk op o.result).2 = none →
      ¬ st.stack_wptr + (jit_align_object (st.vcode_regs o.result).size st.stack_wptr
        + (st.vcode_regs o.result).size) ≤ st.stack_size →
      exit_of (jit_map_storage_for_op T u blk b op o st) = some (.assert_stack_wptr op)) := by
  have hdisp : jit_map_storage_for_op T u blk b op o st = jit_map_result blk op o st := by
    obtain ⟨h1, h2, h3⟩ := jit_map_storage_for_op_general T u blk b op o st
    rcases hk with hk | ⟨hk, hc⟩ | ⟨hk, src, rest, hargs, hc⟩
    · exact h1 hk
    · refine h2 hk ?_
      cases hci : (st.vcode_regs o.result).flags.cond_input
      · rfl
      · cases hei : jit_is_ephemeral b (st.vcode_regs o.result) op
        · rfl
        · exact absurd ⟨hci, hei⟩ hc
    · rw [h3 hk]
      exact (jit_map_cast_cases u blk op o st src rest hargs).2 hc
  rw [hdisp]
  exact jit_map_result_outcome blk op o st

/-- An instance of `general_case_storage`: a `LOAD` into a register that is not
BLOCK_LOCAL is spilled to the slot at -8 of `state_spill`. -/
theorem general_case_storage_witness :
    (handled_by_map_result unit_cross_block [] 0 (mk_op .VCODE_OP_LOAD [] 0) state_spill ∧
      (jit_alloc_reg state_spill 0 0 (mk_op .VCODE_OP_LOAD [] 0).result).2 = none ∧
      state_spill.stack_wptr
        + (jit_align_object (state_spill.vcode_regs (mk_op .VCODE_OP_LOAD [] 0).result).size
            state_spill.stack_wptr
          + (state_spill.vcode_regs (mk_op .VCODE_OP_LOAD [] 0).result).size)
        ≤ state_spill.stack_size) ∧
    ∃ st1, jit_map_storage_for_op target_lp64 unit_cross_block 0 [] 0
        (mk_op .VCODE_OP_LOAD [] 0) state_spill = .ok st1 ∧
      (st1.vcode_regs (mk_op .VCODE_OP_LOAD [] 0).result).state = .JIT_STACK ∧
      (st1.vcode_regs (mk_op .VCODE_OP_LOAD [] 0).result).stack_offset =
        -((state_spill.stack_wptr : Int)
            + (jit_align_object (state_spill.vcode_regs (mk_op .VCODE_OP_LOAD [] 0).result).size
                state_spill.stack_wptr : Int))
          - ((state_spill.vcode_regs (mk_op .VCODE_OP_LOAD [] 0).result).size : Int) ∧
      st1.stack_wptr = state_spill.stack_wptr
        + (jit_align_object (state_spill.vcode_regs (mk_op .VCODE_OP_LOAD [] 0).result).size
            state_spill.stack_wptr
          + (state_spill.vcode_regs (mk_op .VCODE_OP_LOAD [] 0).result).size) ∧
      st1.mach_regs = state_spill.mach_regs ∧ st1.stack_size = state_spill.stack_size ∧
      ∀ r, r ≠ (mk_op .VCODE_OP_LOAD [] 0).result →
        st1.vcode_regs r = state_spill.vcode_regs r :=
  ⟨⟨Or.inl rfl, by decide, by decide⟩,
   (general_case_storage target_lp64 unit_cross_block 0 [] 0 (mk_op .VCODE_OP_LOAD [] 0)
      state_spill (Or.inl rfl)).2.1 (by decide) (by decide)⟩

/-- C17 fails on the code: in the plan of `unit_cross_block` over the
unassigned register file `file_plain`, pass C reaches the `LOAD` at op 0 of
block 0 with `stack_wptr = stack_size = 4`. The `LOAD` is a general-case op
and `jit_alloc_reg` gives its result `r0`, of size 4 and not BLOCK_LOCAL, no
machine register; the slot at `stack_offset = -8` would advance `stack_wptr`
to 8, and instead of giving `r0` StackSlot storage `jit_map_storage_for_op`
takes the fatal exit of the assertion `stack_wptr <= stack_size`. -/
theorem spill_of_load_is_fatal :
    plan_upto target_lp64 unit_cross_block 0 0 (zero_state file_plain)
      = .ok (plan_state_upto target_lp64 unit_cross_block 0 0 (zero_state file_plain)) ∧
    op_at unit_cross_block 0 0 = some (mk_op .VCODE_OP_LOAD [] 0) ∧
    general_case (mk_op .VCODE_OP_LOAD [] 0).kind = true ∧
    (jit_alloc_reg (plan_state_upto target_lp64 unit_cross_block 0 0 (zero_state file_plain))
      0 0 (mk_op .VCODE_OP_LOAD [] 0).result).2 = none ∧
    (plan_state_upto target_lp64 unit_cross_block 0 0 (zero_state file_plain)).stack_wptr = 4 ∧
    (plan_state_upto target_lp64 unit_cross_block 0 0 (zero_state file_plain)).stack_size = 4 ∧
    ((plan_state_upto target_lp64 unit_cross_block 0 0 (zero_state file_plain)).vcode_regs
      0).size = 4 ∧
    jit_align_object 4 4 = 0 ∧
    exit_of (jit_map_storage_for_op target_lp64 unit_cross_block 0
      [mk_op .VCODE_OP_LOAD [] 0, mk_op .VCODE_OP_JUMP [] 0] 0 (mk_op .VCODE_OP_LOAD [] 0)
      (plan_state_upto target_lp64 unit_cross_block 0 0 (zero_state file_plain)))
      = some (.assert_stack_wptr 0) ∧
    exit_of (jit_plan target_lp64 unit_cross_block (zero_state file_plain))
      = some (.assert_stack_wptr 0) := by
  refine ⟨rfl, rfl, rfl, by decide, by decide, by decide, by decide, by decide, by decide,
    by decide⟩

/-- `jit_map_uarray_op` for one of its three ops with a stack-resident source
`src`. -/
theorem jit_map_uarray_op_eq (T : target_t) (blk op : Nat) (o : vcode_op)
    (st : jit_state_t) (src : Nat) (rest : List Nat)
    (hk : o.kind = .VCODE_OP_UARRAY_LEFT ∨ o.kind = .VCODE_OP_UARRAY_RIGHT ∨
      o.kind = .VCODE_OP_UARRAY_DIR)
    (hargs : o.args = src :: rest)
    (hsrc : (st.vcode_regs src).state = .JIT_STACK) :
    jit_map_uarray_op T blk op o st =
      if 2 ≤ (st.vcode_regs o.result).use_count then
        match jit_alloc_reg st blk op o.result with
        | (file, some mreg) =>
          .ok { st with
            mach_regs := file,
            vcode_regs := upd st.vcode_regs o.result
              { st.vcode_regs o.result with
                state := .JIT_REGISTER, reg_name := mach_name file mreg } }
        | (file, none) =>
          .ok { st with
            mach_regs := file,
            vcode_regs := upd st.vcode_regs o.result
              { st.vcode_regs o.result with
                state := .JIT_STACK,
                stack_offset := (st.vcode_regs src).stack_offset
                  + (uarray_field_offset T o.kind : Int) } }
      else
        .ok { st with
          vcode_regs := upd st.vcode_regs o.result
            { st.vcode_regs o.result with
              state := .JIT_STACK,
              stack_offset := (st.vcode_regs src).stack_offset
                + (uarray_field_offset T o.kind : Int) } } := by
  unfold jit_map_uarray_op
  by_cases huse : 2 ≤ (st.vcode_regs o.result).use_count
  · cases ha : jit_alloc_reg st blk op o.result with
    | mk file res =>
      cases res <;> rcases hk with hk | hk | hk <;>
        simp [hargs, hsrc, hk, huse, ha, uarray_field_offset]
  · rcases hk with hk | hk | hk <;> simp [hargs, hsrc, hk, huse, uarray_field_offset]

/-- C18: for a UARRAY_LEFT/RIGHT/DIR op whose source register has StackSlot
storage `jit_map_uarray_op` returns; the result gets MachineReg storage
exactly when its `use_count` is at least 2 and `jit_alloc_reg` succeeds (and
then names the returned register); in every other case it gets stack storage
at the source's `stack_offset` plus the offset of the field; `stack_wptr` is
unchanged, and when `use_count < 2` the register file is not touched. -/
theorem uarray_field_aliasing (T : target_t) (blk op : Nat) (o : vcode_op)
    (st : jit_state_t) (src : Nat) (rest : List Nat)
    (hk : o.kind = .VCODE_OP_UARRAY_LEFT ∨ o.kind = .VCODE_OP_UARRAY_RIGHT ∨
      o.kind = .VCODE_OP_UARRAY_DIR)
    (hargs : o.args = src :: rest)
    (hsrc : (st.vcode_regs src).state = .JIT_STACK) :
    ∃ st1, jit_map_uarray_op T blk op o st = .ok st1 ∧
      st1.stack_wptr = st.stack_wptr ∧ st1.stack_size = st.stack_size ∧
      (∀ r, r ≠ o.result → st1.vcode_regs r = st.vcode_regs r) ∧
      ((st1.vcode_regs o.result).state = .JIT_REGISTER ↔
        (2 ≤ (st.vcode_regs o.result).use_count ∧
          ∃ k, (jit_alloc_reg st blk op o.result).2 = some k)) ∧
      (2 ≤ (st.vcode_regs o.result).use_count →
        ∀ file k, jit_alloc_reg st blk op o.result = (file, some k) →
          (st1.vcode_regs o.result).reg_name = mach_name file k ∧ st1.mach_regs = file) ∧
      (¬ (2 ≤ (st.vcode_regs o.result).use_count ∧
          ∃ k, (jit_alloc_reg st blk op o.result).2 = some k) →
        (st1.vcode_regs o.result).state = .JIT_STACK ∧
        (st1.vcode_regs o.result).stack_offset
          = (st.vcode_regs src).stack_offset + (uarray_field_offset T o.kind : Int) ∧
        st1.mach_regs = st.mach_regs) ∧
      ((st.vcode_regs o.result).use_count < 2 → st1.mach_regs = st.mach_regs) := by
  rw [jit_map_uarray_op_eq T blk op o st src rest hk hargs hsrc]
  by_cases huse : 2 ≤ (st.vcode_regs o.result).use_count
  · cases ha : jit_alloc_reg st blk op o.result with
    | mk file res =>
      cases res with
      | some k =>
        refine ⟨{ st with
            mach_regs := file,
            vcode_regs := upd st.vcode_regs o.result
              { st.vcode_regs o.result with
                state := .JIT_REGISTER, reg_name := mach_name file k } }, ?_, rfl, rfl, ?_, ?_,
          ?_, ?_, ?_⟩
        · simp only [huse, if_true, ha]
        · intro r hr; simp [upd, hr]
        · simp [upd, huse]
        · intro _ file1 k1 h1
          simp only [Prod.mk.injEq, Option.some.injEq] at h1
          obtain ⟨h2, h3⟩ := h1
          subst h2; subst h3
          simp [upd]
        · intro hn
          exact absurd ⟨huse, k, rfl⟩ hn
        · intro hlt; omega
      | none =>
        have hfile := jit_alloc_reg_fst_of_none st blk op o.result file ha
        refine ⟨{ st with
            mach_regs := file,
            vcode_regs := upd st.vcode_regs o.result
              { st.vcode_regs o.result with
                state := .JIT_STACK,
                stack_offset := (st.vcode_regs src).stack_offset
                  + (uarray_field_offset T o.kind : Int) } }, ?_, rfl, rfl, ?_, ?_, ?_, ?_, ?_⟩
        · simp only [huse, if_true, ha]
        · intro r hr; simp [upd, hr]
        · simp [upd]
        · intro _ file1 k1 h1
          simp at h1
        · intro _
          exact ⟨by simp [upd], by simp [upd], hfile⟩
        · intro _; exact hfile
  · refine ⟨{ st with
        vcode_regs := upd st.vcode_regs o.result
          { st.vcode_regs o.result with
            state := .JIT_STACK,
            stack_offset := (st.vcode_regs src).stack_offset
              + (uarray_field_offset T o.kind : Int) } }, ?_, rfl, rfl, ?_, ?_, ?_, ?_, ?_⟩
    · simp only [huse, if_false]
    · intro r hr; simp [upd, hr]
    · simp [upd, huse]
    · intro h; exact absurd h huse
    · intro _
      exact ⟨by simp [upd], by simp [upd], rfl⟩
    · intro _; rfl

/-- Witness of C18: on `state_uarray` the `UARRAY_RIGHT` of the stack-resident
`r0` into `r2`, which is used once. -/
theorem uarray_field_aliasing_witness :
    (((mk_op .VCODE_OP_UARRAY_RIGHT [0] 2).kind = .VCODE_OP_UARRAY_LEFT ∨
        (mk_op .VCODE_OP_UARRAY_RIGHT [0] 2).kind = .VCODE_OP_UARRAY_RIGHT ∨
        (mk_op .VCODE_OP_UARRAY_RIGHT [0] 2).kind = .VCODE_OP_UARRAY_DIR) ∧
      (mk_op .VCODE_OP_UARRAY_RIGHT [0] 2).args = 0 :: [] ∧
      (state_uarray.vcode_regs 0).state = .JIT_STACK) ∧
    ∃ st1, jit_map_uarray_op target_lp64 0 0 (mk_op .VCODE_OP_UARRAY_RIGHT [0] 2)
        state_uarray = .ok st1 ∧
      st1.stack_wptr = state_uarray.stack_wptr ∧ st1.stack_size = state_uarray.stack_size ∧
      (∀ r, r ≠ (mk_op .VCODE_OP_UARRAY_RIGHT [0] 2).result →
        st1.vcode_regs r = state_uarray.vcode_regs r) ∧
      ((st1.vcode_regs (mk_op .VCODE_OP_UARRAY_RIGHT [0] 2).result).state = .JIT_REGISTER ↔
        (2 ≤ (state_uarray.vcode_regs (mk_op .VCODE_OP_UARRAY_RIGHT [0] 2).result).use_count ∧
          ∃ k, (jit_alloc_reg state_uarray 0 0
            (mk_op .VCODE_OP_UARRAY_RIGHT [0] 2).result).2 = some k)) ∧
      (2 ≤ (state_uarray.vcode_regs (mk_op .VCODE_OP_UARRAY_RIGHT [0] 2).result).use_count →
        ∀ file k, jit_alloc_reg state_uarray 0 0
            (mk_op .VCODE_OP_UARRAY_RIGHT [0] 2).result = (file, some k) →
          (st1.vcode_regs (mk_op .VCODE_OP_UARRAY_RIGHT [0] 2).result).reg_name
            = mach_name file k ∧ st1.mach_regs = file) ∧
      (¬ (2 ≤ (state_uarray.vcode_regs (mk_op .VCODE_OP_UARRAY_RIGHT [0] 2).result).use_count ∧
          ∃ k, (jit_alloc_reg state_uarray 0 0
            (mk_op .VCODE_OP_UARRAY_RIGHT [0] 2).result).2 = some k) →
        (st1.vcode_regs (mk_op .VCODE_OP_UARRAY_RIGHT [0] 2).result).state = .JIT_STACK ∧
        (st1.vcode_regs (mk_op .VCODE_OP_UARRAY_RIGHT [0] 2).result).stack_offset
          = (state_uarray.vcode_regs 0).stack_offset
            + (uarray_field_offset target_lp64 (mk_op .VCODE_OP_UARRAY_RIGHT [0] 2).kind : Int) ∧
        st1.mach_regs = state_uarray.mach_regs) ∧
      ((state_uarray.vcode_regs (mk_op .VCODE_OP_UARRAY_RIGHT [0] 2).result).use_count < 2 →
        st1.mach_regs = state_uarray.mach_regs) :=
  ⟨⟨Or.inr (Or.inl rfl), rfl, rfl⟩,
   uarray_field_aliasing target_lp64 0 0 (mk_op .VCODE_OP_UARRAY_RIGHT [0] 2) state_uarray 0 []
     (Or.inr (Or.inl rfl)) rfl rfl⟩

/-- C19: for a `CAST` with source register `src` whose target kind and source
kind are both INT or OFFSET, whose source has StackSlot storage and whose
result has `use_count <= 2`, `jit_map_cast` returns, the result gets StackSlot
storage with the source's `stack_offset`, and nothing is allocated (register
file, `stack_wptr`, `stack_size` and the other registers unchanged); for every
other `CAST` the outcome is that of `jit_map_result`. -/
theorem cast_aliasing (u : vcode_unit_t) (blk op : Nat) (o : vcode_op)
    (st : jit_state_t) (src : Nat) (rest : List Nat) (hargs : o.args = src :: rest) :
    (cast_aliases u o st src →
      ∃ st1, jit_map_cast u blk op o st = .ok st1 ∧
        (st1.vcode_regs o.result).state = .JIT_STACK ∧
        (st1.vcode_regs o.result).stack_offset = (st.vcode_regs src).stack_offset ∧
        st1.mach_regs = st.mach_regs ∧ st1.stack_wptr = st.stack_wptr ∧
        st1.stack_size = st.stack_size ∧
        ∀ r, r ≠ o.result → st1.vcode_regs r = st.vcode_regs r) ∧
    (¬ cast_aliases u o st src → jit_map_cast u blk op o st = jit_map_result blk op o st) := by
  obtain ⟨h1, h2⟩ := jit_map_cast_cases u blk op o st src rest hargs
  refine ⟨?_, h2⟩
  intro hc
  refine ⟨_, h1 hc, by simp [upd], by simp [upd], rfl, rfl, rfl, ?_⟩
  intro r hr
  simp [upd, hr]

/-- Witness of C19: on `state_uarray` a `CAST` of the stack-resident `r0` to a
32-bit integer `r2`. -/
theorem cast_aliasing_witness :
    ((mk_op .VCODE_OP_CAST [0] 2).args = 0 :: [] ∧
      cast_aliases unit_reuse (mk_op .VCODE_OP_CAST [0] 2) state_uarray 0) ∧
    ∃ st1, jit_map_cast unit_reuse 0 0 (mk_op .VCODE_OP_CAST [0] 2) state_uarray = .ok st1 ∧
      (st1.vcode_regs (mk_op .VCODE_OP_CAST [0] 2).result).state = .JIT_STACK ∧
      (st1.vcode_regs (mk_op .VCODE_OP_CAST [0] 2).result).stack_offset
        = (state_uarray.vcode_regs 0).stack_offset ∧
      st1.mach_regs = state_uarray.mach_regs ∧ st1.stack_wptr = state_uarray.stack_wptr ∧
      st1.stack_size = state_uarray.stack_size ∧
      ∀ r, r ≠ (mk_op .VCODE_OP_CAST [0] 2).result →
        st1.vcode_regs r = state_uarray.vcode_regs r :=
  ⟨⟨rfl, by decide⟩,
   (cast_aliasing unit_reuse 0 0 (mk_op .VCODE_OP_CAST [0] 2) state_uarray 0 [] rfl).1
     (by decide)⟩

/-! ## Freeing a unit (C20) -/

theorem find_scan_mem (mem : Nat) : ∀ (entries : List (Nat × jit_state_t)) (v : jit_state_t),
    find_scan mem entries = some v →
    ∃ e ∈ entries, e.2 = v ∧ e.2.code_base ≤ mem ∧ mem < e.2.code_base + e.2.code_len := by
  intro entries
  induction entries with
  | nil => intro v h; simp [find_scan] at h
  | cons e0 es ih =>
    intro v h
    obtain ⟨key, value⟩ := e0
    simp only [find_scan] at h
    split at h
    · rename_i hc
      simp at h
      exact ⟨(key, value), by simp, h, hc.1, hc.2⟩
    · obtain ⟨e, he, h1⟩ := ih v h
      exact ⟨e, by simp [he], h1⟩

theorem buffers_disjoint_filter (p : Nat × jit_state_t → Bool)
    (entries : List (Nat × jit_state_t)) (h : buffers_disjoint entries) :
    buffers_disjoint (entries.filter p) :=
  List.Pairwise.sublist (List.filter_sublist entries) h

/-- C20: `jit_free(mem)` is fatal when `mem` lies in the code buffer of no
cached unit (also when the cache was never created); otherwise, in a cache
whose entries are filed under their unit with distinct keys and have pairwise
disjoint buffers, it returns and the cache afterwards has lost exactly the
entry of the owning unit: `jit_find_in_cache` returns none for every address
inside the owner's buffer and still returns the same state for every address
inside the buffer of every other entry. -/
theorem jit_free_removes_unit (entries : List (Nat × jit_state_t)) :
    (∀ mem, (∀ e ∈ entries, ¬ (e.2.code_base ≤ mem ∧ mem < e.2.code_base + e.2.code_len)) →
      exit_of (jit_free (some entries) mem) = some .not_in_cache) ∧
    (∀ mem, exit_of (jit_free none mem) = some .not_in_cache) ∧
    (buffers_disjoint entries → cache_keyed entries →
      ∀ e ∈ entries, ∀ mem, e.2.code_base ≤ mem → mem < e.2.code_base + e.2.code_len →
        ∃ rest, jit_free (some entries) mem = .ok (some rest) ∧
          (∀ e1, e1 ∈ rest ↔ (e1 ∈ entries ∧ e1.1 ≠ e.1)) ∧
          (∀ a, e.2.code_base ≤ a → a < e.2.code_base + e.2.code_len →
            jit_find_in_cache (some rest) a = none) ∧
          (∀ e1 ∈ entries, e1.1 ≠ e.1 →
            ∀ a, e1.2.code_base ≤ a → a < e1.2.code_base + e1.2.code_len →
              jit_find_in_cache (some rest) a = some e1.2 ∧
              jit_find_in_cache (some entries) a = some e1.2)) := by
  refine ⟨?_, fun mem => rfl, ?_⟩
  · intro mem h
    simp [jit_free, jit_find_in_cache, find_scan_none mem entries h, exit_of]
  · intro hd hkey e he mem hlo hhi
    have hfind : jit_find_in_cache (some entries) mem = some e.2 :=
      find_scan_owner mem entries hd e he hlo hhi
    refine ⟨hash_put_null entries e.2.unit, by simp [jit_free, hfind], ?_, ?_, ?_⟩
    · intro e1
      simp [hash_put_null, hkey.1 e he]
    · intro a ha1 ha2
      apply find_scan_none
      intro e1 he1 hc
      simp only [hash_put_null, List.mem_filter, decide_eq_true_eq, hkey.1 e he] at he1
      -- `e1` is another entry whose buffer contains `a`
      have h1 := find_scan_owner a entries hd e he ha1 ha2
      have h2 := find_scan_owner a entries hd e1 he1.1 hc.1 hc.2
      rw [h1] at h2
      simp only [Option.some.injEq] at h2
      have hk1 := hkey.1 e he
      have hk2 := hkey.1 e1 he1.1
      rw [h2, hk2] at hk1
      exact he1.2 hk1
    · intro e1 he1 hne a ha1 ha2
      refine ⟨?_, find_scan_owner a entries hd e1 he1 ha1 ha2⟩
      refine find_scan_owner a _ (buffers_disjoint_filter _ entries hd) e1 ?_ ha1 ha2
      simp [hash_put_null, he1, hkey.1 e he, hne]

theorem cache_units_disjoint : buffers_disjoint cache_units := by
  simp [buffers_disjoint, cache_units, state_of_unit, zero_state]

theorem cache_units_keyed : cache_keyed cache_units := by
  simp [cache_keyed, cache_units, state_of_unit, zero_state]

/-- Witness of C20 on `cache_units`: freeing an address of unit 2. -/
theorem jit_free_removes_unit_witness :
    (buffers_disjoint cache_units ∧ cache_keyed cache_units ∧
      (2, state_of_unit 2 12288 4096) ∈ cache_units ∧
      (state_of_unit 2 12288 4096).code_base ≤ 12300 ∧
      12300 < (state_of_unit 2 12288 4096).code_base + (state_of_unit 2 12288 4096).code_len ∧
      (∀ e ∈ cache_units, ¬ (e.2.code_base ≤ 9000 ∧ 9000 < e.2.code_base + e.2.code_len))) ∧
    exit_of (jit_free (some cache_units) 9000) = some .not_in_cache ∧
    ∃ rest, jit_free (some cache_units) 12300 = .ok (some rest) ∧
      (∀ e1, e1 ∈ rest ↔ (e1 ∈ cache_units ∧ e1.1 ≠ 2)) ∧
      (∀ a, (state_of_unit 2 12288 4096).code_base ≤ a →
        a < (state_of_unit 2 12288 4096).code_base + (state_of_unit 2 12288 4096).code_len →
        jit_find_in_cache (some rest) a = none) ∧
      (∀ e1 ∈ cache_units, e1.1 ≠ 2 →
        ∀ a, e1.2.code_base ≤ a → a < e1.2.code_base + e1.2.code_len →
          jit_find_in_cache (some rest) a = some e1.2 ∧
          jit_find_in_cache (some cache_units) a = some e1.2) :=
  ⟨⟨cache_units_disjoint, cache_units_keyed, by simp [cache_units], by decide, by decide,
      by simp [cache_units, state_of_unit, zero_state]⟩,
   (jit_free_removes_unit cache_units).1 9000
     (by simp [cache_units, state_of_unit, zero_state]),
   (jit_free_removes_unit cache_units).2.2 cache_units_disjoint cache_units_keyed
     (2, state_of_unit 2 12288 4096) (by simp [cache_units]) 12300 (by decide) (by decide)⟩

/-! ## Pass A: the frame (C11, C12) -/

theorem jit_size_of_pos (T : target_t) (hT : 1 ≤ T.sizeof_uarray_t) (t : vcode_type_t)
    (size : Nat) (h : jit_size_of T t = .ok size) : 1 ≤ size := by
  unfold jit_size_of at h
  split at h
  · dsimp only at h
    split_ifs at h <;> simp at h <;> omega
  · simp at h; omega
  · simp [sizeof_ptr] at h; omega
  · simp at h; omega
  · simp at h

theorem jit_align_object_spec (size ptr : Nat) (h : 1 ≤ size) :
    jit_align_object size ptr < min size sizeof_ptr ∧
    min size sizeof_ptr ∣ ptr + jit_align_object size ptr := by
  have hm : 1 ≤ min size sizeof_ptr := by simp [sizeof_ptr]; omega
  generalize hs : min size sizeof_ptr = s at hm
  have hlt : ptr % s < s := Nat.mod_lt _ (by omega)
  unfold jit_align_object
  simp only [hs]
  by_cases h0 : ptr % s = 0
  · have : s - ptr % s = s := by omega
    simp only [this, if_true, Nat.add_zero]
    exact ⟨by omega, Nat.dvd_of_mod_eq_zero h0⟩
  · have : ¬ s - ptr % s = s := by omega
    simp only [this, if_false]
    refine ⟨by omega, ?_⟩
    have hdm := Nat.div_add_mod ptr s
    refine ⟨ptr / s + 1, ?_⟩
    rw [Nat.mul_add, Nat.mul_one]
    omega

theorem frame_end_mono (T : target_t) (u : vcode_unit_t) (i k : Nat) (h : i ≤ k) :
    frame_end T u i ≤ frame_end T u k := by
  induction k with
  | zero =>
    have : i = 0 := by omega
    subst this; exact Nat.le_refl _
  | succ k ih =>
    by_cases hik : i = k + 1
    · subst hik; exact Nat.le_refl _
    · have := ih (by omega)
      simp only [frame_end]
      omega

/-- The variable loop of `jit_stack_frame`: the frame size and the descriptors
it leaves after `n` variables. -/
theorem stack_frame_var_loop (T : target_t) (u : vcode_unit_t) (n : Nat) (st s1 : jit_state_t)
    (h : for_range (stack_frame_var T u) 0 n { st with stack_size := 0 } = .ok s1) :
    s1.stack_size = frame_end T u n ∧
    ∀ i, i < n → jit_size_of T (u.var_type i) = .ok (var_size T u i) ∧
      s1.vcode_vars i =
        { vcode_var := i, size := var_size T u i, state := .JIT_STACK,
          stack_offset :=
            -((frame_end T u i + jit_align_object (var_size T u i) (frame_end T u i) : Nat)
                : Int) - (var_size T u i : Nat) } := by
  have := for_range_inv (stack_frame_var T u)
    (fun n s => s.stack_size = frame_end T u n ∧
      ∀ i, i < n → jit_size_of T (u.var_type i) = .ok (var_size T u i) ∧
        s.vcode_vars i =
          { vcode_var := i, size := var_size T u i, state := .JIT_STACK,
            stack_offset :=
              -((frame_end T u i + jit_align_object (var_size T u i) (frame_end T u i) : Nat)
                  : Int) - (var_size T u i : Nat) })
    n 0 { st with stack_size := 0 } s1
    (fun k t t1 _ hp hb => by
      simp only [Nat.zero_add] at hp hb ⊢
      unfold stack_frame_var at hb
      cases hsz : jit_size_of T (u.var_type k) with
      | error e => simp [hsz] at hb
      | ok size =>
        have hv : var_size T u k = size := by simp [var_size, hsz]
        simp only [hsz] at hb
        simp only [Except.ok.injEq] at hb
        subst hb
        refine ⟨by simp [frame_end, hv, hp.1], ?_⟩
        intro i hi
        by_cases hik : i = k
        · subst hik
          simp [upd, hv, hsz, hp.1]
        · have := hp.2 i (by omega)
          simp [upd, hik, this])
    ⟨rfl, fun i hi => absurd hi (Nat.not_lt_zero i)⟩ h
  simpa using this

/-- What the body of the op loop of `jit_stack_frame` does. -/
theorem stack_frame_op_step (T : target_t) (hT : 1 ≤ T.sizeof_uarray_t) (i : Nat)
    (b : List vcode_op) (j : Nat) (o : vcode_op) (t t1 : jit_state_t)
    (h : stack_frame_op T i b j o t = .ok t1) :
    t1.vcode_vars = t.vcode_vars ∧ t1.stack_wptr = t.stack_wptr ∧
    t.stack_size ≤ t1.stack_size ∧
    (t.stack_size < t1.stack_size ↔ o.kind = .VCODE_OP_ALLOCA) := by
  unfold stack_frame_op at h
  split at h
  · rename_i hk
    split at h
    · cases h
    · cases hsz : jit_size_of T o.type with
      | error e => simp [hsz] at h
      | ok size =>
        have hpos := jit_size_of_pos T hT o.type size hsz
        simp only [hsz, Except.ok.injEq] at h
        subst h
        simp [hk]
        omega
  · rename_i hk
    simp only [Except.ok.injEq] at h
    subst h
    refine ⟨rfl, rfl, Nat.le_refl _, ?_⟩
    constructor
    · intro hlt; omega
    · intro hk2; exact absurd hk2 (hk)

/-- The op loop of `jit_stack_frame`: it leaves the variables and `stack_wptr`
alone, and grows the frame exactly when the unit has an ALLOCA op. -/
theorem stack_frame_op_loop (T : target_t) (hT : 1 ≤ T.sizeof_uarray_t) (u : vcode_unit_t)
    (s0 s1 : jit_state_t) (h : for_each_op (stack_frame_op T) u.blocks s0 = .ok s1) :
    s1.vcode_vars = s0.vcode_vars ∧ s1.stack_wptr = s0.stack_wptr ∧
    s0.stack_size ≤ s1.stack_size ∧
    (s0.stack_size < s1.stack_size ↔
      ∃ i j o, op_at u i j = some o ∧ o.kind = .VCODE_OP_ALLOCA) := by
  have := for_each_op_inv (stack_frame_op T)
    (fun i j s => s.vcode_vars = s0.vcode_vars ∧ s.stack_wptr = s0.stack_wptr ∧
      s0.stack_size ≤ s.stack_size ∧
      (s0.stack_size < s.stack_size ↔
        ∃ i1 j1 o, visited i j i1 j1 ∧ op_at u i1 j1 = some o ∧ o.kind = .VCODE_OP_ALLOCA))
    u.blocks s0 s1
    (fun i b j o t t1 hb ho hp hbody => by
      obtain ⟨h1, h2, h3, h4⟩ := stack_frame_op_step T hT i b j o t t1 hbody
      refine ⟨h1.trans hp.1, h2.trans hp.2.1, Nat.le_trans hp.2.2.1 h3, ?_⟩
      constructor
      · intro hlt
        by_cases hk : o.kind = .VCODE_OP_ALLOCA
        · exact ⟨i, j, o, (visited_succ i j i j).2 (Or.inr ⟨rfl, rfl⟩),
            by rw [op_at_eq hb]; exact ho, hk⟩
        · have hsame : ¬ t.stack_size < t1.stack_size := fun hl => hk (h4.1 hl)
          obtain ⟨i1, j1, o1, hv, ho1, hk1⟩ := hp.2.2.2.1 (by omega)
          exact ⟨i1, j1, o1, (visited_succ i j i1 j1).2 (Or.inl hv), ho1, hk1⟩
      · rintro ⟨i1, j1, o1, hv, ho1, hk1⟩
        rcases (visited_succ i j i1 j1).1 hv with hv1 | ⟨rfl, rfl⟩
        · have := hp.2.2.2.2 ⟨i1, j1, o1, hv1, ho1, hk1⟩
          omega
        · rw [op_at_eq hb, ho] at ho1
          simp only [Option.some.injEq] at ho1
          subst ho1
          have := h4.2 hk1
          omega)
    (fun i b t hb hp => by
      refine ⟨hp.1, hp.2.1, hp.2.2.1, ?_⟩
      rw [hp.2.2.2]
      constructor
      · rintro ⟨i1, j1, o1, hv, ho1, hk1⟩
        exact ⟨i1, j1, o1, (visited_next_block hb ho1).2 hv, ho1, hk1⟩
      · rintro ⟨i1, j1, o1, hv, ho1, hk1⟩
        exact ⟨i1, j1, o1, (visited_next_block hb ho1).1 hv, ho1, hk1⟩)
    ⟨rfl, rfl, Nat.le_refl _, by
      constructor
      · intro hlt; omega
      · rintro ⟨i1, j1, o1, hv, _, _⟩
        simp [visited] at hv⟩ h
  refine ⟨this.1, this.2.1, this.2.2.1, ?_⟩
  rw [this.2.2.2]
  constructor
  · rintro ⟨i1, j1, o1, _, ho1, hk1⟩
    exact ⟨i1, j1, o1, ho1, hk1⟩
  · rintro ⟨i1, j1, o1, ho1, hk1⟩
    exact ⟨i1, j1, o1, visited_end ho1, ho1, hk1⟩

/-- The closed form of pass A. -/
theorem jit_stack_frame_closed (T : target_t) (hT : 1 ≤ T.sizeof_uarray_t) (u : vcode_unit_t)
    (st st1 : jit_state_t) (h : jit_stack_frame T u st = .ok st1) :
    (∀ i, i < u.nvars → jit_size_of T (u.var_type i) = .ok (var_size T u i) ∧
      st1.vcode_vars i =
        { vcode_var := i, size := var_size T u i, state := .JIT_STACK,
          stack_offset :=
            -((frame_end T u i + jit_align_object (var_size T u i) (frame_end T u i) : Nat)
                : Int) - (var_size T u i : Nat) }) ∧
    st1.stack_wptr = frame_end T u u.nvars ∧
    frame_end T u u.nvars ≤ st1.stack_size ∧
    (frame_end T u u.nvars < st1.stack_size ↔
      ∃ i j o, op_at u i j = some o ∧ o.kind = .VCODE_OP_ALLOCA) := by
  unfold jit_stack_frame at h
  cases hv : for_range (stack_frame_var T u) 0 u.nvars { st with stack_size := 0 } with
  | error e => simp [hv] at h
  | ok s1 =>
    simp only [hv] at h
    obtain ⟨hsz, hvars⟩ := stack_frame_var_loop T u u.nvars st s1 hv
    obtain ⟨h1, h2, h3, h4⟩ := stack_frame_op_loop T hT u _ st1 h
    simp only at h1 h2 h3 h4
    rw [hsz] at h2 h3 h4
    refine ⟨?_, h2, h3, h4⟩
    intro i hi
    rw [h1]
    exact hvars i hi

/-- C11: after `jit_stack_frame`, whatever the sizes of the variables (each at
least 1, which `jit_size_of` guarantees once `sizeof(uarray_t)` is), variable
`i` has the size `jit_size_of` gives its type, state StackSlot and a strictly
negative `stack_offset`; its byte range `[stack_offset, stack_offset + size)`
lies inside the frame `[-stack_size, 0)`; it is disjoint from the range of
every other variable; it lies below every variable of smaller index; and its
upper end is the running frame size (0 for the first variable, the depth of
the previous variable otherwise) padded, by less than the alignment, to a
multiple of `min(size, sizeof(void *))`. -/
theorem frame_layout_of_variables (T : target_t) (hT : 1 ≤ T.sizeof_uarray_t)
    (u : vcode_unit_t) (st st1 : jit_state_t) (h : jit_stack_frame T u st = .ok st1)
    (i : Nat) (hi : i < u.nvars) :
    jit_size_of T (u.var_type i) = .ok (st1.vcode_vars i).size ∧
    1 ≤ (st1.vcode_vars i).size ∧
    (st1.vcode_vars i).state = .JIT_STACK ∧
    (st1.vcode_vars i).stack_offset < 0 ∧
    -(st1.stack_size : Int) ≤ (st1.vcode_vars i).stack_offset ∧
    (st1.vcode_vars i).stack_offset + (st1.vcode_vars i).size ≤ 0 ∧
    (∀ k, k < u.nvars → k ≠ i →
      (st1.vcode_vars i).stack_offset + (st1.vcode_vars i).size
          ≤ (st1.vcode_vars k).stack_offset ∨
        (st1.vcode_vars k).stack_offset + (st1.vcode_vars k).size
          ≤ (st1.vcode_vars i).stack_offset) ∧
    (∀ k, k < i →
      (st1.vcode_vars i).stack_offset + (st1.vcode_vars i).size
        ≤ (st1.vcode_vars k).stack_offset) ∧
    (frame_end T u i : Int)
      = (if i = 0 then 0 else -(st1.vcode_vars (i - 1)).stack_offset) ∧
    jit_align_object (st1.vcode_vars i).size (frame_end T u i)
      < min (st1.vcode_vars i).size sizeof_ptr ∧
    min (st1.vcode_vars i).size sizeof_ptr ∣
      frame_end T u i + jit_align_object (st1.vcode_vars i).size (frame_end T u i) ∧
    (st1.vcode_vars i).stack_offset + (st1.vcode_vars i).size
      = -((frame_end T u i
            + jit_align_object (st1.vcode_vars i).size (frame_end T u i) : Nat) : Int) := by
  obtain ⟨hvars, _, hle, _⟩ := jit_stack_frame_closed T hT u st st1 h
  have hfe : ∀ n, frame_end T u (n + 1)
      = frame_end T u n + jit_align_object (var_size T u n) (frame_end T u n)
        + var_size T u n := fun n => rfl
  obtain ⟨hsz, hv⟩ := hvars i hi
  have hpos := jit_size_of_pos T hT _ _ hsz
  have hal := jit_align_object_spec (var_size T u i) (frame_end T u i) hpos
  have htop := frame_end_mono T u (i + 1) u.nvars (by omega)
  have hi1 := hfe i
  have hbelow : ∀ k, k < i →
      frame_end T u k + jit_align_object (var_size T u k) (frame_end T u k)
        + var_size T u k ≤ frame_end T u i := by
    intro k hk
    have := frame_end_mono T u (k + 1) i (by omega)
    rw [hfe k] at this
    exact this
  have habove : ∀ k, i < k →
      frame_end T u i + jit_align_object (var_size T u i) (frame_end T u i)
        + var_size T u i ≤ frame_end T u k := by
    intro k hk
    have := frame_end_mono T u (i + 1) k (by omega)
    rw [hfe i] at this
    exact this
  rw [hv]
  simp only
  refine ⟨hsz, hpos, trivial, by omega, by omega, by omega, ?_, ?_, ?_, hal.1, hal.2, by omega⟩
  · intro k hk hne
    obtain ⟨_, hvk⟩ := hvars k hk
    rw [hvk]
    simp only
    rcases Nat.lt_or_gt_of_ne hne with hlt | hgt
    · left
      have := hbelow k hlt
      omega
    · right
      have := habove k hgt
      omega
  · intro k hk
    obtain ⟨_, hvk⟩ := hvars k (by omega)
    rw [hvk]
    simp only
    have := hbelow k hk
    omega
  · by_cases h0 : i = 0
    · subst h0
      simp [frame_end]
    · obtain ⟨_, hvk⟩ := hvars (i - 1) (by omega)
      rw [hvk]
      simp only [h0, if_false]
      have := hfe (i - 1)
      rw [show i - 1 + 1 = i by omega] at this
      omega

/-- Witness of C11: the second of the three variables of `unit_three_vars`,
4 bytes after a variable of 1 byte. -/
theorem frame_layout_of_variables_witness :
    (1 ≤ target_lp64.sizeof_uarray_t ∧
      jit_stack_frame target_lp64 unit_three_vars (zero_state [])
        = .ok (framed_state target_lp64 unit_three_vars (zero_state [])) ∧
      1 < unit_three_vars.nvars) ∧
    ((framed_state target_lp64 unit_three_vars (zero_state [])).vcode_vars 1).state
      = .JIT_STACK ∧
    ((framed_state target_lp64 unit_three_vars (zero_state [])).vcode_vars 1).stack_offset
      < 0 ∧
    (∀ k, k < unit_three_vars.nvars → k ≠ 1 →
      ((framed_state target_lp64 unit_three_vars (zero_state [])).vcode_vars 1).stack_offset
          + ((framed_state target_lp64 unit_three_vars (zero_state [])).vcode_vars 1).size
        ≤ ((framed_state target_lp64 unit_three_vars (zero_state [])).vcode_vars k).stack_offset
      ∨ ((framed_state target_lp64 unit_three_vars (zero_state [])).vcode_vars k).stack_offset
          + ((framed_state target_lp64 unit_three_vars (zero_state [])).vcode_vars k).size
        ≤ ((framed_state target_lp64 unit_three_vars
            (zero_state [])).vcode_vars 1).stack_offset) ∧
    ((framed_state target_lp64 unit_three_vars (zero_state [])).vcode_vars 0).stack_offset = -1 ∧
    ((framed_state target_lp64 unit_three_vars (zero_state [])).vcode_vars 1).stack_offset = -8 ∧
    ((framed_state target_lp64 unit_three_vars (zero_state [])).vcode_vars 2).stack_offset
      = -16 :=
  ⟨⟨by decide, rfl, by decide⟩,
   (frame_layout_of_variables target_lp64 (by decide) unit_three_vars (zero_state []) _ rfl 1
      (by decide)).2.2.1,
   (frame_layout_of_variables target_lp64 (by decide) unit_three_vars (zero_state []) _ rfl 1
      (by decide)).2.2.2.1,
   (frame_layout_of_variables target_lp64 (by decide) unit_three_vars (zero_state []) _ rfl 1
      (by decide)).2.2.2.2.2.2.1,
   by decide, by decide, by decide⟩

/-- A completed loop, cut at the element `k`. -/
theorem for_each_split {α σ ε : Type} (body : Nat → α → σ → Except ε σ) (P : Nat → σ → Prop) :
    ∀ (l : List α) (k : Nat) (a : α) (i : Nat) (s s2 : σ),
    (∀ m x t t1, l[m]? = some x → P (i + m) t → body (i + m) x t = .ok t1 →
      P (i + m + 1) t1) →
    P i s → l[k]? = some a → for_each body i l s = .ok s2 →
    ∃ t t1, for_each body i (l.take k) s = .ok t ∧ P (i + k) t ∧
      body (i + k) a t = .ok t1 ∧ P (i + k + 1) t1 ∧
      for_each body (i + k + 1) (l.drop (k + 1)) t1 = .ok s2 := by
  intro l
  induction l with
  | nil => intro k a i s s2 _ _ hk; simp at hk
  | cons x xs ih =>
    intro k a i s s2 hstep h0 hk h
    simp only [for_each] at h
    cases hb : body i x s with
    | error e => simp [hb] at h
    | ok s1 =>
      simp only [hb] at h
      have h1 : P (i + 1) s1 := hstep 0 x s s1 (by simp) h0 hb
      cases k with
      | zero =>
        simp only [List.getElem?_cons_zero, Option.some.injEq] at hk
        subst hk
        exact ⟨s, s1, by simp [for_each], h0, hb, h1, by simpa using h⟩
      | succ k =>
        simp only [List.getElem?_cons_succ] at hk
        obtain ⟨t, t1, ht, hp, hbt, hp1, hrest⟩ := ih k a (i + 1) s1 s2
          (fun m y t2 t3 hm hp hbody => by
            have := hstep (m + 1) y t2 t3 (by simpa using hm)
              (by rw [show i + (m + 1) = i + 1 + m by omega]; exact hp)
              (by rw [show i + (m + 1) = i + 1 + m by omega]; exact hbody)
            rw [show i + (m + 1) + 1 = i + 1 + m + 1 by omega] at this
            exact this)
          h1 hk h
        refine ⟨t, t1, ?_, ?_, ?_, ?_, ?_⟩
        · simp only [List.take_succ_cons, for_each, hb]
          exact ht
        · rw [show i + (k + 1) = i + 1 + k by omega]; exact hp
        · rw [show i + (k + 1) = i + 1 + k by omega]; exact hbt
        · rw [show i + (k + 1) + 1 = i + 1 + k + 1 by omega]; exact hp1
        · rw [show i + (k + 1) + 1 = i + 1 + k + 1 by omega]
          simpa using hrest

/-- A property that every iteration keeps is kept by the loop. -/
theorem for_each_preserves {α σ ε : Type} (body : Nat → α → σ → Except ε σ) (Q : σ → Prop)
    (hq : ∀ k a t t1, Q t → body k a t = .ok t1 → Q t1) :
    ∀ (l : List α) (i : Nat) (s s2 : σ), for_each body i l s = .ok s2 → Q s → Q s2 := by
  intro l
  induction l with
  | nil =>
    intro i s s2 h hs
    simp [for_each] at h
    subst h
    exact hs
  | cons x xs ih =>
    intro i s s2 h hs
    simp only [for_each] at h
    cases hb : body i x s with
    | error e => simp [hb] at h
    | ok s1 =>
      simp only [hb] at h
      exact ih (i + 1) s1 s2 h (hq i x s s1 hs hb)

/-- A completed run of the nested loops, cut at the op `j` of block `i`. -/
theorem for_each_op_at {σ ε : Type}
    (body : Nat → List vcode_op → Nat → vcode_op → σ → Except ε σ)
    (P : Nat → Nat → σ → Prop) (Q : σ → Prop) (blocks : List (List vcode_op)) (s s2 : σ)
    (hstep : ∀ i b j o t t1, blocks[i]? = some b → b[j]? = some o → P i j t →
      body i b j o t = .ok t1 → P i (j + 1) t1)
    (hblock : ∀ i b t, blocks[i]? = some b → P i b.length t → P (i + 1) 0 t)
    (hq : ∀ i b j o t t1, Q t → body i b j o t = .ok t1 → Q t1)
    (h0 : P 0 0 s) (h : for_each_op body blocks s = .ok s2)
    (i : Nat) (b : List vcode_op) (j : Nat) (o : vcode_op)
    (hb : blocks[i]? = some b) (ho : b[j]? = some o) :
    ∃ ta t t1, for_each_op body (blocks.take i) s = .ok ta ∧
      for_each (fun j1 o1 s1 => body i b j1 o1 s1) 0 (b.take j) ta = .ok t ∧
      P i j t ∧ body i b j o t = .ok t1 ∧ (Q t1 → Q s2) := by
  unfold for_each_op at h
  obtain ⟨ta, tb, hta, hpa, hbody, _, hrest⟩ :=
    for_each_split (fun i b s1 => for_each (fun j o s2 => body i b j o s2) 0 b s1)
      (fun i t => P i 0 t) blocks i b 0 s s2
      (fun k b1 t t1 hk hp hb1 => by
        simp only [Nat.zero_add] at hp hb1 ⊢
        have h2 := for_each_inv (fun j o s2 => body k b1 j o s2) (fun j t => P k j t)
          b1 0 t t1
          (fun j o t2 t3 hj hp2 hb2 => by
            simp only [Nat.zero_add] at hp2 hb2 ⊢
            exact hstep k b1 j o t2 t3 hk hj hp2 hb2)
          hp hb1
        simp only [Nat.zero_add] at h2
        exact hblock k b1 t1 hk h2)
      h0 hb h
  simp only [Nat.zero_add] at hta hpa hbody hrest
  obtain ⟨t, t1, ht, hp, hbt, _, hrest2⟩ :=
    for_each_split (fun j o s2 => body i b j o s2) (fun j t => P i j t) b j o 0 ta tb
      (fun m x t2 t3 hm hp2 hb2 => by
        simp only [Nat.zero_add] at hp2 hb2 ⊢
        exact hstep i b m x t2 t3 hb hm hp2 hb2)
      (by simpa using hpa) ho hbody
  simp only [Nat.zero_add] at ht hp hbt hrest2
  refine ⟨ta, t, t1, hta, ht, hp, hbt, ?_⟩
  intro hq1
  have hqb : Q tb :=
    for_each_preserves (fun j o s2 => body i b j o s2) Q
      (fun k a t2 t3 hq2 hb2 => hq i b k a t2 t3 hq2 hb2) _ _ _ _ hrest2 hq1
  exact for_each_preserves
    (fun i b s1 => for_each (fun j o s2 => body i b j o s2) 0 b s1) Q
    (fun k b1 t2 t3 hq2 hb2 =>
      for_each_preserves (fun j o s2 => body k b1 j o s2) Q
        (fun m a t4 t5 hq4 hb4 => hq k b1 m a t4 t5 hq4 hb4) _ _ _ _ hb2 hq2)
    _ _ _ _ hrest hqb

/-- The converse of `previous_op_loop_spec`: the loop of `jit_previous_op`
stops at the nearest preceding op that is not a no-op. -/
theorem previous_op_loop_nearest (b : List vcode_op) (p : Nat) (prev : vcode_op)
    (hp : b[p]? = some prev) (hn : jit_is_no_op prev = false) : ∀ (n : Nat), p < n →
    (∀ q, p < q → q < n → ∃ c, b[q]? = some c ∧ jit_is_no_op c = true) →
    previous_op_loop b n = .ok p := by
  intro n
  induction n with
  | zero => intro h; omega
  | succ n ih =>
    intro hlt hbetween
    simp only [previous_op_loop]
    by_cases hpn : p = n
    · subst hpn
      simp [hp, hn]
    · obtain ⟨c, hc, hno⟩ := hbetween n (by omega) (by omega)
      simp only [hc, hno, if_true]
      exact ih (by omega) (fun q h1 h2 => hbetween q h1 (by omega))

theorem args_effect_cond (i j n : Nat) (r : jit_vcode_reg_t) :
    (args_effect i j n r).flags.cond_input = r.flags.cond_input := by
  unfold args_effect
  split
  · rfl
  · split <;> rfl

/-- The `switch` of `jit_analyse` never clears COND_INPUT. -/
theorem analyse_switch_cond_mono (i : Nat) (b : List vcode_op) (j : Nat) (o : vcode_op)
    (st st1 : jit_state_t) (h : analyse_switch i b j o st = .ok st1) (r : Nat)
    (hc : (st.vcode_regs r).flags.cond_input = true) :
    (st1.vcode_regs r).flags.cond_input = true := by
  rcases analyse_switch_cases i b j o st st1 h with hd | hs | hr | hk
  · rw [analyse_switch_defines i b j o st hd] at h
    split at h
    · cases h
    · simp at h
      subst h
      by_cases hr : r = o.result
      · subst hr; simpa [upd] using hc
      · simpa [upd, hr] using hc
  · rw [analyse_switch_skips i b j o st hs] at h
    simp at h
    subst h
    exact hc
  · rw [analyse_switch_return i b j o st hr] at h
    simp at h
    subst h
    cases ha : o.args with
    | nil => exact hc
    | cons a rest =>
      by_cases hra : r = a
      · subst hra; simpa [upd] using hc
      · simpa [upd, hra] using hc
  · rcases analyse_switch_cond i b j o st st1 hk h with h1 | ⟨input, _, _, _, _, _, _, _, _, _, _, h1⟩
    · subst h1; exact hc
    · subst h1
      by_cases hra : r = input
      · subst hra; simp [upd]
      · simpa [upd, hra] using hc

/-- The body of the op loop of `jit_analyse` never clears COND_INPUT. -/
theorem analyse_op_cond_mono (i : Nat) (b : List vcode_op) (j : Nat) (o : vcode_op)
    (st st2 : jit_state_t) (h : analyse_op i b j o st = .ok st2) (r : Nat)
    (hc : (st.vcode_regs r).flags.cond_input = true) :
    (st2.vcode_regs r).flags.cond_input = true := by
  unfold analyse_op at h
  cases hs : analyse_switch i b j o st with
  | error e => simp [hs] at h
  | ok st1 =>
    simp only [hs] at h
    obtain ⟨heq, _⟩ := analyse_args_eq i j o.args 0 st1 st2 h
    rw [heq]
    simp only [args_effect_cond]
    exact analyse_switch_cond_mono i b j o st st1 hs r hc

/-- The `switch` of `jit_analyse` at a COND that follows the CMP of its
input. -/
theorem analyse_switch_cond_sets (i : Nat) (b : List vcode_op) (j : Nat) (o : vcode_op)
    (st : jit_state_t) (r : Nat) (rest : List Nat) (p : Nat) (prev : vcode_op)
    (hk : o.kind = .VCODE_OP_COND) (ha : o.args = r :: rest)
    (hd : (st.vcode_regs r).defn_block = some i) (hj : 0 < j)
    (hp : jit_previous_op b j = .ok p) (hb : b[p]? = some prev)
    (hkp : prev.kind = .VCODE_OP_CMP) (hres : prev.result = r) :
    analyse_switch i b j o st =
      .ok { st with
        vcode_regs := upd st.vcode_regs r
          { st.vcode_regs r with
            flags := { (st.vcode_regs r).flags with cond_input := true } } } := by
  unfold analyse_switch
  simp [hk, ha, hd, hj, hp, hb, hkp, hres]

theorem cond_event_previous (u : vcode_unit_t) (r i j : Nat) (he : cond_event u r i j) :
    ∃ b o rest p prev, u.blocks[i]? = some b ∧ b[j]? = some o ∧
      o.kind = .VCODE_OP_COND ∧ 0 < j ∧ o.args = r :: rest ∧ p < j ∧
      jit_previous_op b j = .ok p ∧ b[p]? = some prev ∧
      prev.kind = .VCODE_OP_CMP ∧ prev.result = r ∧ defines_result prev = true ∧
      op_at u i p = some prev := by
  obtain ⟨b, o, rest, p, prev, hb, ho, hk, hj, ha, hpj, hp, hnc, hbetween, hkp, hres⟩ := he
  refine ⟨b, o, rest, p, prev, hb, ho, hk, hj, ha, hpj, ?_, hp, hkp, hres,
    by simp [defines_result, hkp], by rw [op_at_eq hb]; exact hp⟩
  unfold jit_previous_op
  simp only [gt_iff_lt, hj, if_true]
  exact previous_op_loop_nearest b p prev hp (by simp [jit_is_no_op, hkp]) j hpj
    (fun q h1 h2 => by
      obtain ⟨c, hc, hkc⟩ := hbetween q h1 h2
      exact ⟨c, hc, by simp [jit_is_no_op, hkc]⟩)

/-- At the position of a marking event for `r`, every earlier use of `r` is
in the block of the event, so `r` still has BLOCK_LOCAL. -/
theorem analyse_inv_event_local (u : vcode_unit_t) (s1 t : jit_state_t) (r i j p : Nat)
    (prev : vcode_op) (inv : analyse_inv u s1 i j t)
    (hs1 : (s1.vcode_regs r).flags.block_local = true)
    (hpj : p < j) (hprev : op_at u i p = some prev) (hd : defines_result prev = true)
    (hres : prev.result = r) :
    (t.vcode_regs r).defn_block = some i ∧ (t.vcode_regs r).flags.block_local = true := by
  have hvis : visited i j i p := Or.inr ⟨rfl, hpj⟩
  have hdef : (t.vcode_regs r).defn_block = some i :=
    (inv.defn r i).2 (Or.inr ⟨p, prev, hvis, hprev, hd, hres⟩)
  refine ⟨hdef, (inv.blk_local r).2 ⟨hs1, ?_⟩⟩
  intro i1 j1 o1 hv ho1 hmem
  obtain ⟨hnone, huniq⟩ := inv.single i p prev hvis hprev hd
  rw [hres] at hnone
  rcases inv.uses i1 j1 o1 r hv ho1 hmem with hne | ⟨d, j2, o2, hv2, ho2, hd2, hr2⟩
  · exact absurd hnone hne
  · have hv3 : visited i j d j2 := by
      simp only [visited] at hv hv2 ⊢
      omega
    obtain ⟨h1, h2⟩ := huniq d j2 o2 hv3 ho2 hd2 (by rw [hr2, hres])
    have : i1 = i := by
      simp only [visited] at hv hv2
      omega
    rw [this]
    exact hdef

/-- The run of `jit_analyse` at a marking event for `r`. -/
theorem cond_event_run (T : target_t) (u : vcode_unit_t) (st s1 s2 : jit_state_t)
    (hinit : for_range (analyse_init T u) 0 u.nregs st = .ok s1)
    (hops : for_each_op analyse_op u.blocks s1 = .ok s2) (r i j : Nat)
    (b : List vcode_op) (o : vcode_op) (he : cond_event u r i j)
    (hb : u.blocks[i]? = some b) (ho : b[j]? = some o) :
    ∃ t, analyse_upto T u i j st = .ok t ∧ analyse_inv u s1 i j t ∧
      (t.vcode_regs r).defn_block = some i ∧
      analyse_switch i b j o t =
        .ok { t with
          vcode_regs := upd t.vcode_regs r
            { t.vcode_regs r with
              flags := { (t.vcode_regs r).flags with cond_input := true } } } ∧
      (s2.vcode_regs r).flags.cond_input = true ∧
      ((s1.vcode_regs r).flags.block_local = true →
        (t.vcode_regs r).flags.block_local = true) := by
  obtain ⟨b1, o1, rest, p, prev, hb1, ho1, hk, hj, ha, hpj, hp, hprev, hkp, hres, hd, hat⟩ :=
    cond_event_previous u r i j he
  rw [hb] at hb1
  simp only [Option.some.injEq] at hb1
  subst hb1
  rw [ho] at ho1
  simp only [Option.some.injEq] at ho1
  subst ho1
  obtain ⟨ta, t, t2, hta, ht, hinv, hbody, hq⟩ :=
    for_each_op_at analyse_op (fun i j s => analyse_inv u s1 i j s)
      (fun s => (s.vcode_regs r).flags.cond_input = true) u.blocks s1 s2
      (fun i b j o t t1 hb ho hp hbody =>
        analyse_inv_step u s1 i b j o t t1 hb ho hp (analyse_op_step i b j o t t1 hbody))
      (fun i b t hb hp => analyse_inv_block u s1 i b t hb hp)
      (fun i b j o t t1 hq hbody => analyse_op_cond_mono i b j o t t1 hbody r hq)
      (analyse_inv_init u s1) hops i b j o hb ho
  have hloc := fun hs1 => analyse_inv_event_local u s1 t r i j p prev hinv hs1 hpj hat hd hres
  have hdef : (t.vcode_regs r).defn_block = some i :=
    (hinv.defn r i).2 (Or.inr ⟨p, prev, Or.inr ⟨rfl, hpj⟩, hat, hd, hres⟩)
  have hsw := analyse_switch_cond_sets i b j o t r rest p prev hk ha hdef hj hp hprev hkp hres
  refine ⟨t, ?_, hinv, hdef, hsw, ?_, fun hs1 => (hloc hs1).2⟩
  · unfold analyse_upto
    simp only [hinit, hta, hb]
    exact ht
  · apply hq
    unfold analyse_op at hbody
    simp only [hsw] at hbody
    obtain ⟨heq, _⟩ := analyse_args_eq i j o.args 0 _ t2 hbody
    rw [heq]
    simp [args_effect_cond, upd]

/-- C15: when `jit_analyse` completes, a register `r` that did not have
COND_INPUT beforehand has it if and only if there is a marking event for `r`:
some block `i` contains a COND at an index `j > 0` whose first argument is
`r`, the nearest preceding non-comment op of `j` is a CMP whose result is
`r`, and `r` is defined in block `i` (which every marking event implies).
Moreover, for a register of the unit, the state in which the op loop reaches
that COND and the state its `switch` case leaves, in which the flag is set,
both have BLOCK_LOCAL on `r`. -/
theorem cond_input_marking (T : target_t) (u : vcode_unit_t) (st s2 : jit_state_t)
    (h : jit_analyse T u st = .ok s2) (r : Nat)
    (hpre : (st.vcode_regs r).flags.cond_input = false) :
    ((s2.vcode_regs r).flags.cond_input = true ↔
      ∃ i j, cond_event u r i j ∧ (s2.vcode_regs r).defn_block = some i) ∧
    (∀ i j, cond_event u r i j → (s2.vcode_regs r).defn_block = some i) ∧
    (r < u.nregs → ∀ i j b o, cond_event u r i j → u.blocks[i]? = some b → b[j]? = some o →
      ∃ t t1, analyse_upto T u i j st = .ok t ∧ analyse_switch i b j o t = .ok t1 ∧
        (t1.vcode_regs r).flags.cond_input = true ∧
        (t.vcode_regs r).flags.block_local = true ∧
        (t1.vcode_regs r).flags.block_local = true) := by
  obtain ⟨s1, hinit, hops⟩ := jit_analyse_split T u st s2 h
  obtain ⟨han, _, _, hcond⟩ := jit_analyse_facts T u st s2 h
  have hdefn : ∀ i j, cond_event u r i j → (s2.vcode_regs r).defn_block = some i := by
    intro i j he
    obtain ⟨b, o, rest, p, prev, hb, ho, hk, hj, ha, hpj, hp, hprev, hkp, hres, hd, hat⟩ :=
      cond_event_previous u r i j he
    have := han.defn i p prev hat hd
    rw [hres] at this
    exact this
  refine ⟨⟨?_, ?_⟩, hdefn, ?_⟩
  · intro hc
    rcases hcond r hc with hold | ⟨i, b, j, o, rest, p, prev, hb, ho, hk, ha, hp, hprev, hkp, hres⟩
    · rw [hpre] at hold
      cases hold
    · unfold jit_previous_op at hp
      by_cases hj : j > 0
      · simp only [hj, if_true] at hp
        obtain ⟨hpj, hbetween⟩ := previous_op_loop_spec b j p hp
        have he : cond_event u r i j :=
          ⟨b, o, rest, p, prev, hb, ho, hk, hj, ha, hpj, hprev, by simp [hkp],
            fun q h1 h2 => by
              obtain ⟨c, hc1, hc2⟩ := hbetween q h1 h2
              exact ⟨c, hc1, by simpa [jit_is_no_op] using hc2⟩,
            hkp, hres⟩
        exact ⟨i, j, he, hdefn i j he⟩
      · simp [hj] at hp
  · rintro ⟨i, j, he, _⟩
    have he2 := he
    obtain ⟨b, o, _, _, _, hb, ho, _⟩ := he2
    obtain ⟨t, _, _, _, _, hset, _⟩ :=
      cond_event_run T u st s1 s2 hinit hops r i j b o he hb ho
    exact hset
  · intro hr i j b o he hb ho
    obtain ⟨t, hupto, hinv, hdef, hsw, _, hloc⟩ :=
      cond_event_run T u st s1 s2 hinit hops r i j b o he hb ho
    have hs1 := analyse_init_reg T u u.nregs st s1 hinit r hr
    refine ⟨t, _, hupto, hsw, by simp [upd], hloc hs1.1, ?_⟩
    simp [upd, hloc hs1.1]

/-- In `unit_cmp_cond` the COND at index 3 of block 0 is a marking event for
`r1`: the COMMENT at index 2 is skipped and the CMP at index 1 defines `r1`. -/
theorem unit_cmp_cond_event : cond_event unit_cmp_cond 1 0 3 :=
  ⟨_, mk_op .VCODE_OP_COND [1] 0, [], 1, mk_op .VCODE_OP_CMP [0, 0] 1, rfl, rfl, rfl,
    by decide, rfl, by decide, rfl, by decide,
    fun q h1 h2 => by
      have : q = 2 := by omega
      subst this
      exact ⟨_, rfl, rfl⟩,
    rfl, rfl⟩

/-- Witness of C15 on `unit_cmp_cond`, for `r1`. -/
theorem cond_input_marking_witness :
    (jit_analyse target_lp64 unit_cmp_cond (zero_state [])
        = .ok (analysed_state target_lp64 unit_cmp_cond (zero_state [])) ∧
      ((zero_state []).vcode_regs 1).flags.cond_input = false ∧
      cond_event unit_cmp_cond 1 0 3 ∧ 1 < unit_cmp_cond.nregs) ∧
    ((analysed_state target_lp64 unit_cmp_cond (zero_state [])).vcode_regs 1).flags.cond_input
      = true ∧
    ((analysed_state target_lp64 unit_cmp_cond (zero_state [])).vcode_regs 1).defn_block
      = some 0 ∧
    ∃ t t1, analyse_upto target_lp64 unit_cmp_cond 0 3 (zero_state []) = .ok t ∧
      analyse_switch 0
        [mk_op .VCODE_OP_CONST [] 0, mk_op .VCODE_OP_CMP [0, 0] 1,
         mk_op .VCODE_OP_COMMENT [] 0, mk_op .VCODE_OP_COND [1] 0]
        3 (mk_op .VCODE_OP_COND [1] 0) t = .ok t1 ∧
      (t1.vcode_regs 1).flags.cond_input = true ∧
      (t.vcode_regs 1).flags.block_local = true ∧
      (t1.vcode_regs 1).flags.block_local = true :=
  ⟨⟨rfl, rfl, unit_cmp_cond_event, by decide⟩,
   (cond_input_marking target_lp64 unit_cmp_cond (zero_state []) _ rfl 1 rfl).1.2
     ⟨0, 3, unit_cmp_cond_event,
      (cond_input_marking target_lp64 unit_cmp_cond (zero_state []) _ rfl 1 rfl).2.1 0 3
        unit_cmp_cond_event⟩,
   (cond_input_marking target_lp64 unit_cmp_cond (zero_state []) _ rfl 1 rfl).2.1 0 3
     unit_cmp_cond_event,
   (cond_input_marking target_lp64 unit_cmp_cond (zero_state []) _ rfl 1 rfl).2.2
     (by decide) 0 3 _ _ unit_cmp_cond_event rfl rfl⟩

/-! ## The bytecode wire format (C21, C22) -/

/-- C22: the numeric values of `Bytecode::OpCode` are those of the spec's
table; the map from opcode to byte is injective, so the first byte of an
instruction determines its kind; every value fits a byte; and no opcode has
the value 0x0c or 0x0d. -/
theorem opcode_wire_format :
    (Bytecode.OpCode.NOP.value = 0x00 ∧ Bytecode.OpCode.MOVW.value = 0x01 ∧
      Bytecode.OpCode.RET.value = 0x02 ∧ Bytecode.OpCode.ADD.value = 0x03 ∧
      Bytecode.OpCode.MOV.value = 0x04 ∧ Bytecode.OpCode.ADDW.value = 0x05 ∧
      Bytecode.OpCode.STR.value = 0x06 ∧ Bytecode.OpCode.LDR.value = 0x07 ∧
      Bytecode.OpCode.MUL.value = 0x08 ∧ Bytecode.OpCode.CMP.value = 0x09 ∧
      Bytecode.OpCode.CSET.value = 0x0a ∧ Bytecode.OpCode.JMP.value = 0x0b ∧
      Bytecode.OpCode.MOVB.value = 0x0e ∧ Bytecode.OpCode.ADDB.value = 0x0f ∧
      Bytecode.OpCode.JMPC.value = 0x10 ∧ Bytecode.OpCode.SUB.value = 0x11 ∧
      Bytecode.OpCode.ANDB.value = 0x12 ∧ Bytecode.OpCode.ANDW.value = 0x13 ∧
      Bytecode.OpCode.TESTB.value = 0x14 ∧ Bytecode.OpCode.TESTW.value = 0x15 ∧
      Bytecode.OpCode.MULB.value = 0x16 ∧ Bytecode.OpCode.MULW.value = 0x17) ∧
    (∀ c, c ∈ Bytecode.OpCode.all) ∧ Bytecode.OpCode.all.length = 22 ∧
    (∀ c d : Bytecode.OpCode, c.value = d.value → c = d) ∧
    (∀ c : Bytecode.OpCode, c.value < 256 ∧ c.value ≠ 0x0c ∧ c.value ≠ 0x0d) := by
  refine ⟨by decide, ?_, rfl, ?_, ?_⟩
  · intro c; cases c <;> decide
  · intro c d h
    cases c <;> cases d <;> first | rfl | (simp [Bytecode.OpCode.value] at h)
  · intro c; cases c <;> decide

theorem opcode_value_lt (c : Bytecode.OpCode) : c.value % 256 = c.value := by
  cases c <;> decide

theorem to_u8_lt (x : Int) : to_u8 x < 256 := by
  unfold to_u8
  have h1 : 0 ≤ x % 256 := Int.emod_nonneg x (by decide)
  have h2 : x % 256 < 256 := Int.emod_lt_of_pos x (by decide)
  omega

theorem sign_extend_8_to_u8 (value : Int) (h : fits_byte value) :
    sign_extend_8 (to_u8 value) = value := by
  obtain ⟨h1, h2⟩ := h
  unfold sign_extend_8 to_u8
  have h3 : 0 ≤ value % 256 := Int.emod_nonneg value (by decide)
  have h4 : value % 256 < 256 := Int.emod_lt_of_pos value (by decide)
  split <;> omega

/-- The bytes of a dual-form op: the narrow form. -/
theorem emit_dual_narrow (a : Bytecode.Assembler) (narrow wide : Bytecode.OpCode)
    (dst : Bytecode.Register) (value : Int) (h : fits_byte value) :
    (a.emit_dual narrow wide dst value).bytes_
      = a.bytes_ ++ [narrow.value, to_u8 dst.num, to_u8 value] := by
  have h1 : -128 ≤ value ∧ value ≤ 127 := h
  have hr := Nat.mod_eq_of_lt (to_u8_lt dst.num)
  have hv := Nat.mod_eq_of_lt (to_u8_lt value)
  simp [Bytecode.Assembler.emit_dual, h1, Bytecode.Assembler.emit_u8,
    Bytecode.Assembler.emit_reg, opcode_value_lt, hr, hv]

/-- The bytes of a dual-form op: the wide form. -/
theorem emit_dual_wide (a : Bytecode.Assembler) (narrow wide : Bytecode.OpCode)
    (dst : Bytecode.Register) (value : Int) (h : ¬ fits_byte value) :
    (a.emit_dual narrow wide dst value).bytes_
      = a.bytes_ ++ [wide.value, to_u8 dst.num,
          (value % 2 ^ 32).toNat % 256, (value % 2 ^ 32).toNat / 2 ^ 8 % 256,
          (value % 2 ^ 32).toNat / 2 ^ 16 % 256, (value % 2 ^ 32).toNat / 2 ^ 24 % 256] := by
  have h1 : ¬ (-128 ≤ value ∧ value ≤ 127) := h
  have hr := Nat.mod_eq_of_lt (to_u8_lt dst.num)
  simp [Bytecode.Assembler.emit_dual, h1, Bytecode.Assembler.emit_u8,
    Bytecode.Assembler.emit_reg, Bytecode.Assembler.emit_i32, opcode_value_lt, hr]

/-- The 4 bytes of a `W` immediate hold the value modulo 2^32, and are read
back as the value when it fits 32 bits. -/
theorem emit_i32_bytes (value : Int) :
    (((value % 2 ^ 32).toNat % 256 + 2 ^ 8 * ((value % 2 ^ 32).toNat / 2 ^ 8 % 256)
        + 2 ^ 16 * ((value % 2 ^ 32).toNat / 2 ^ 16 % 256)
        + 2 ^ 24 * ((value % 2 ^ 32).toNat / 2 ^ 24 % 256) : Nat) : Int) = value % 2 ^ 32 ∧
    (-2 ^ 31 ≤ value → value < 2 ^ 31 →
      read_i32 ((value % 2 ^ 32).toNat % 256) ((value % 2 ^ 32).toNat / 2 ^ 8 % 256)
        ((value % 2 ^ 32).toNat / 2 ^ 16 % 256) ((value % 2 ^ 32).toNat / 2 ^ 24 % 256)
        = value) := by
  have h1 : 0 ≤ value % 2 ^ 32 := Int.emod_nonneg value (by norm_num)
  have h2 : value % 2 ^ 32 < 2 ^ 32 := Int.emod_lt_of_pos value (by norm_num)
  generalize hv : (value % 2 ^ 32).toNat = v
  have hvi : (v : Int) = value % 2 ^ 32 := by rw [← hv]; exact Int.toNat_of_nonneg h1
  have hlt : v < 2 ^ 32 := by
    have : (v : Int) < 2 ^ 32 := by rw [hvi]; exact h2
    exact_mod_cast this
  have hsum : v % 256 + 2 ^ 8 * (v / 2 ^ 8 % 256) + 2 ^ 16 * (v / 2 ^ 16 % 256)
      + 2 ^ 24 * (v / 2 ^ 24 % 256) = v := by
    norm_num at hlt ⊢
    omega
  refine ⟨by rw [hsum]; exact hvi, ?_⟩
  intro hlo hhi
  unfold read_i32
  simp only [hsum]
  have hem : value % 2 ^ 32 = if 0 ≤ value then value else value + 2 ^ 32 := by
    split
    · exact Int.emod_eq_of_lt (by assumption) (by omega)
    · rw [← Int.add_emod_self]
      exact Int.emod_eq_of_lt (by omega) (by omega)
  split at hem <;> split <;> norm_num at * <;> omega

/-- C21: for every register and every value, `mov(r, v)` appends the 3-byte
form `MOVB, r, v` (one byte, which sign-extends back to `v`) if
`-128 <= v <= 127`, and otherwise the 6-byte form `MOVW, r, v` with `v` as 4
little-endian bytes (holding `v` modulo 2^32, read back as `v` when `v` fits
32 bits); the same narrow-iff-fits-a-byte rule holds for `add`
(ADDB/ADDW), `andr` (ANDB/ANDW), `test` (TESTB/TESTW) and `mul`
(MULB/MULW); `mov R3, 5; ret` is `0E 03 05 02` and `mov R0, 1000; ret` is
`01 00 E8 03 00 00 02`. -/
theorem assembler_width_selection (a : Bytecode.Assembler) (dst : Bytecode.Register)
    (value : Int) :
    (fits_byte value →
      sign_extend_8 (to_u8 value) = value ∧
      (a.mov_imm dst value).bytes_
        = a.bytes_ ++ [Bytecode.OpCode.MOVB.value, to_u8 dst.num, to_u8 value] ∧
      (a.add_imm dst value).bytes_
        = a.bytes_ ++ [Bytecode.OpCode.ADDB.value, to_u8 dst.num, to_u8 value] ∧
      (a.andr dst value).bytes_
        = a.bytes_ ++ [Bytecode.OpCode.ANDB.value, to_u8 dst.num, to_u8 value] ∧
      (a.test dst value).bytes_
        = a.bytes_ ++ [Bytecode.OpCode.TESTB.value, to_u8 dst.num, to_u8 value] ∧
      (a.mul_imm dst value).bytes_
        = a.bytes_ ++ [Bytecode.OpCode.MULB.value, to_u8 dst.num, to_u8 value]) ∧
    (¬ fits_byte value →
      ∃ b0 b1 b2 b3 : Nat, b0 < 256 ∧ b1 < 256 ∧ b2 < 256 ∧ b3 < 256 ∧
        ((b0 + 2 ^ 8 * b1 + 2 ^ 16 * b2 + 2 ^ 24 * b3 : Nat) : Int) = value % 2 ^ 32 ∧
        (-2 ^ 31 ≤ value → value < 2 ^ 31 → read_i32 b0 b1 b2 b3 = value) ∧
        (a.mov_imm dst value).bytes_
          = a.bytes_ ++ [Bytecode.OpCode.MOVW.value, to_u8 dst.num, b0, b1, b2, b3] ∧
        (a.add_imm dst value).bytes_
          = a.bytes_ ++ [Bytecode.OpCode.ADDW.value, to_u8 dst.num, b0, b1, b2, b3] ∧
        (a.andr dst value).bytes_
          = a.bytes_ ++ [Bytecode.OpCode.ANDW.value, to_u8 dst.num, b0, b1, b2, b3] ∧
        (a.test dst value).bytes_
          = a.bytes_ ++ [Bytecode.OpCode.TESTW.value, to_u8 dst.num, b0, b1, b2, b3] ∧
        (a.mul_imm dst value).bytes_
          = a.bytes_ ++ [Bytecode.OpCode.MULW.value, to_u8 dst.num, b0, b1, b2, b3]) ∧
    ((Bytecode.Assembler.empty.mov_imm (Bytecode.R 3) 5).ret).bytes_
      = [0x0E, 0x03, 0x05, 0x02] ∧
    ((Bytecode.Assembler.empty.mov_imm (Bytecode.R 0) 1000).ret).bytes_
      = [0x01, 0x00, 0xE8, 0x03, 0x00, 0x00, 0x02] := by
  refine ⟨?_, ?_, by decide, by decide⟩
  · intro h
    exact ⟨sign_extend_8_to_u8 value h, emit_dual_narrow a _ _ dst value h,
      emit_dual_narrow a _ _ dst value h, emit_dual_narrow a _ _ dst value h,
      emit_dual_narrow a _ _ dst value h, emit_dual_narrow a _ _ dst value h⟩
  · intro h
    obtain ⟨hsum, hread⟩ := emit_i32_bytes value
    exact ⟨_, _, _, _, Nat.mod_lt _ (by decide), Nat.mod_lt _ (by decide),
      Nat.mod_lt _ (by decide), Nat.mod_lt _ (by decide), hsum, hread,
      emit_dual_wide a _ _ dst value h, emit_dual_wide a _ _ dst value h,
      emit_dual_wide a _ _ dst value h, emit_dual_wide a _ _ dst value h,
      emit_dual_wide a _ _ dst value h⟩

/-- Witness of C21: `mov R3, 5` takes the narrow form and `mov R0, 1000` the
wide form. -/
theorem assembler_width_selection_witness :
    (fits_byte 5 ∧ ¬ fits_byte 1000) ∧
    (Bytecode.Assembler.empty.mov_imm (Bytecode.R 3) 5).bytes_
      = Bytecode.Assembler.empty.bytes_
        ++ [Bytecode.OpCode.MOVB.value, to_u8 (Bytecode.R 3).num, to_u8 5] ∧
    ∃ b0 b1 b2 b3 : Nat, b0 < 256 ∧ b1 < 256 ∧ b2 < 256 ∧ b3 < 256 ∧
      ((b0 + 2 ^ 8 * b1 + 2 ^ 16 * b2 + 2 ^ 24 * b3 : Nat) : Int) = 1000 % 2 ^ 32 ∧
      (Bytecode.Assembler.empty.mov_imm (Bytecode.R 0) 1000).bytes_
        = Bytecode.Assembler.empty.bytes_
          ++ [Bytecode.OpCode.MOVW.value, to_u8 (Bytecode.R 0).num, b0, b1, b2, b3] :=
  ⟨⟨by decide, by decide⟩,
   ((assembler_width_selection Bytecode.Assembler.empty (Bytecode.R 3) 5).1
      (by decide)).2.1,
   match (assembler_width_selection Bytecode.Assembler.empty (Bytecode.R 0) 1000).2.1
      (by decide) with
   | ⟨b0, b1, b2, b3, h0, h1, h2, h3, hs, _, hm, _⟩ =>
     ⟨b0, b1, b2, b3, h0, h1, h2, h3, hs, hm⟩⟩

/-! ## Sizes and alignment (C23, C24) -/

/-- C23: for every size of at least 1 and every `ptr`, with
`a = min(size, sizeof(void *))`, `jit_align_object(size, ptr)` is the least
padding `p` such that `ptr + p` is a multiple of `a`: `a` divides `ptr + p`,
`p < a`, no smaller padding does, and `p = 0` exactly when `ptr` is already
a multiple of `a`. -/
theorem jit_align_object_least (size ptr : Nat) (h : 1 ≤ size) :
    min size sizeof_ptr ∣ ptr + jit_align_object size ptr ∧
    jit_align_object size ptr < min size sizeof_ptr ∧
    (∀ q, min size sizeof_ptr ∣ ptr + q → jit_align_object size ptr ≤ q) ∧
    (jit_align_object size ptr = 0 ↔ min size sizeof_ptr ∣ ptr) ∧
    sizeof_ptr = 8 := by
  obtain ⟨hlt, hdvd⟩ := jit_align_object_spec size ptr h
  refine ⟨hdvd, hlt, ?_, ?_, rfl⟩
  · intro q hq
    by_contra hcon
    have hqlt : q < jit_align_object size ptr := by omega
    obtain ⟨k1, hk1⟩ := hdvd
    obtain ⟨k2, hk2⟩ := hq
    have hdiff : jit_align_object size ptr - q
        = min size sizeof_ptr * k1 - min size sizeof_ptr * k2 := by omega
    rw [← Nat.mul_sub] at hdiff
    have hpos : 0 < k1 - k2 := by
      rcases Nat.eq_zero_or_pos (k1 - k2) with h0 | h0
      · rw [h0] at hdiff; omega
      · exact h0
    have : min size sizeof_ptr ≤ min size sizeof_ptr * (k1 - k2) :=
      Nat.le_mul_of_pos_right _ hpos
    omega
  · constructor
    · intro h0
      rw [h0] at hdvd
      simpa using hdvd
    · intro hd
      obtain ⟨k1, hk1⟩ := hdvd
      obtain ⟨k2, hk2⟩ := hd
      have hdiff : jit_align_object size ptr
          = min size sizeof_ptr * k1 - min size sizeof_ptr * k2 := by omega
      rw [← Nat.mul_sub] at hdiff
      rcases Nat.eq_zero_or_pos (k1 - k2) with h0 | h0
      · rw [h0] at hdiff; omega
      · have : min size sizeof_ptr ≤ min size sizeof_ptr * (k1 - k2) :=
          Nat.le_mul_of_pos_right _ h0
        omega

/-- Witness of C23: an object of 4 bytes at frame size 5 is padded by 3. -/
theorem jit_align_object_least_witness :
    (1 : Nat) ≤ 4 ∧ jit_align_object 4 5 = 3 ∧
    min 4 sizeof_ptr ∣ 5 + jit_align_object 4 5 ∧
    jit_align_object 4 5 < min 4 sizeof_ptr :=
  ⟨by decide, by decide, (jit_align_object_least 4 5 (by decide)).1,
    (jit_align_object_least 4 5 (by decide)).2.1⟩

/-- The size of an INT type whose range `high - low` fits `int64_t`: the
smallest of the widths 1, 2, 4, 8 with `high - low < 256 ^ w`. -/
theorem jit_size_of_int_exact (T : target_t) (t : vcode_type_t)
    (hk : t.kind = .VCODE_TYPE_INT) (hle : t.low ≤ t.high)
    (hfit : t.high - t.low < 2 ^ 63) :
    ∃ w, jit_size_of T t = .ok w ∧ w ∈ int_widths ∧ t.high - t.low < 256 ^ w ∧
      ∀ w1, w1 ∈ int_widths → w1 < w → ¬ t.high - t.low < 256 ^ w1 := by
  have hw : wrap_i64 (t.high - t.low) = t.high - t.low := by
    unfold wrap_i64
    rw [Int.emod_eq_of_lt (by omega) (by omega)]
    omega
  unfold jit_size_of
  simp only [hk, hw]
  by_cases h1 : t.high - t.low ≤ 255
  · refine ⟨1, by simp [h1], by simp [int_widths], by omega, ?_⟩
    intro w1 hw1 hlt
    simp [int_widths] at hw1
    omega
  · by_cases h2 : t.high - t.low ≤ 65535
    · refine ⟨2, by simp [h1, h2], by simp [int_widths], by norm_num; omega, ?_⟩
      intro w1 hw1 hlt
      simp [int_widths] at hw1
      rcases hw1 with rfl | rfl | rfl | rfl <;> norm_num at hlt ⊢
      omega
    · by_cases h3 : t.high - t.low ≤ 4294967295
      · refine ⟨4, by simp [h1, h2, h3], by simp [int_widths], by norm_num; omega, ?_⟩
        intro w1 hw1 hlt
        simp [int_widths] at hw1
        rcases hw1 with rfl | rfl | rfl | rfl <;> norm_num at hlt ⊢ <;> omega
      · refine ⟨8, by simp [h1, h2, h3], by simp [int_widths], by norm_num; omega, ?_⟩
        intro w1 hw1 hlt
        simp [int_widths] at hw1
        rcases hw1 with rfl | rfl | rfl | rfl <;> norm_num at hlt ⊢ <;> omega

/-- C24 fails on the code: for the INT type with the bounds of `int64_t`,
`high - low = 2^64 - 1` does not fit `int64_t`; the subtraction wraps to -1,
which passes `range <= UINT8_MAX`, and `jit_size_of` returns 1, although
`high - low < 256 ^ 1` is false and the width that holds the range is 8.
OFFSET types have size 4 and POINTER types the pointer size. -/
theorem jit_size_of_range_overflow :
    type_i64.low ≤ type_i64.high ∧
    wrap_i64 (type_i64.high - type_i64.low) = -1 ∧
    jit_size_of target_lp64 type_i64 = .ok 1 ∧
    ¬ type_i64.high - type_i64.low < 256 ^ 1 ∧
    (∀ w, w ∈ int_widths → (type_i64.high - type_i64.low < 256 ^ w ↔ w = 8)) ∧
    jit_size_of target_lp64 { kind := .VCODE_TYPE_OFFSET, low := 0, high := 0 } = .ok 4 ∧
    jit_size_of target_lp64 type_ptr = .ok sizeof_ptr := by
  refine ⟨by decide, by decide, rfl, by decide, ?_, rfl, rfl⟩
  intro w hw
  simp [int_widths] at hw
  rcases hw with rfl | rfl | rfl | rfl <;> decide

/-! ## Previous-op lookup (C26) -/

/-- When some op before `op` is not a COMMENT, `jit_previous_op(op)` returns
the largest index below `op` whose op is not a COMMENT. -/
theorem jit_previous_op_nearest (b : List vcode_op) (op p : Nat) (prev : vcode_op)
    (hp : b[p]? = some prev) (hlt : p < op) (hk : prev.kind ≠ .VCODE_OP_COMMENT)
    (hmax : ∀ q c, p < q → q < op → b[q]? = some c → c.kind = .VCODE_OP_COMMENT)
    (hop : op ≤ b.length) :
    jit_previous_op b op = .ok p := by
  unfold jit_previous_op
  have : op > 0 := by omega
  simp only [this, if_true]
  refine previous_op_loop_nearest b p prev hp (by simp [jit_is_no_op, hk]) op hlt ?_
  intro q h1 h2
  have hq : q < b.length := by omega
  refine ⟨b[q], by simp [hq], ?_⟩
  have := hmax q b[q] h1 h2 (by simp [hq])
  simp [jit_is_no_op, this]

/-- C26 fails on the code: in block 0 of `unit_comment_cond` every op before
the COND at index 1 is a COMMENT; `jit_previous_op(1)` steps to index 0, a
COMMENT, then to -1, which passes `op < nops` and is handed to
`vcode_get_op`, outside `[0, count_ops)`. `jit_analyse` reaches that call
when the input `r0` of the COND is a parameter. -/
theorem jit_previous_op_leaves_block :
    op_at unit_comment_cond 0 1 = some (mk_op .VCODE_OP_COND [0] 0) ∧
    (∀ q, q < 1 → ∃ c, op_at unit_comment_cond 0 q = some c ∧ c.kind = .VCODE_OP_COMMENT) ∧
    exit_of (jit_previous_op
      [mk_op .VCODE_OP_COMMENT [] 0, mk_op .VCODE_OP_COND [0] 0] 1)
      = some .vcode_op_out_of_range ∧
    (state_param0.vcode_regs 0).flags.parameter = true ∧
    exit_of (jit_analyse target_lp64 unit_comment_cond state_param0)
      = some .vcode_op_out_of_range := by
  refine ⟨rfl, ?_, by decide, rfl, by decide⟩
  intro q hq
  have : q = 0 := by omega
  subst this
  exact ⟨_, rfl, rfl⟩

/-! ## Pass B: liveness data (C25) -/

theorem block_uses_append (b1 b2 : List vcode_op) (r : Nat) :
    block_uses (b1 ++ b2) r = block_uses b1 r + block_uses b2 r := by
  simp [block_uses]

theorem block_uses_take_succ (b : List vcode_op) (j : Nat) (o : vcode_op) (r : Nat)
    (ho : b[j]? = some o) :
    block_uses (b.take (j + 1)) r = block_uses (b.take j) r + o.args.count r := by
  have hj : j < b.length := by
    by_contra hcon
    rw [List.getElem?_eq_none (by omega)] at ho
    cases ho
  have : b.take (j + 1) = b.take j ++ [o] := by
    rw [List.take_succ, ho]
    rfl
  rw [this, block_uses_append]
  simp [block_uses]

theorem block_uses_eq_zero (b : List vcode_op) (r : Nat)
    (h : ∀ (j : Nat) (o : vcode_op), b[j]? = some o → r ∉ o.args) : block_uses b r = 0 := by
  unfold block_uses
  apply List.sum_eq_zero
  intro x hx
  simp only [List.mem_map] at hx
  obtain ⟨o, ho, rfl⟩ := hx
  obtain ⟨j, hj, hget⟩ := List.mem_iff_getElem.1 ho
  have : b[j]? = some o := by simp [hj, hget]
  exact List.count_eq_zero.2 (h j o this)

theorem block_of_eq {u : vcode_unit_t} {i : Nat} {b : List vcode_op}
    (hb : u.blocks[i]? = some b) : block_of u i = b := by
  simp [block_of, hb]

theorem uses_upto_succ (u : vcode_unit_t) (r d i j : Nat) (b : List vcode_op) (o : vcode_op)
    (hb : u.blocks[i]? = some b) (ho : b[j]? = some o) :
    uses_upto u r d i (j + 1) = uses_upto u r d i j + (if d = i then o.args.count r else 0) := by
  unfold uses_upto
  by_cases h1 : d < i
  · have : d ≠ i := by omega
    simp [h1, this]
  · by_cases h2 : d = i
    · subst h2
      simp only [h1, if_false, if_true, block_of_eq hb]
      exact block_uses_take_succ b j o r ho
    · simp [h1, h2]

theorem uses_upto_next_block (u : vcode_unit_t) (r d i : Nat) (b : List vcode_op)
    (hb : u.blocks[i]? = some b) :
    uses_upto u r d (i + 1) 0 = uses_upto u r d i b.length := by
  unfold uses_upto
  by_cases h1 : d < i
  · have : d < i + 1 := by omega
    simp [h1, this]
  · by_cases h2 : d = i
    · subst h2
      simp [block_of_eq hb]
    · have h3 : ¬ d < i + 1 := by omega
      simp [h1, h2, h3, block_uses]

/-- A register that has no definition yet has not been used yet. -/
theorem analyse_inv_undefined_unused (u : vcode_unit_t) (s1 st : jit_state_t) (i j r : Nat)
    (inv : analyse_inv u s1 i j st) (hnone : (st.vcode_regs r).defn_block = none)
    (i1 j1 : Nat) (o1 : vcode_op) (hv : visited i j i1 j1) (ho : op_at u i1 j1 = some o1) :
    r ∉ o1.args := by
  intro hmem
  rcases inv.uses i1 j1 o1 r hv ho hmem with hne | ⟨d, j2, o2, hv2, ho2, hd2, hr2⟩
  · cases hs : (s1.vcode_regs r).defn_block with
    | none => exact hne hs
    | some d =>
      have := (inv.defn r d).2 (Or.inl hs)
      rw [hnone] at this
      cases this
  · have hv3 : visited i j d j2 := by
      simp only [visited] at hv hv2 ⊢
      omega
    have := (inv.defn r d).2 (Or.inr ⟨j2, o2, hv3, ho2, hd2, hr2⟩)
    rw [hnone] at this
    cases this

/-- What the body of the op loop of `jit_analyse` does to `use_count`. -/
theorem analyse_op_use_count (i : Nat) (b : List vcode_op) (j : Nat) (o : vcode_op)
    (st st2 : jit_state_t) (h : analyse_op i b j o st = .ok st2) (r : Nat) :
    (st2.vcode_regs r).use_count = (st.vcode_regs r).use_count
      + (if (st2.vcode_regs r).defn_block = some i then o.args.count r else 0) := by
  unfold analyse_op at h
  cases hs : analyse_switch i b j o st with
  | error e => simp [hs] at h
  | ok st1 =>
    simp only [hs] at h
    have sw := analyse_switch_facts i b j o st st1 hs
    obtain ⟨heq, _⟩ := analyse_args_eq i j o.args 0 st1 st2 h
    have hreg : st2.vcode_regs r
        = args_effect i j (o.args.count r) (st1.vcode_regs r) := by rw [heq]
    obtain ⟨_, _, _, _, k5, _, _⟩ := sw.keep r
    rw [hreg, args_effect_defn, ← k5]
    unfold args_effect
    by_cases hc : o.args.count r = 0
    · simp [hc]
    · by_cases hdi : (st1.vcode_regs r).defn_block = some i
      · simp [hc, hdi]
      · simp [hc, hdi]

theorem live_inv_init (u : vcode_unit_t) (s1 : jit_state_t) : live_inv u s1 0 0 s1 := by
  refine ⟨fun r _ => ⟨rfl, rfl⟩, ?_, ?_⟩
  · intro r d _
    unfold uses_upto
    by_cases hd : d = 0
    · subst hd; simp [block_uses]
    · simp [hd]
  · intro r d _ j1 o1 hv
    simp [visited] at hv

theorem live_inv_block (u : vcode_unit_t) (s1 : jit_state_t) (i : Nat) (b : List vcode_op)
    (st : jit_state_t) (hb : u.blocks[i]? = some b) (linv : live_inv u s1 i b.length st) :
    live_inv u s1 (i + 1) 0 st := by
  refine ⟨linv.undefined, ?_, ?_⟩
  · intro r d hd
    rw [uses_upto_next_block u r d i b hb]
    exact linv.count r d hd
  · intro r d hd j1 o1 hv ho1 hmem
    obtain ⟨h1, h2, o, h3, h4⟩ :=
      linv.last r d hd j1 o1 ((visited_next_block hb ho1).1 hv) ho1 hmem
    exact ⟨h1, (visited_next_block hb h3).2 h2, o, h3, h4⟩

theorem live_inv_step (u : vcode_unit_t) (s1 : jit_state_t) (i : Nat) (b : List vcode_op)
    (j : Nat) (o : vcode_op) (st st1 : jit_state_t)
    (hb : u.blocks[i]? = some b) (ho : b[j]? = some o)
    (inv : analyse_inv u s1 i j st) (linv : live_inv u s1 i j st)
    (hop : analyse_op i b j o st = .ok st1) :
    live_inv u s1 i (j + 1) st1 := by
  have step := analyse_op_step i b j o st st1 hop
  have hat : op_at u i j = some o := by rw [op_at_eq hb]; exact ho
  have hunused : ∀ r, (st.vcode_regs r).defn_block = none →
      ∀ (j1 : Nat) (o1 : vcode_op) (d : Nat), visited i j d j1 → op_at u d j1 = some o1 →
        r ∉ o1.args :=
    fun r hn j1 o1 d hv ho1 => analyse_inv_undefined_unused u s1 st i j r inv hn d j1 o1 hv ho1
  refine ⟨?_, ?_, ?_⟩
  · intro r hnone
    have hdef := step.defn r
    rw [hnone] at hdef
    have hold : (st.vcode_regs r).defn_block = none := by
      by_cases hc : defines_result o = true ∧ r = o.result
      · rw [if_pos hc] at hdef; cases hdef
      · rw [if_neg hc] at hdef
        exact hdef.symm
    have hnot : r ∉ o.args := fun hm => step.args_defined r hm hnone
    have huc := analyse_op_use_count i b j o st st1 hop r
    have hlt := step.lifetime r
    simp only [hnone] at huc
    simp only [hnot, false_and, if_false] at hlt
    obtain ⟨h1, h2⟩ := linv.undefined r hold
    exact ⟨by simpa [h1] using huc, by rw [hlt, h2]⟩
  · intro r d hd
    have hdef := step.defn r
    have huc := analyse_op_use_count i b j o st st1 hop r
    rw [uses_upto_succ u r d i j b o hb ho]
    by_cases hc : defines_result o = true ∧ r = o.result
    · rw [if_pos hc, hd] at hdef
      simp only [Option.some.injEq] at hdef
      subst hdef
      have hold : (st.vcode_regs r).defn_block = none := by
        rw [hc.2]; exact step.fresh hc.1
      obtain ⟨h1, _⟩ := linv.undefined r hold
      have hzero : uses_upto u r d d j = 0 := by
        unfold uses_upto
        simp only [Nat.lt_irrefl, if_false, if_true, block_of_eq hb]
        apply block_uses_eq_zero
        intro j1 o1 hget
        have hj1 : j1 < j ∧ b[j1]? = some o1 := by
          rw [List.getElem?_take] at hget
          by_cases hlt : j1 < j
          · simp only [hlt, if_true] at hget
            exact ⟨hlt, hget⟩
          · simp [hlt] at hget
        exact hunused r hold j1 o1 d (Or.inr ⟨rfl, hj1.1⟩) (by rw [op_at_eq hb]; exact hj1.2)
      rw [huc, hd, h1, hzero]
      simp
    · rw [if_neg hc, hd] at hdef
      have := linv.count r d hdef.symm
      rw [huc, hd, this]
      by_cases hdi : d = i
      · subst hdi; simp; omega
      · simp [hdi]
  · intro r d hd j1 o1 hv ho1 hmem
    have hdef := step.defn r
    have hlt := step.lifetime r
    by_cases hcase : r ∈ o.args ∧ d = i
    · obtain ⟨hin, hdi⟩ := hcase
      subst hdi
      simp only [hin, hd, and_self, if_true] at hlt
      rw [hlt]
      refine ⟨?_, (visited_succ d j d j).2 (Or.inr ⟨rfl, rfl⟩), o, hat, hin⟩
      simp only [visited] at hv
      omega
    · have hlt2 : (st1.vcode_regs r).lifetime = (st.vcode_regs r).lifetime := by
        rw [hlt, hd]
        by_cases hin : r ∈ o.args
        · have : d ≠ i := fun hdi => hcase ⟨hin, hdi⟩
          simp [hin, this]
        · simp [hin]
      have hv1 : visited i j d j1 := by
        rcases (visited_succ i j d j1).1 hv with h1 | ⟨h1, h2⟩
        · exact h1
        · exfalso
          subst h1; subst h2
          rw [hat] at ho1
          simp only [Option.some.injEq] at ho1
          subst ho1
          exact hcase ⟨hmem, rfl⟩
      have hold : (st.vcode_regs r).defn_block = some d := by
        by_cases hc : defines_result o = true ∧ r = o.result
        · exfalso
          have hn : (st.vcode_regs r).defn_block = none := by
            rw [hc.2]; exact step.fresh hc.1
          exact hunused r hn j1 o1 d hv1 ho1 hmem
        · rw [if_neg hc] at hdef
          rw [← hdef]; exact hd
      obtain ⟨h1, h2, o2, h3, h4⟩ := linv.last r d hold j1 o1 hv1 ho1 hmem
      rw [hlt2]
      exact ⟨h1, (visited_succ i j d _).2 (Or.inl h2), o2, h3, h4⟩

/-- The liveness invariant holds when the op loop of `jit_analyse` ends. -/
theorem analyse_ops_live (u : vcode_unit_t) (s1 s2 : jit_state_t)
    (h : for_each_op analyse_op u.blocks s1 = .ok s2) :
    live_inv u s1 u.blocks.length 0 s2 :=
  (for_each_op_inv analyse_op
    (fun i j s => analyse_inv u s1 i j s ∧ live_inv u s1 i j s) u.blocks s1 s2
    (fun i b j o t t1 hb ho hp hbody =>
      ⟨analyse_inv_step u s1 i b j o t t1 hb ho hp.1 (analyse_op_step i b j o t t1 hbody),
       live_inv_step u s1 i b j o t t1 hb ho hp.1 hp.2 hbody⟩)
    (fun i b t hb hp =>
      ⟨analyse_inv_block u s1 i b t hb hp.1, live_inv_block u s1 i b t hb hp.2⟩)
    ⟨analyse_inv_init u s1, live_inv_init u s1⟩ h).2

theorem uses_upto_end (u : vcode_unit_t) (r d : Nat) :
    uses_upto u r d u.blocks.length 0 = block_uses (block_of u d) r := by
  unfold uses_upto
  by_cases h1 : d < u.blocks.length
  · simp [h1]
  · have hnil : block_of u d = [] := by
      simp [block_of, List.getElem?_eq_none (Nat.le_of_not_lt h1)]
    by_cases h2 : d = u.blocks.length
    · simp [h1, h2, hnil, block_uses]
      rw [← h2, hnil]
      simp
    · simp [h1, h2, hnil, block_uses]

/-- C25: whenever `jit_analyse` completes, from a state in which `use_count`
of `r` is 0 (as `xcalloc` leaves it), for a register `r` with defining block
`d`: `use_count(r)` is the total number of argument positions holding `r`
over all ops of block `d` (uses in other blocks are not counted); if `r` is
used at least once in block `d`, `lifetime(r)` is the index of an op of block
`d` that has `r` among its arguments and no op of block `d` with a larger
index has; and if `r` has no use in block `d`, `use_count(r)` is 0. A
register with no definition has `use_count` 0 as well. -/
theorem liveness_data (T : target_t) (u : vcode_unit_t) (st s2 : jit_state_t)
    (h : jit_analyse T u st = .ok s2) (r : Nat)
    (h0 : (st.vcode_regs r).use_count = 0) :
    (∀ d, (s2.vcode_regs r).defn_block = some d →
      (s2.vcode_regs r).use_count = block_uses (block_of u d) r ∧
      (∀ (j1 : Nat) (o1 : vcode_op), op_at u d j1 = some o1 → r ∈ o1.args →
        j1 ≤ (s2.vcode_regs r).lifetime ∧
        ∃ o, op_at u d (s2.vcode_regs r).lifetime = some o ∧ r ∈ o.args) ∧
      ((∀ (j1 : Nat) (o1 : vcode_op), op_at u d j1 = some o1 → r ∉ o1.args) →
        (s2.vcode_regs r).use_count = 0)) ∧
    ((s2.vcode_regs r).defn_block = none → (s2.vcode_regs r).use_count = 0) := by
  obtain ⟨s1, hinit, hops⟩ := jit_analyse_split T u st s2 h
  have linv := analyse_ops_live u s1 s2 hops
  have hs1 : (s1.vcode_regs r).use_count = 0 := by
    obtain ⟨_, hregs⟩ := analyse_init_loop T u u.nregs st s1 hinit
    by_cases hr : r < u.nregs
    · rw [(hregs r).1 hr]; exact h0
    · rw [(hregs r).2 (by omega)]; exact h0
  refine ⟨?_, ?_⟩
  · intro d hd
    have hcount : (s2.vcode_regs r).use_count = block_uses (block_of u d) r := by
      rw [linv.count r d hd, hs1, uses_upto_end]
      simp
    refine ⟨hcount, ?_, ?_⟩
    · intro j1 o1 ho1 hmem
      obtain ⟨h1, _, o, h3, h4⟩ := linv.last r d hd j1 o1 (visited_end ho1) ho1 hmem
      exact ⟨h1, o, h3, h4⟩
    · intro hno
      rw [hcount]
      apply block_uses_eq_zero
      intro j1 o1 hget
      refine hno j1 o1 ?_
      unfold op_at
      unfold block_of at hget
      cases hb : u.blocks[d]? with
      | none => simp [hb] at hget
      | some b => simpa [hb] using hget
  · intro hnone
    rw [(linv.undefined r hnone).1, hs1]

/-- Witness of C25 on `unit_cmp_cond`: `r0` is defined in block 0 and used
twice, by the CMP at index 1. -/
theorem liveness_data_witness :
    (jit_analyse target_lp64 unit_cmp_cond (zero_state [])
        = .ok (analysed_state target_lp64 unit_cmp_cond (zero_state [])) ∧
      ((zero_state []).vcode_regs 0).use_count = 0 ∧
      ((analysed_state target_lp64 unit_cmp_cond (zero_state [])).vcode_regs 0).defn_block
        = some 0) ∧
    block_uses (block_of unit_cmp_cond 0) 0 = 2 ∧
    ((analysed_state target_lp64 unit_cmp_cond (zero_state [])).vcode_regs 0).lifetime = 1 ∧
    ((analysed_state target_lp64 unit_cmp_cond (zero_state [])).vcode_regs 0).use_count
      = block_uses (block_of unit_cmp_cond 0) 0 ∧
    (∀ (j1 : Nat) (o1 : vcode_op), op_at unit_cmp_cond 0 j1 = some o1 → 0 ∈ o1.args →
      j1 ≤ ((analysed_state target_lp64 unit_cmp_cond (zero_state [])).vcode_regs 0).lifetime ∧
      ∃ o, op_at unit_cmp_cond 0
          ((analysed_state target_lp64 unit_cmp_cond (zero_state [])).vcode_regs 0).lifetime
          = some o ∧ 0 ∈ o.args) :=
  ⟨⟨rfl, rfl, by decide⟩, by decide, by decide,
   ((liveness_data target_lp64 unit_cmp_cond (zero_state []) _ rfl 0 rfl).1 0
      (by decide)).1,
   ((liveness_data target_lp64 unit_cmp_cond (zero_state []) _ rfl 0 rfl).1 0
      (by decide)).2.1⟩

/-! ## Spill slots (C27) -/

theorem for_each_snoc {α σ ε : Type} (body : Nat → α → σ → Except ε σ) (a : α) :
    ∀ (l : List α) (k : Nat) (s : σ),
    for_each body k (l ++ [a]) s =
      match for_each body k l s with
      | .error e => .error e
      | .ok t => body (k + l.length) a t := by
  intro l
  induction l with
  | nil =>
    intro k s
    simp only [List.nil_append, for_each, List.length_nil, Nat.add_zero]
    cases body k a s <;> rfl
  | cons x xs ih =>
    intro k s
    simp only [List.cons_append, for_each]
    cases hb : body k x s with
    | error e => rfl
    | ok s1 =>
      simp only
      rw [show xs.append [a] = xs ++ [a] from rfl, ih (k + 1) s1]
      simp only [List.length_cons]
      rw [show k + 1 + xs.length = k + (xs.length + 1) by omega]

theorem for_each_op_upto_zero {σ ε : Type}
    (body : Nat → List vcode_op → Nat → vcode_op → σ → Except ε σ)
    (blocks : List (List vcode_op)) (s : σ) :
    for_each_op_upto body blocks 0 0 s = .ok s := by
  unfold for_each_op_upto for_each_op
  simp only [List.take_zero, for_each]
  cases blocks[0]? <;> simp [for_each]

theorem for_each_op_upto_step {σ ε : Type}
    (body : Nat → List vcode_op → Nat → vcode_op → σ → Except ε σ)
    (blocks : List (List vcode_op)) (i j : Nat) (b : List vcode_op) (o : vcode_op) (s t t1 : σ)
    (hb : blocks[i]? = some b) (ho : b[j]? = some o)
    (h : for_each_op_upto body blocks i j s = .ok t) (hbody : body i b j o t = .ok t1) :
    for_each_op_upto body blocks i (j + 1) s = .ok t1 := by
  have hj : j < b.length := by
    by_contra hcon
    rw [List.getElem?_eq_none (by omega)] at ho
    cases ho
  have htake : b.take (j + 1) = b.take j ++ [o] := by
    rw [List.take_succ, ho]
    rfl
  unfold for_each_op_upto at h ⊢
  cases h1 : for_each_op body (List.take i blocks) s with
  | error e => simp [h1] at h
  | ok s1 =>
    simp only [h1, hb] at h ⊢
    rw [htake, for_each_snoc, h]
    simp only [Nat.zero_add, List.length_take, Nat.min_eq_left (Nat.le_of_lt hj)]
    exact hbody

theorem for_each_op_upto_block {σ ε : Type}
    (body : Nat → List vcode_op → Nat → vcode_op → σ → Except ε σ)
    (blocks : List (List vcode_op)) (i : Nat) (b : List vcode_op) (s t : σ)
    (hb : blocks[i]? = some b)
    (h : for_each_op_upto body blocks i b.length s = .ok t) :
    for_each_op_upto body blocks (i + 1) 0 s = .ok t := by
  have hi : i < blocks.length := by
    by_contra hcon
    rw [List.getElem?_eq_none (by omega)] at hb
    cases hb
  have htake : blocks.take (i + 1) = blocks.take i ++ [b] := by
    rw [List.take_succ, hb]
    rfl
  unfold for_each_op_upto at h ⊢
  unfold for_each_op at h ⊢
  rw [htake, for_each_snoc]
  cases h1 : for_each (fun i b s1 => for_each (fun j o s2 => body i b j o s2) 0 b s1) 0
      (List.take i blocks) s with
  | error e => simp [h1] at h
  | ok s1 =>
    simp only [h1, hb, List.take_length] at h
    simp only [Nat.zero_add, List.length_take, Nat.min_eq_left (Nat.le_of_lt hi), h]
    cases blocks[i + 1]? <;> simp [for_each]

theorem for_each_op_upto_end {σ ε : Type}
    (body : Nat → List vcode_op → Nat → vcode_op → σ → Except ε σ)
    (blocks : List (List vcode_op)) (s : σ) :
    for_each_op_upto body blocks blocks.length 0 s = for_each_op body blocks s := by
  unfold for_each_op_upto
  simp only [List.take_length]
  cases for_each_op body blocks s with
  | error e => rfl
  | ok t => simp

theorem jit_map_result_frame (blk op : Nat) (o : vcode_op) (st st1 : jit_state_t)
    (h : jit_map_result blk op o st = .ok st1) :
    st1.vcode_vars = st.vcode_vars ∧ st1.stack_size = st.stack_size ∧
    st.stack_wptr ≤ st1.stack_wptr := by
  unfold jit_map_result at h
  cases ha : jit_alloc_reg st blk op o.result with
  | mk file res =>
    cases res with
    | some k =>
      simp only [ha, Except.ok.injEq] at h
      subst h
      exact ⟨rfl, rfl, Nat.le_refl _⟩
    | none =>
      simp only [ha] at h
      split at h
      · cases h
      · simp only [Except.ok.injEq] at h
        subst h
        exact ⟨rfl, rfl, by simp⟩

theorem jit_map_uarray_op_frame (T : target_t) (blk op : Nat) (o : vcode_op)
    (st st1 : jit_state_t) (h : jit_map_uarray_op T blk op o st = .ok st1) :
    st1.vcode_vars = st.vcode_vars ∧ st1.stack_size = st.stack_size ∧
    st.stack_wptr ≤ st1.stack_wptr := by
  unfold jit_map_uarray_op at h
  cases hargs : o.args with
  | nil => simp [hargs] at h
  | cons a rest =>
    simp only [hargs] at h
    split at h
    · cases h
    · split at h
      · cases h
      · split at h
        · cases ha : jit_alloc_reg st blk op o.result with
          | mk file res =>
            cases res <;> simp only [ha, Except.ok.injEq] at h <;> subst h <;>
              exact ⟨rfl, rfl, Nat.le_refl _⟩
        · simp only [Except.ok.injEq] at h
          subst h
          exact ⟨rfl, rfl, Nat.le_refl _⟩

theorem jit_map_cast_frame (u : vcode_unit_t) (blk op : Nat) (o : vcode_op)
    (st st1 : jit_state_t) (h : jit_map_cast u blk op o st = .ok st1) :
    st1.vcode_vars = st.vcode_vars ∧ st1.stack_size = st.stack_size ∧
    st.stack_wptr ≤ st1.stack_wptr := by
  unfold jit_map_cast at h
  cases hargs : o.args with
  | nil => simp [hargs] at h
  | cons a rest =>
    simp only [hargs] at h
    split at h
    · simp only [Except.ok.injEq] at h
      subst h
      exact ⟨rfl, rfl, Nat.le_refl _⟩
    · exact jit_map_result_frame blk op o st st1 h

/-- Pass C leaves the variables and the frame budget alone and never moves
`stack_wptr` back. -/
theorem jit_map_storage_for_op_frame (T : target_t) (u : vcode_unit_t) (blk : Nat)
    (b : List vcode_op) (op : Nat) (o : vcode_op) (st st1 : jit_state_t)
    (h : jit_map_storage_for_op T u blk b op o st = .ok st1) :
    st1.vcode_vars = st.vcode_vars ∧ st1.stack_size = st.stack_size ∧
    st.stack_wptr ≤ st1.stack_wptr := by
  unfold jit_map_storage_for_op at h
  cases hk : o.kind <;> simp only [hk] at h
  all_goals first
    | exact jit_map_result_frame blk op o st st1 h
    | exact jit_map_uarray_op_frame T blk op o st st1 h
    | exact jit_map_cast_frame u blk op o st st1 h
    | (cases h; done)
    | (simp only [Except.ok.injEq] at h; subst h; exact ⟨rfl, rfl, Nat.le_refl _⟩)
    | skip
  · -- CMP
    split at h
    · simp only [Except.ok.injEq] at h
      subst h
      exact ⟨rfl, rfl, Nat.le_refl _⟩
    · exact jit_map_result_frame blk op o st st1 h

theorem jit_map_storage_for_op_handled (T : target_t) (u : vcode_unit_t) (blk : Nat)
    (b : List vcode_op) (op : Nat) (o : vcode_op) (st : jit_state_t)
    (hk : handled_by_map_result u b op o st) :
    jit_map_storage_for_op T u blk b op o st = jit_map_result blk op o st := by
  obtain ⟨h1, h2, h3⟩ := jit_map_storage_for_op_general T u blk b op o st
  rcases hk with hk | ⟨hk, hc⟩ | ⟨hk, src, rest, hargs, hc⟩
  · exact h1 hk
  · refine h2 hk ?_
    cases hci : (st.vcode_regs o.result).flags.cond_input
    · rfl
    · cases hei : jit_is_ephemeral b (st.vcode_regs o.result) op
      · rfl
      · exact absurd ⟨hci, hei⟩ hc
  · rw [h3 hk]
    exact (jit_map_cast_cases u blk op o st src rest hargs).2 hc

theorem handled_defines (u : vcode_unit_t) (b : List vcode_op) (op : Nat) (o : vcode_op)
    (st : jit_state_t) (hk : handled_by_map_result u b op o st) :
    defines_result o = true := by
  rcases hk with hk | ⟨hk, _⟩ | ⟨hk, _⟩
  · unfold general_case at hk
    unfold defines_result
    cases hkind : o.kind <;> simp [hkind] at hk ⊢
  · simp [defines_result, hk]
  · simp [defines_result, hk]

/-- The step of pass C at an op that spills. -/
theorem spills_step (T : target_t) (u : vcode_unit_t) (blk : Nat) (b : List vcode_op)
    (op : Nat) (o : vcode_op) (st st1 : jit_state_t) (hs : spills u blk b op o st)
    (h : jit_map_storage_for_op T u blk b op o st = .ok st1) :
    (st1.vcode_regs o.result).state = .JIT_STACK ∧
    (st1.vcode_regs o.result).size = (st.vcode_regs o.result).size ∧
    (st1.vcode_regs o.result).stack_offset + ((st1.vcode_regs o.result).size : Int)
      ≤ -(st.stack_wptr : Int) ∧
    (st1.vcode_regs o.result).stack_offset = -(st1.stack_wptr : Int) ∧
    st1.stack_wptr ≤ st1.stack_size := by
  rw [jit_map_storage_for_op_handled T u blk b op o st hs.1] at h
  obtain ⟨_, hfit, hfail⟩ := jit_map_result_outcome blk op o st
  by_cases hf : st.stack_wptr + (jit_align_object (st.vcode_regs o.result).size st.stack_wptr
      + (st.vcode_regs o.result).size) ≤ st.stack_size
  · obtain ⟨st2, h2, k1, k2, k3, _, k5, _⟩ := hfit hs.2 hf
    rw [h] at h2
    simp only [Except.ok.injEq] at h2
    subst h2
    have hsize := ((jit_map_result_step blk op o st st1 h).1.analysis o.result).2.2.2.2
    refine ⟨k1, hsize, ?_, ?_, ?_⟩
    · rw [k2, hsize]
      omega
    · rw [k2, k3]
      push_cast
      omega
    · rw [k3, k5]
      exact hf
  · have := hfail hs.2 hf
    rw [h] at this
    simp [exit_of] at this

theorem spill_inv_init (T : target_t) (u : vcode_unit_t) (s2 : jit_state_t) :
    spill_inv T u s2 0 0 s2 := by
  refine ⟨for_each_op_upto_zero _ _ _, ⟨rfl, rfl, Nat.le_refl _⟩, ?_, ?_⟩
  · intro i1 j1 b1 o1 t0 hv
    simp [visited] at hv
  · intro i1 j1 b1 o1 t1 i2 j2 b2 o2 t2 hv
    simp [visited] at hv

theorem op_at_of {u : vcode_unit_t} {i j : Nat} {b : List vcode_op} {o : vcode_op}
    (hb : u.blocks[i]? = some b) (ho : b[j]? = some o) : op_at u i j = some o := by
  rw [op_at_eq hb]; exact ho

theorem spill_inv_block (T : target_t) (u : vcode_unit_t) (s2 : jit_state_t) (i : Nat)
    (b : List vcode_op) (t : jit_state_t) (hb : u.blocks[i]? = some b)
    (inv : spill_inv T u s2 i b.length t) : spill_inv T u s2 (i + 1) 0 t := by
  refine ⟨for_each_op_upto_block _ _ i b s2 t hb inv.upto, inv.frame, ?_, ?_⟩
  · intro i1 j1 b1 o1 t0 hv hb1 ho1 hup hsp
    exact inv.slot i1 j1 b1 o1 t0 ((visited_next_block hb (op_at_of hb1 ho1)).1 hv)
      hb1 ho1 hup hsp
  · intro i1 j1 b1 o1 t1 i2 j2 b2 o2 t2 hv hv12 hb1 ho1 hup1 hsp1 hb2 ho2 hup2 hsp2
    exact inv.order i1 j1 b1 o1 t1 i2 j2 b2 o2 t2
      ((visited_next_block hb (op_at_of hb2 ho2)).1 hv) hv12 hb1 ho1 hup1 hsp1
      hb2 ho2 hup2 hsp2

theorem spill_inv_step (T : target_t) (u : vcode_unit_t) (s2 : jit_state_t)
    (han : analysed u s2) (i : Nat) (b : List vcode_op) (j : Nat) (o : vcode_op)
    (t t1 : jit_state_t) (hb : u.blocks[i]? = some b) (ho : b[j]? = some o)
    (inv : spill_inv T u s2 i j t)
    (hbody : jit_map_storage_for_op T u i b j o t = .ok t1) :
    spill_inv T u s2 i (j + 1) t1 := by
  obtain ⟨hvars, hsize, hwptr⟩ := jit_map_storage_for_op_frame T u i b j o t t1 hbody
  have hat := op_at_of hb ho
  -- the descriptor of an earlier spilled result is not written
  have hkeep : ∀ (i1 j1 : Nat) (b1 : List vcode_op) (o1 : vcode_op) (t0 : jit_state_t),
      visited i j i1 j1 → u.blocks[i1]? = some b1 → b1[j1]? = some o1 →
      spills u i1 b1 j1 o1 t0 → t1.vcode_regs o1.result = t.vcode_regs o1.result := by
    intro i1 j1 b1 o1 t0 hv hb1 ho1 hsp
    cases hd : defines_result o with
    | false => rw [jit_map_storage_for_op_idle T u i b j o t t1 hbody hd]
    | true =>
      refine (jit_map_storage_for_op_step T u i b j o t t1 hbody).others o1.result ?_
      intro heq
      obtain ⟨h1, h2⟩ := han.single i1 j1 o1 i j o (op_at_of hb1 ho1) hat
        (handled_defines u b1 j1 o1 t0 hsp.1) hd heq
      subst h1; subst h2
      exact visited_irrefl _ _ hv
  -- the op at hand, when it spills
  have hnew : ∀ (b1 : List vcode_op) (o1 : vcode_op) (t0 : jit_state_t),
      u.blocks[i]? = some b1 → b1[j]? = some o1 →
      for_each_op_upto (jit_map_storage_for_op T u) u.blocks i j s2 = .ok t0 →
      spills u i b1 j o1 t0 →
      o1 = o ∧
      (t1.vcode_regs o.result).state = .JIT_STACK ∧
      (t1.vcode_regs o.result).stack_offset + ((t1.vcode_regs o.result).size : Int)
        ≤ -(t.stack_wptr : Int) ∧
      (t1.vcode_regs o.result).stack_offset = -(t1.stack_wptr : Int) ∧
      t1.stack_wptr ≤ t1.stack_size := by
    intro b1 o1 t0 hb1 ho1 hup hsp
    rw [hb] at hb1
    simp only [Option.some.injEq] at hb1
    subst hb1
    rw [ho] at ho1
    simp only [Option.some.injEq] at ho1
    subst ho1
    rw [inv.upto] at hup
    simp only [Except.ok.injEq] at hup
    subst hup
    obtain ⟨k1, _, k3, k4, k5⟩ := spills_step T u i b j o t t1 hsp hbody
    exact ⟨rfl, k1, k3, k4, k5⟩
  refine ⟨for_each_op_upto_step _ _ i j b o s2 t t1 hb ho inv.upto hbody,
    ⟨hvars.trans inv.frame.1, hsize.trans inv.frame.2.1, Nat.le_trans inv.frame.2.2 hwptr⟩,
    ?_, ?_⟩
  · intro i1 j1 b1 o1 t0 hv hb1 ho1 hup hsp
    rcases (visited_succ i j i1 j1).1 hv with hv1 | ⟨h1, h2⟩
    · obtain ⟨k1, k2, k3, k4⟩ := inv.slot i1 j1 b1 o1 t0 hv1 hb1 ho1 hup hsp
      rw [hkeep i1 j1 b1 o1 t0 hv1 hb1 ho1 hsp, hsize]
      exact ⟨k1, by omega, k3, k4⟩
    · subst h1; subst h2
      obtain ⟨heq, k1, k3, k4, k5⟩ := hnew b1 o1 t0 hb1 ho1 hup hsp
      subst heq
      have := inv.frame.2.2
      exact ⟨k1, by omega, by omega, by omega⟩
  · intro i1 j1 b1 o1 t01 i2 j2 b2 o2 t02 hv hv12 hb1 ho1 hup1 hsp1 hb2 ho2 hup2 hsp2
    rcases (visited_succ i j i2 j2).1 hv with hv2 | ⟨h1, h2⟩
    · have hv1 : visited i j i1 j1 := visited_trans hv2 hv12
      rw [hkeep i1 j1 b1 o1 t01 hv1 hb1 ho1 hsp1, hkeep i2 j2 b2 o2 t02 hv2 hb2 ho2 hsp2]
      exact inv.order i1 j1 b1 o1 t01 i2 j2 b2 o2 t02 hv2 hv12 hb1 ho1 hup1 hsp1
        hb2 ho2 hup2 hsp2
    · subst h1; subst h2
      obtain ⟨heq, _, k3, _, _⟩ := hnew b2 o2 t02 hb2 ho2 hup2 hsp2
      subst heq
      obtain ⟨_, k2, _, _⟩ := inv.slot i1 j1 b1 o1 t01 hv12 hb1 ho1 hup1 hsp1
      rw [hkeep i1 j1 b1 o1 t01 hv12 hb1 ho1 hsp1]
      omega

/-- The spill invariant holds when the op loop of `jit_map_storage` ends. -/
theorem jit_map_storage_spill_inv (T : target_t) (u : vcode_unit_t) (s2 s3 : jit_state_t)
    (han : analysed u s2) (h : jit_map_storage T u s2 = .ok s3) :
    spill_inv T u s2 u.blocks.length 0 s3 :=
  for_each_op_inv (jit_map_storage_for_op T u)
    (fun i j s => spill_inv T u s2 i j s) u.blocks s2 s3
    (fun i b j o t t1 hb ho hp hbody => spill_inv_step T u s2 han i b j o t t1 hb ho hp hbody)
    (fun i b t hb hp => spill_inv_block T u s2 i b t hb hp)
    (spill_inv_init T u s2) h

theorem stack_frame_op_keeps (T : target_t) (i : Nat) (b : List vcode_op) (j : Nat)
    (o : vcode_op) (t t1 : jit_state_t) (h : stack_frame_op T i b j o t = .ok t1) :
    t1.vcode_vars = t.vcode_vars ∧ t1.stack_wptr = t.stack_wptr := by
  unfold stack_frame_op at h
  split at h
  · split at h
    · cases h
    · cases hsz : jit_size_of T o.type with
      | error e => simp [hsz] at h
      | ok size =>
        simp only [hsz, Except.ok.injEq] at h
        subst h
        exact ⟨rfl, rfl⟩
  · simp only [Except.ok.injEq] at h
    subst h
    exact ⟨rfl, rfl⟩

/-- The variables and `stack_wptr` as pass A leaves them. -/
theorem jit_stack_frame_vars (T : target_t) (u : vcode_unit_t) (st s1 : jit_state_t)
    (h : jit_stack_frame T u st = .ok s1) :
    s1.stack_wptr = frame_end T u u.nvars ∧
    ∀ v, v < u.nvars → (s1.vcode_vars v).state = .JIT_STACK ∧
      (s1.vcode_vars v).size = var_size T u v ∧
      (s1.vcode_vars v).stack_offset = -(frame_end T u (v + 1) : Int) := by
  unfold jit_stack_frame at h
  cases hv : for_range (stack_frame_var T u) 0 u.nvars { st with stack_size := 0 } with
  | error e => simp [hv] at h
  | ok s0 =>
    simp only [hv] at h
    obtain ⟨hsz, hvars⟩ := stack_frame_var_loop T u u.nvars st s0 hv
    have hkeep := for_each_op_inv (stack_frame_op T)
      (fun _ _ s => s.vcode_vars = s0.vcode_vars ∧ s.stack_wptr = s0.stack_size)
      u.blocks { s0 with stack_wptr := s0.stack_size } s1
      (fun i b j o t t1 _ _ hp hbody => by
        obtain ⟨h1, h2⟩ := stack_frame_op_keeps T i b j o t t1 hbody
        exact ⟨h1.trans hp.1, h2.trans hp.2⟩)
      (fun _ _ _ _ hp => hp) ⟨rfl, rfl⟩ h
    refine ⟨by rw [hkeep.2, hsz], ?_⟩
    intro v hvn
    rw [hkeep.1, (hvars v hvn).2]
    refine ⟨rfl, rfl, ?_⟩
    simp only [frame_end]
    push_cast
    omega

theorem analyse_switch_vars (i : Nat) (b : List vcode_op) (j : Nat) (o : vcode_op)
    (st st1 : jit_state_t) (h : analyse_switch i b j o st = .ok st1) :
    st1.vcode_vars = st.vcode_vars := by
  rcases analyse_switch_cases i b j o st st1 h with hd | hs | hr | hk
  · rw [analyse_switch_defines i b j o st hd] at h
    split at h
    · cases h
    · simp at h
      subst h
      rfl
  · rw [analyse_switch_skips i b j o st hs] at h
    simp at h
    subst h
    rfl
  · rw [analyse_switch_return i b j o st hr] at h
    simp at h
    subst h
    cases o.args <;> rfl
  · rcases analyse_switch_cond i b j o st st1 hk h with h1 | ⟨_, _, _, _, _, _, _, _, _, _, _, h1⟩
    · subst h1; rfl
    · subst h1; rfl

/-- Pass B leaves the variables and `stack_wptr` alone. -/
theorem jit_analyse_vars (T : target_t) (u : vcode_unit_t) (s1 s2 : jit_state_t)
    (h : jit_analyse T u s1 = .ok s2) :
    s2.vcode_vars = s1.vcode_vars ∧ s2.stack_wptr = s1.stack_wptr := by
  obtain ⟨s0, hinit, hops⟩ := jit_analyse_split T u s1 s2 h
  have h0 := for_range_inv (analyse_init T u)
    (fun _ s => s.vcode_vars = s1.vcode_vars ∧ s.stack_wptr = s1.stack_wptr)
    u.nregs 0 s1 s0
    (fun k t t1 _ hp hb => by
      simp only [Nat.zero_add] at hb hp ⊢
      unfold analyse_init at hb
      cases hsz : jit_size_of T (u.reg_type k) with
      | error e => simp [hsz] at hb
      | ok size =>
        simp only [hsz, Except.ok.injEq] at hb
        subst hb
        exact hp)
    ⟨rfl, rfl⟩ hinit
  have h1 := for_each_op_inv analyse_op
    (fun _ _ s => s.vcode_vars = s0.vcode_vars ∧ s.stack_wptr = s0.stack_wptr)
    u.blocks s0 s2
    (fun i b j o t t2 _ _ hp hbody => by
      have hw := (analyse_op_step i b j o t t2 hbody).frame.2
      unfold analyse_op at hbody
      cases hs : analyse_switch i b j o t with
      | error e => simp [hs] at hbody
      | ok t1 =>
        simp only [hs] at hbody
        obtain ⟨heq, _⟩ := analyse_args_eq i j o.args 0 t1 t2 hbody
        refine ⟨?_, hw.trans hp.2⟩
        rw [heq]
        exact (analyse_switch_vars i b j o t t1 hs).trans hp.1)
    (fun _ _ _ _ hp => hp) ⟨rfl, rfl⟩ hops
  exact ⟨h1.1.trans h0.1, h1.2.trans h0.2⟩

theorem jit_plan_split (T : target_t) (u : vcode_unit_t) (st s3 : jit_state_t)
    (h : jit_plan T u st = .ok s3) :
    ∃ s1 s2, jit_stack_frame T u st = .ok s1 ∧ jit_analyse T u s1 = .ok s2 ∧
      jit_map_storage T u s2 = .ok s3 := by
  unfold jit_plan at h
  cases h1 : jit_stack_frame T u st with
  | error e => simp [h1] at h
  | ok s1 =>
    simp only [h1] at h
    cases h2 : jit_analyse T u s1 with
    | error e => simp [h2] at h
    | ok s2 =>
      simp only [h2] at h
      exact ⟨s1, s2, rfl, h2, h⟩

theorem jit_map_result_stack_alloc (blk op : Nat) (o : vcode_op) (t t1 : jit_state_t)
    (h : jit_map_result blk op o t = .ok t1)
    (hs : (t1.vcode_regs o.result).state = .JIT_STACK) :
    (jit_alloc_reg t blk op o.result).2 = none := by
  cases ha : jit_alloc_reg t blk op o.result with
  | mk file res =>
    cases res with
    | none => rfl
    | some k =>
      obtain ⟨t2, h2, hreg, _⟩ := (jit_map_result_outcome blk op o t).1 file k ha
      rw [h] at h2
      simp only [Except.ok.injEq] at h2
      subst h2
      rw [hs] at hreg
      cases hreg

/-- Where pass C gives a result StackSlot storage: in the spill branch of
`jit_map_result`, in `jit_map_uarray_op`, or in the aliasing branch of
`jit_map_cast`. -/
theorem stack_storage_origin (T : target_t) (u : vcode_unit_t) (blk : Nat)
    (b : List vcode_op) (op : Nat) (o : vcode_op) (t t1 : jit_state_t)
    (h : jit_map_storage_for_op T u blk b op o t = .ok t1)
    (hd : defines_result o = true)
    (hs : (t1.vcode_regs o.result).state = .JIT_STACK) :
    spills u blk b op o t ∨
    (o.kind = .VCODE_OP_UARRAY_LEFT ∨ o.kind = .VCODE_OP_UARRAY_RIGHT ∨
      o.kind = .VCODE_OP_UARRAY_DIR) ∨
    (o.kind = .VCODE_OP_CAST ∧ ∃ src rest, o.args = src :: rest ∧ cast_aliases u o t src) := by
  obtain ⟨g1, g2, g3⟩ := jit_map_storage_for_op_general T u blk b op o t
  by_cases hg : general_case o.kind = true
  · rw [g1 hg] at h
    exact Or.inl ⟨Or.inl hg, jit_map_result_stack_alloc blk op o t t1 h hs⟩
  · by_cases hcmp : o.kind = .VCODE_OP_CMP
    · by_cases hfl : (t.vcode_regs o.result).flags.cond_input = true ∧
          jit_is_ephemeral b (t.vcode_regs o.result) op = true
      · exfalso
        unfold jit_map_storage_for_op at h
        simp only [hcmp, hfl.1, hfl.2, Bool.and_self, if_true, Except.ok.injEq] at h
        subst h
        simp [upd] at hs
      · have hh : handled_by_map_result u b op o t := Or.inr (Or.inl ⟨hcmp, hfl⟩)
        rw [jit_map_storage_for_op_handled T u blk b op o t hh] at h
        exact Or.inl ⟨hh, jit_map_result_stack_alloc blk op o t t1 h hs⟩
    · by_cases hcast : o.kind = .VCODE_OP_CAST
      · rw [g3 hcast] at h
        cases hargs : o.args with
        | nil => simp [jit_map_cast, hargs] at h
        | cons src rest =>
          by_cases hal : cast_aliases u o t src
          · exact Or.inr (Or.inr ⟨hcast, src, rest, rfl, hal⟩)
          · have hh : handled_by_map_result u b op o t :=
              Or.inr (Or.inr ⟨hcast, src, rest, hargs, hal⟩)
            rw [(jit_map_cast_cases u blk op o t src rest hargs).2 hal] at h
            exact Or.inl ⟨hh, jit_map_result_stack_alloc blk op o t t1 h hs⟩
      · unfold general_case at hg
        unfold defines_result at hd
        unfold jit_map_storage_for_op at h
        cases hk : o.kind <;> simp [hk] at hg hd hcmp hcast h ⊢
        -- CONST
        subst h
        simp [upd] at hs

/-- C27: over a whole run of the plan (`jit_stack_frame`, `jit_analyse`,
`jit_map_storage`), the results spilled by `jit_map_result` at two different
ops are different registers whose byte ranges
`[stack_offset, stack_offset + size)` are disjoint; the range of every
spilled result lies inside the frame and below the slot of every VCODE
variable; and pass C gives a result StackSlot storage only in the spill
branch of `jit_map_result`, in the UARRAY case, or in the aliasing branch of
the CAST case. -/
theorem spill_slots_disjoint (T : target_t) (u : vcode_unit_t) (st s3 : jit_state_t)
    (h : jit_plan T u st = .ok s3) :
    (∀ i1 j1 r1 i2 j2 r2, spilled_reg T u st i1 j1 r1 → spilled_reg T u st i2 j2 r2 →
      ¬ (i1 = i2 ∧ j1 = j2) →
      r1 ≠ r2 ∧
      ((s3.vcode_regs r1).stack_offset + ((s3.vcode_regs r1).size : Int)
          ≤ (s3.vcode_regs r2).stack_offset ∨
        (s3.vcode_regs r2).stack_offset + ((s3.vcode_regs r2).size : Int)
          ≤ (s3.vcode_regs r1).stack_offset)) ∧
    (∀ i1 j1 r1, spilled_reg T u st i1 j1 r1 →
      (s3.vcode_regs r1).state = .JIT_STACK ∧
      -(s3.stack_size : Int) ≤ (s3.vcode_regs r1).stack_offset ∧
      (s3.vcode_regs r1).stack_offset + ((s3.vcode_regs r1).size : Int) ≤ 0 ∧
      ∀ v, v < u.nvars → (s3.vcode_vars v).state = .JIT_STACK ∧
        (s3.vcode_regs r1).stack_offset + ((s3.vcode_regs r1).size : Int)
          ≤ (s3.vcode_vars v).stack_offset) ∧
    (∀ (blk : Nat) (b : List vcode_op) (op : Nat) (o : vcode_op) (t t1 : jit_state_t),
      jit_map_storage_for_op T u blk b op o t = .ok t1 → defines_result o = true →
      (t1.vcode_regs o.result).state = .JIT_STACK →
      spills u blk b op o t ∨
      (o.kind = .VCODE_OP_UARRAY_LEFT ∨ o.kind = .VCODE_OP_UARRAY_RIGHT ∨
        o.kind = .VCODE_OP_UARRAY_DIR) ∨
      (o.kind = .VCODE_OP_CAST ∧
        ∃ src rest, o.args = src :: rest ∧ cast_aliases u o t src)) := by
  obtain ⟨s1, s2, hA, hB, hC⟩ := jit_plan_split T u st s3 h
  obtain ⟨han, _⟩ := jit_analyse_facts T u s1 s2 hB
  have inv := jit_map_storage_spill_inv T u s2 s3 han hC
  obtain ⟨hw1, hv1⟩ := jit_stack_frame_vars T u st s1 hA
  obtain ⟨hv2, hw2⟩ := jit_analyse_vars T u s1 s2 hB
  have hup : ∀ i j t, plan_upto T u i j st = .ok t →
      for_each_op_upto (jit_map_storage_for_op T u) u.blocks i j s2 = .ok t := by
    intro i j t hp
    unfold plan_upto at hp
    simpa only [hA, hB] using hp
  refine ⟨?_, ?_, fun blk b op o t t1 => stack_storage_origin T u blk b op o t t1⟩
  · rintro i1 j1 r1 i2 j2 r2 ⟨b1, o1, t1, hb1, ho1, hr1, hp1, hsp1⟩
      ⟨b2, o2, t2, hb2, ho2, hr2, hp2, hsp2⟩ hne
    subst hr1; subst hr2
    constructor
    · intro heq
      obtain ⟨k1, k2⟩ := han.single i1 j1 o1 i2 j2 o2 (op_at_of hb1 ho1) (op_at_of hb2 ho2)
        (handled_defines u b1 j1 o1 t1 hsp1.1) (handled_defines u b2 j2 o2 t2 hsp2.1) heq
      exact hne ⟨k1, k2⟩
    · have hcases : visited i2 j2 i1 j1 ∨ visited i1 j1 i2 j2 := by
        simp only [visited]
        omega
      rcases hcases with hv | hv
      · right
        exact inv.order i1 j1 b1 o1 t1 i2 j2 b2 o2 t2 (visited_end (op_at_of hb2 ho2)) hv
          hb1 ho1 (hup _ _ _ hp1) hsp1 hb2 ho2 (hup _ _ _ hp2) hsp2
      · left
        exact inv.order i2 j2 b2 o2 t2 i1 j1 b1 o1 t1 (visited_end (op_at_of hb1 ho1)) hv
          hb2 ho2 (hup _ _ _ hp2) hsp2 hb1 ho1 (hup _ _ _ hp1) hsp1
  · rintro i1 j1 r1 ⟨b1, o1, t1, hb1, ho1, hr1, hp1, hsp1⟩
    subst hr1
    obtain ⟨k1, _, k3, k4⟩ := inv.slot i1 j1 b1 o1 t1 (visited_end (op_at_of hb1 ho1))
      hb1 ho1 (hup _ _ _ hp1) hsp1
    refine ⟨k1, k3, by omega, ?_⟩
    intro v hv
    obtain ⟨m1, _, m3⟩ := hv1 v hv
    rw [inv.frame.1, hv2]
    refine ⟨m1, ?_⟩
    rw [m3]
    have := frame_end_mono T u (v + 1) u.nvars (by omega)
    rw [hw2, hw1] at k4
    omega

/-- In the plan of `unit_two_spills` the ADD at index 1 of block 0 spills its
result `r1`, which is used in block 1. -/
theorem unit_two_spills_first :
    spilled_reg target_lp64 unit_two_spills (zero_state file_plain) 0 1 1 :=
  ⟨_, mk_op .VCODE_OP_ADD [0, 0] 1,
    state_of (plan_upto target_lp64 unit_two_spills 0 1 (zero_state file_plain))
      (zero_state file_plain),
    rfl, rfl, rfl, rfl, Or.inl rfl, by decide⟩

/-- In the plan of `unit_two_spills` the ADD at index 2 of block 0 spills its
result `r2`, which is used in block 1. -/
theorem unit_two_spills_second :
    spilled_reg target_lp64 unit_two_spills (zero_state file_plain) 0 2 2 :=
  ⟨_, mk_op .VCODE_OP_ADD [0, 0] 2,
    state_of (plan_upto target_lp64 unit_two_spills 0 2 (zero_state file_plain))
      (zero_state file_plain),
    rfl, rfl, rfl, rfl, Or.inl rfl, by decide⟩

/-- Witness of C27 on `unit_two_spills`: the variable is at `[-4, 0)`, the
spilled `r1` at `[-8, -4)` and the spilled `r2` at `[-12, -8)`. -/
theorem spill_slots_disjoint_witness :
    (jit_plan target_lp64 unit_two_spills (zero_state file_plain)
        = .ok (planned_state target_lp64 unit_two_spills (zero_state file_plain)) ∧
      spilled_reg target_lp64 unit_two_spills (zero_state file_plain) 0 1 1 ∧
      spilled_reg target_lp64 unit_two_spills (zero_state file_plain) 0 2 2 ∧
      ¬ (0 = 0 ∧ 1 = 2)) ∧
    ((1 : Nat) ≠ 2 ∧
      (((planned_state target_lp64 unit_two_spills (zero_state file_plain)).vcode_regs
            1).stack_offset
          + (((planned_state target_lp64 unit_two_spills (zero_state file_plain)).vcode_regs
            1).size : Int)
          ≤ ((planned_state target_lp64 unit_two_spills (zero_state file_plain)).vcode_regs
            2).stack_offset ∨
        ((planned_state target_lp64 unit_two_spills (zero_state file_plain)).vcode_regs
            2).stack_offset
          + (((planned_state target_lp64 unit_two_spills (zero_state file_plain)).vcode_regs
            2).size : Int)
          ≤ ((planned_state target_lp64 unit_two_spills (zero_state file_plain)).vcode_regs
            1).stack_offset)) ∧
    ((planned_state target_lp64 unit_two_spills (zero_state file_plain)).vcode_vars
      0).stack_offset = -4 ∧
    ((planned_state target_lp64 unit_two_spills (zero_state file_plain)).vcode_regs
      1).stack_offset = -8 ∧
    ((planned_state target_lp64 unit_two_spills (zero_state file_plain)).vcode_regs
      2).stack_offset = -12 ∧
    ((planned_state target_lp64 unit_two_spills (zero_state file_plain)).vcode_regs
      1).size = 4 :=
  ⟨⟨rfl, unit_two_spills_first, unit_two_spills_second, by decide⟩,
   (spill_slots_disjoint target_lp64 unit_two_spills (zero_state file_plain) _ rfl).1
     0 1 1 0 2 2 unit_two_spills_first unit_two_spills_second (by decide),
   by decide, by decide, by decide, by decide⟩

end Nvc
